import Mathlib

/-!
# fx7500g: the infix expression solver

A shallow embedding of `ExpressionSolver` (src/expression_solver.cpp, src/expression_solver.h)
and theorems about it.

What the embedding takes as given:

* `double` arithmetic and the C math library are not interpreted: they are the fields of `Env`,
  so a theorem that says "returns `a + b * c`" says which machine operations were applied to
  which operands, in which order.
* `misc.h`, `token.h`, `memory.h` are not among the sources.  The classifier functions of
  `misc.h` (`isOperator`, `isPreFunc`, `isPostFunc`, `isAlpha`, `isCipher`, `comparePriorities`,
  `toNumChar`) and the memory read are fields of `Env` as well; what a theorem needs of them is
  a hypothesis of that theorem.  The `Token` class is modelled, see `Token`.
* `QStack` is a list whose head is the top of the stack; `pop()`/`top()` on an empty stack is
  undefined behaviour in the source and is `Failure.undefinedBehaviour` here.
* Loops run on fuel; `Failure.outOfFuel` is the model running out of it, and the termination
  theorems show that the fuel `solve` hands out is always enough.
-/

namespace Fx7500g

/-- The calculator alphabet.  The enumeration itself lives in `misc.h`; the constructors are the
enumerators the sources name, and `other` stands for every remaining symbol (digits, letters,
anything else), told apart by a code. -/
inductive LCDChar
  | LCDChar_OpenParen | LCDChar_CloseParen | LCDChar_OpenBracket | LCDChar_CloseBracket
  | LCDChar_Dot
  | LCDChar_Multiply | LCDChar_Divide | LCDChar_Add | LCDChar_Substract
  | LCDOp_Xy | LCDOp_xSquareRoot
  | LCDChar_SquareRoot | LCDOp_CubeSquareRoot | LCDOp_Log | LCDChar_Ten | LCDOp_Ln
  | LCDChar_Euler
  | LCDOp_Sin | LCDOp_Cos | LCDOp_Tan | LCDOp_Sinh | LCDOp_Cosh | LCDOp_Tanh
  | LCDOp_Sin_1 | LCDOp_Cos_1 | LCDOp_Tan_1 | LCDOp_Sinh_1 | LCDOp_Cosh_1 | LCDOp_Tanh_1
  | LCDChar_MinusPrefix | LCDOp_Abs | LCDOp_Int | LCDOp_Frac
  | LCDChar_h | LCDChar_d | LCDChar_b | LCDChar_o | LCDOp_Neg | LCDOp_Not
  | LCDChar_Square | LCDChar_MinusOneUp | LCDChar_Exclamation
  | LCDChar_DegSuffix | LCDChar_RadSuffix | LCDChar_GradSuffix | LCDChar_Degree
  | LCDChar_Space | LCDChar_RBTriangle
  | other (code : Nat)
  deriving DecidableEq

open LCDChar

/-- A line of symbols (`TextLine`). -/
abbrev TextLine := List LCDChar

/-- The error kinds `InterpreterException` is raised with in the solver. -/
inductive Error
  | Error_Syntax | Error_Math | Error_Stack | Error_Memory
  deriving DecidableEq

/-- How a call can fail to return a value. -/
inductive Failure
  /-- `throw InterpreterException(error, offset)`. -/
  | InterpreterException (error : Error) (offset : Int)
  /-- `pop()`, `top()` or `operator[]` outside the container: undefined behaviour in the
  source. -/
  | undefinedBehaviour
  /-- The model ran out of loop fuel (never the case for `solve`, see the termination
  theorems). -/
  | outOfFuel
  deriving DecidableEq

open Error Failure

/-- The angle unit of `CalculatorState::angleMode()`. -/
inductive AngleMode
  | Deg | Rad | Grad
  deriving DecidableEq

/-- Everything the solver uses and the sources do not define: machine arithmetic on `double`
(carrier `α`), the C math library, the functions of `misc.h`, the memory and the calculator
state. -/
structure Env (α : Type) where
  /-- `isOperator(entity)` of `misc.h`. -/
  isOperator : LCDChar → Bool
  /-- `isPreFunc(entity)` of `misc.h`. -/
  isPreFunc : LCDChar → Bool
  /-- `isPostFunc(entity)` of `misc.h`. -/
  isPostFunc : LCDChar → Bool
  /-- `isAlpha(entity)` of `misc.h`. -/
  isAlpha : LCDChar → Bool
  /-- `isCipher(entity)` of `misc.h`. -/
  isCipher : LCDChar → Bool
  /-- `comparePriorities(entity1, entity2)` of `misc.h`. -/
  comparePriorities : LCDChar → LCDChar → Int
  /-- `toNumChar(entity)` of `misc.h`. -/
  toNumChar : LCDChar → Char
  /-- `QString::toDouble()`. -/
  toDouble : List Char → α
  /-- `0.0`. -/
  zero : α
  /-- `1.0`. -/
  one : α
  /-- `10.0`. -/
  ten : α
  /-- `d1 * d2`. -/
  mul : α → α → α
  /-- `d1 / d2`. -/
  div : α → α → α
  /-- `d1 + d2`. -/
  add : α → α → α
  /-- `d1 - d2`. -/
  sub : α → α → α
  /-- `pow(d1, d2)`. -/
  pow : α → α → α
  /-- `-d`. -/
  neg : α → α
  /-- `d == 0.0`. -/
  isZero : α → Bool
  /-- `d < 0.0`. -/
  isNegative : α → Bool
  /-- `(int) d`. -/
  toInt : α → Int
  /-- `(double) n`. -/
  ofInt : Int → α
  sqrt : α → α
  cbrt : α → α
  log10 : α → α
  log : α → α
  exp : α → α
  sin : α → α
  cos : α → α
  tan : α → α
  sinh : α → α
  cosh : α → α
  tanh : α → α
  asin : α → α
  acos : α → α
  atan : α → α
  asinh : α → α
  acosh : α → α
  atanh : α → α
  fabs : α → α
  /-- `factorial(d)` of `misc.h`: the value, or the error and offset it raises
  `InterpreterException` with. -/
  factorial : α → Except (Error × Int) α
  deg2rad : α → α
  rad2deg : α → α
  grad2rad : α → α
  rad2grad : α → α
  deg2grad : α → α
  grad2deg : α → α
  /-- `CalculatorState::instance().angleMode()`. -/
  angleMode : AngleMode
  /-- `Memory::instance().variable(entity, index, &overflow)`: the value and the overflow
  flag. -/
  memoryVariable : LCDChar → Int → α × Bool
  /-- The `value()` of a token built from an entity (for a variable, what it holds). -/
  entityValue : LCDChar → α
  /-- The `entity()` of a token built without one. -/
  noEntity : LCDChar
  /-- The `value()` of a token built without one. -/
  noValue : α
  /-- The `offset()` of the default-constructed `Token()`. -/
  noOffset : Int

/-- Modelled from the spec: the tag `Token::Type` of `token.h`.  `Type_EOF`, `Type_Number` and
`Type_OpenArrayVar` are named in the solver; `Type_Entity` stands for the tag of a token built
from an entity. -/
inductive TokenType
  | Type_EOF | Type_Number | Type_OpenArrayVar | Type_Entity
  deriving DecidableEq

open TokenType

/-- Modelled from the spec: the `Token` class of `token.h`, which is not among the sources.
A token is a tag, an entity, a numeric value and the offset it was read at (spec, data model).
The tag of `Token()` is `Type_EOF` (expression_solver.h: "Returns a token of type Type_EOF if
the token is not usable in expression"). -/
structure Token (α : Type) where
  tokenType : TokenType
  entity : LCDChar
  value : α
  offset : Int

variable {α : Type}

/-- Modelled from the spec: the constructor `Token()` of `token.h`; its tag is `Type_EOF`. -/
def Token.default (E : Env α) : Token α :=
  { tokenType := Type_EOF, entity := E.noEntity, value := E.noValue, offset := E.noOffset }

/-- Modelled from the spec: the constructor `Token(tokenType, offset)` of `token.h`. -/
def Token.ofType (E : Env α) (tokenType : TokenType) (offset : Int) : Token α :=
  { tokenType := tokenType, entity := E.noEntity, value := E.noValue, offset := offset }

/-- Modelled from the spec: the constructor `Token(entity, offset)` of `token.h`. -/
def Token.ofEntity (E : Env α) (entity : LCDChar) (offset : Int) : Token α :=
  { tokenType := Type_Entity, entity := entity, value := E.entityValue entity, offset := offset }

/-- Modelled from the spec: `Token::setEntity(entity)` of `token.h`. -/
def Token.setEntity (t : Token α) (entity : LCDChar) : Token α :=
  { t with entity := entity }

/-- Modelled from the spec: `Token::setValue(d)` of `token.h`. -/
def Token.setValue (t : Token α) (d : α) : Token α :=
  { t with value := d }

/-- Modelled from the spec: `Token::isEntity(entity)`; the token was built from this entity. -/
def Token.isEntity (t : Token α) (entity : LCDChar) : Bool :=
  t.tokenType == Type_Entity && t.entity == entity

/-- Modelled from the spec: `Token::isOperatorToken()`; a token built from an operator
entity. -/
def Token.isOperatorToken (E : Env α) (t : Token α) : Bool :=
  t.tokenType == Type_Entity && E.isOperator t.entity

/-- Modelled from the spec: `Token::isPreFuncToken()`; a token built from a prefix-function
entity. -/
def Token.isPreFuncToken (E : Env α) (t : Token α) : Bool :=
  t.tokenType == Type_Entity && E.isPreFunc t.entity

/-- Modelled from the spec: `Token::isPostFuncToken()`; a token built from a postfix-function
entity. -/
def Token.isPostFuncToken (E : Env α) (t : Token α) : Bool :=
  t.tokenType == Type_Entity && E.isPostFunc t.entity

/-- Modelled from the spec: `Token::isVariable()`; a token built from an alphabetic entity (an
indexed-variable opener is not one: `pushToken` sends it to the command stack). -/
def Token.isVariable (E : Env α) (t : Token α) : Bool :=
  t.tokenType == Type_Entity && E.isAlpha t.entity

/-- The fields of `ExpressionSolver` that change during `solve`; `_expression` is set once and
is passed along as an argument.  The head of a stack is its top. -/
structure State (α : Type) where
  currentOffset : Nat
  numberStack : List α
  commandStack : List (Token α)
  currentToken : Token α

/-- `_numberStackLimit`. -/
def numberStackLimit : Nat := 9

/-- `_commandStackLimit`. -/
def commandStackLimit : Nat := 20

/-- `_numberStack.pop()`. -/
def State.popNumber (st : State α) : Except Failure (α × State α) :=
  match st.numberStack with
  | [] => .error undefinedBehaviour
  | d :: rest => .ok (d, { st with numberStack := rest })

/-- `_numberStack.push(d)`. -/
def State.pushNumber (st : State α) (d : α) : State α :=
  { st with numberStack := d :: st.numberStack }

/-- `native2rad`. -/
def native2rad (E : Env α) (native : α) : α :=
  match E.angleMode with
  | .Deg => E.deg2rad native
  | .Rad => native
  | .Grad => E.grad2rad native

/-- `rad2native`. -/
def rad2native (E : Env α) (rad : α) : α :=
  match E.angleMode with
  | .Deg => E.rad2deg rad
  | .Rad => rad
  | .Grad => E.rad2grad rad

/-- `deg2native`. -/
def deg2native (E : Env α) (deg : α) : α :=
  match E.angleMode with
  | .Deg => deg
  | .Rad => E.deg2rad deg
  | .Grad => E.deg2grad deg

/-- `grad2native`. -/
def grad2native (E : Env α) (grad : α) : α :=
  match E.angleMode with
  | .Deg => E.grad2deg grad
  | .Rad => E.grad2rad grad
  | .Grad => grad

/-- The shape `_numberStack.push(f(_numberStack.pop()))`. -/
def State.mapTop (st : State α) (f : α → α) : Except Failure (State α) :=
  match st.popNumber with
  | .error e => .error e
  | .ok (d, st1) => .ok (st1.pushNumber (f d))

/-- `ExpressionSolver::performOperation`. -/
def performOperation (E : Env α) (entity : LCDChar) (st : State α) :
    Except Failure (State α) :=
  match entity with
  | LCDChar_Multiply | LCDChar_Divide | LCDChar_Add | LCDChar_Substract
  | LCDOp_Xy | LCDOp_xSquareRoot =>
    match st.popNumber with
    | .error e => .error e
    | .ok (d2, st1) =>
      match st1.popNumber with
      | .error e => .error e
      | .ok (d1, st2) =>
        match entity with
        | LCDChar_Multiply => .ok (st2.pushNumber (E.mul d1 d2))
        | LCDChar_Divide =>
          if E.isZero d2 then
            .error (InterpreterException Error_Math st.currentToken.offset)
          else .ok (st2.pushNumber (E.div d1 d2))
        | LCDChar_Add => .ok (st2.pushNumber (E.add d1 d2))
        | LCDChar_Substract => .ok (st2.pushNumber (E.sub d1 d2))
        | LCDOp_Xy => .ok (st2.pushNumber (E.pow d1 d2))
        | LCDOp_xSquareRoot => .ok (st2.pushNumber (E.pow d2 (E.div E.one d1)))
        | _ => .ok st2
  | LCDChar_SquareRoot =>
    match st.popNumber with
    | .error e => .error e
    | .ok (d, st1) =>
      if E.isNegative d then .error (InterpreterException Error_Math st.currentToken.offset)
      else .ok (st1.pushNumber (E.sqrt d))
  | LCDOp_CubeSquareRoot => st.mapTop E.cbrt
  | LCDOp_Log => st.mapTop E.log10
  | LCDChar_Ten => st.mapTop (fun d => E.pow E.ten d)
  | LCDOp_Ln => st.mapTop E.log
  | LCDChar_Euler => st.mapTop E.exp
  | LCDOp_Sin => st.mapTop (fun d => E.sin (native2rad E d))
  | LCDOp_Cos => st.mapTop (fun d => E.cos (native2rad E d))
  | LCDOp_Tan => st.mapTop (fun d => E.tan (native2rad E d))
  | LCDOp_Sinh => st.mapTop E.sinh
  | LCDOp_Cosh => st.mapTop E.cosh
  | LCDOp_Tanh => st.mapTop E.tanh
  | LCDOp_Sin_1 => st.mapTop (fun d => E.rad2deg (E.asin d))
  | LCDOp_Cos_1 => st.mapTop (fun d => E.rad2deg (E.acos d))
  | LCDOp_Tan_1 => st.mapTop (fun d => E.rad2deg (E.atan d))
  | LCDOp_Sinh_1 => st.mapTop E.asinh
  | LCDOp_Cosh_1 => st.mapTop E.acosh
  | LCDOp_Tanh_1 => st.mapTop E.atanh
  | LCDChar_MinusPrefix => st.mapTop E.neg
  | LCDOp_Abs => st.mapTop E.fabs
  | LCDOp_Int => st.mapTop (fun d => E.ofInt (E.toInt d))
  | LCDOp_Frac => st.mapTop (fun n => E.sub n (E.ofInt (E.toInt n)))
  | LCDChar_h => .ok st
  | LCDChar_d => .ok st
  | LCDChar_b => .ok st
  | LCDChar_o => .ok st
  | LCDOp_Neg => .ok st
  | LCDOp_Not => .ok st
  | LCDChar_Square => st.mapTop (fun n => E.mul n n)
  | LCDChar_MinusOneUp => st.mapTop (fun d => E.div E.one d)
  | LCDChar_Exclamation =>
    match st.popNumber with
    | .error e => .error e
    | .ok (d, st1) =>
      match E.factorial d with
      | .error (error, offset) => .error (InterpreterException error offset)
      | .ok r => .ok (st1.pushNumber r)
  | LCDChar_DegSuffix => st.mapTop (deg2native E)
  | LCDChar_RadSuffix => st.mapTop (rad2native E)
  | LCDChar_GradSuffix => st.mapTop (grad2native E)
  | LCDChar_Degree => .ok st
  | _ => .ok st

/-- The indexed-variable resolution shared by the close-bracket branch of `solve` and by
`performStackOperations`: with the opener already popped, pop the index, read the memory, push
what it returns, and raise a memory error at `errorOffset` when the read overflowed. -/
def resolveArrayVar (E : Env α) (entity : LCDChar) (errorOffset : Int) (st : State α) :
    Except Failure (State α) :=
  match st.popNumber with
  | .error e => .error e
  | .ok (d, st1) =>
    let index := E.toInt d
    let r := E.memoryVariable entity index
    let st2 := st1.pushNumber r.1
    if r.2 then .error (InterpreterException Error_Memory errorOffset)
    else .ok st2

/-- The `while` loop of `ExpressionSolver::performStackOperations`, on fuel. -/
def performStackOperationsLoop (E : Env α) (treatOpenParens treatOpenBracket : Bool) :
    Nat → State α → Except Failure (State α)
  | 0, _ => .error outOfFuel
  | fuel + 1, st =>
    match st.commandStack with
    | [] => .ok st
    | top :: rest =>
      if top.isOperatorToken E || top.isPreFuncToken E || top.isPostFuncToken E then
        match performOperation E top.entity { st with commandStack := rest } with
        | .error e => .error e
        | .ok st1 => performStackOperationsLoop E treatOpenParens treatOpenBracket fuel st1
      else if top.isEntity LCDChar_OpenParen && treatOpenParens then
        performStackOperationsLoop E treatOpenParens treatOpenBracket fuel
          { st with commandStack := rest }
      else if top.tokenType == Type_OpenArrayVar && treatOpenBracket then
        match resolveArrayVar E top.entity 0 { st with commandStack := rest } with
        | .error e => .error e
        | .ok st1 => performStackOperationsLoop E treatOpenParens treatOpenBracket fuel st1
      else .ok st

/-- `ExpressionSolver::performStackOperations`: every turn of the loop pops one entry of the
command stack, so one more turn than the stack has entries is all the loop can make. -/
def performStackOperations (E : Env α) (treatOpenParens treatOpenBracket : Bool)
    (st : State α) : Except Failure (State α) :=
  performStackOperationsLoop E treatOpenParens treatOpenBracket (st.commandStack.length + 1) st

/-- The `while` loop of `ExpressionSolver::parseNumber`, on fuel: the running offset and the
string built so far. -/
def parseNumberLoop (E : Env α) (expression : TextLine) :
    Nat → Nat → List Char → Except Failure (List Char × Nat)
  | 0, _, _ => .error outOfFuel
  | fuel + 1, offset, numberStr =>
    match expression[offset]? with
    | none => .ok (numberStr, offset)
    | some c =>
      if E.isCipher c || c == LCDChar_Dot then
        if E.isCipher c then
          parseNumberLoop E expression fuel (offset + 1) (numberStr ++ [E.toNumChar c])
        else if !numberStr.contains '.' then
          parseNumberLoop E expression fuel (offset + 1) (numberStr ++ ['.'])
        else .error (InterpreterException Error_Syntax offset)
      else .ok (numberStr, offset)

/-- `ExpressionSolver::parseNumber`: the value and the offset written back.  The loop starts
one symbol further and stops at the end of the line at the latest. -/
def parseNumber (E : Env α) (expression : TextLine) (offset : Nat) :
    Except Failure (α × Nat) :=
  match expression[offset]? with
  | none => .error undefinedBehaviour
  | some c =>
    if c != LCDChar_Dot && !E.isCipher c then .ok (E.zero, offset)
    else
      match parseNumberLoop E expression (expression.length - offset) (offset + 1)
          [E.toNumChar c] with
      | .error e => .error e
      | .ok (numberStr, offset1) => .ok (E.toDouble numberStr, offset1)

/-- `ExpressionSolver::readToken`: the token read; the state has the new `_currentOffset` and
`_currentToken`. -/
def readToken (E : Env α) (expression : TextLine) (st : State α) :
    Except Failure (Token α × State α) :=
  match expression[st.currentOffset]? with
  | none =>
    let t : Token α := Token.ofType E Type_EOF expression.length
    .ok (t, { st with currentToken := t })
  | some entity =>
    match entity with
    | LCDChar_OpenParen | LCDChar_CloseParen | LCDChar_CloseBracket =>
      let t := Token.ofEntity E entity st.currentOffset
      .ok (t, { st with currentToken := t, currentOffset := st.currentOffset + 1 })
    | _ =>
      if E.isOperator entity || E.isPreFunc entity || E.isPostFunc entity then
        let t := Token.ofEntity E entity st.currentOffset
        .ok (t, { st with currentToken := t, currentOffset := st.currentOffset + 1 })
      else if E.isAlpha entity then
        if expression[st.currentOffset + 1]? = some LCDChar_OpenBracket then
          let t := (Token.ofType E Type_OpenArrayVar st.currentOffset).setEntity entity
          .ok (t, { st with currentToken := t, currentOffset := st.currentOffset + 2 })
        else
          let t := Token.ofEntity E entity st.currentOffset
          .ok (t, { st with currentToken := t, currentOffset := st.currentOffset + 1 })
      else if E.isCipher entity || entity == LCDChar_Dot then
        match parseNumber E expression st.currentOffset with
        | .error e => .error e
        | .ok (d, offset1) =>
          let t := (Token.ofType E Type_Number st.currentOffset).setValue d
          .ok (t, { st with currentToken := t, currentOffset := offset1 })
      else
        let t : Token α := Token.default E
        .ok (t, { st with currentToken := t })

/-- `ExpressionSolver::pushToken`. -/
def pushToken (E : Env α) (token : Token α) (st : State α) : Except Failure (State α) :=
  if token.tokenType == Type_Number || token.isVariable E then
    if st.numberStack.length < numberStackLimit then
      .ok { st with numberStack := token.value :: st.numberStack }
    else .error (InterpreterException Error_Stack token.offset)
  else
    if st.commandStack.length < commandStackLimit then
      .ok { st with commandStack := token :: st.commandStack }
    else .error (InterpreterException Error_Stack token.offset)

/-- `ExpressionSolver::analyzeForSyntaxError`. -/
def analyzeForSyntaxError (E : Env α) (token previousToken : Token α) : Except Failure Unit :=
  if previousToken.isOperatorToken E || previousToken.isPreFuncToken E ||
      previousToken.isEntity LCDChar_OpenParen ||
      previousToken.tokenType == Type_OpenArrayVar then
    if token.isOperatorToken E || token.isPostFuncToken E ||
        token.isEntity LCDChar_CloseParen || token.isEntity LCDChar_CloseBracket ||
        token.tokenType == Type_EOF then
      .error (InterpreterException Error_Syntax token.offset)
    else .ok ()
  else if previousToken.isPostFuncToken E || previousToken.isEntity LCDChar_CloseParen ||
      previousToken.isVariable E then
    if token.tokenType == Type_Number then
      .error (InterpreterException Error_Syntax token.offset)
    else .ok ()
  else .ok ()

/-- `ExpressionSolver::isExpressionStartEntity`. -/
def isExpressionStartEntity (E : Env α) (entity : LCDChar) : Bool :=
  entity == LCDChar_OpenParen || E.isPreFunc entity || E.isCipher entity ||
    E.isAlpha entity || entity == LCDChar_Dot

/-- The reduction both the operator branch and the postfix branch of `solve` start with: when
the command stack is not empty and `reducible` holds of its top entity and
`comparePriorities(entity, top) <= 0`, pop the top and apply it. -/
def reduceTop (E : Env α) (reducible : LCDChar → Bool) (entity : LCDChar) (st : State α) :
    Except Failure (State α) :=
  match st.commandStack with
  | [] => .ok st
  | top :: rest =>
    if reducible top.entity then
      if E.comparePriorities entity top.entity ≤ 0 then
        performOperation E top.entity { st with commandStack := rest }
      else .ok st
    else .ok st

/-- The dispatch on the token in the body of the scanning loop of `solve` (after the adjacency
check and up to `previousToken = token`).  The flag says whether the loop is left by `break`
(the stray close-bracket). -/
def dispatchToken (E : Env α) (token : Token α) (st : State α) :
    Except Failure (State α × Bool) :=
  if token.tokenType == Type_Number || token.isVariable E ||
      token.tokenType == Type_OpenArrayVar || token.isPreFuncToken E ||
      token.isEntity LCDChar_OpenParen then
    match pushToken E token st with
    | .error e => .error e
    | .ok st1 => .ok (st1, false)
  else if token.isOperatorToken E then
    match reduceTop E (fun e => E.isOperator e || E.isPreFunc e) token.entity st with
    | .error e => .error e
    | .ok st1 =>
      match pushToken E token st1 with
      | .error e => .error e
      | .ok st2 => .ok (st2, false)
  else if token.isPostFuncToken E then
    match reduceTop E (fun e => E.isOperator e || E.isPreFunc e || E.isPostFunc e)
        token.entity st with
    | .error e => .error e
    | .ok st1 =>
      match performOperation E token.entity st1 with
      | .error e => .error e
      | .ok st2 => .ok (st2, false)
  else if token.isEntity LCDChar_CloseParen then
    match performStackOperations E false false st with
    | .error e => .error e
    | .ok st1 =>
      match st1.commandStack with
      | [] => .error (InterpreterException Error_Syntax token.offset)
      | top :: rest =>
        if top.entity == LCDChar_OpenParen then .ok ({ st1 with commandStack := rest }, false)
        else .error (InterpreterException Error_Syntax token.offset)
  else if token.isEntity LCDChar_CloseBracket then
    match performStackOperations E true false st with
    | .error e => .error e
    | .ok st1 =>
      match st1.commandStack with
      | [] => .ok ({ st1 with currentOffset := st1.currentOffset - 1 }, true)
      | top :: rest =>
        if top.tokenType == Type_OpenArrayVar then
          match resolveArrayVar E top.entity token.offset { st1 with commandStack := rest } with
          | .error e => .error e
          | .ok st2 => .ok (st2, false)
        else .ok ({ st1 with currentOffset := st1.currentOffset - 1 }, true)
  else .ok (st, false)

/-- The scanning loop of `solve`, on fuel: the state, `token` and `previousToken` as they are
when the loop is left. -/
def solveLoop (E : Env α) (expression : TextLine) :
    Nat → State α → Token α → Except Failure (State α × Token α × Token α)
  | 0, _, _ => .error outOfFuel
  | fuel + 1, st, previousToken =>
    match readToken E expression st with
    | .error e => .error e
    | .ok (token, st1) =>
      if token.tokenType == Type_EOF then .ok (st1, token, previousToken)
      else
        match analyzeForSyntaxError E token previousToken with
        | .error e => .error e
        | .ok _ =>
          match dispatchToken E token st1 with
          | .error e => .error e
          | .ok (st2, true) => .ok (st2, Token.default E, previousToken)
          | .ok (st2, false) => solveLoop E expression fuel st2 token

/-- The state `solve` starts from. -/
def initialState (E : Env α) (offset : Nat) : State α :=
  { currentOffset := offset, numberStack := [], commandStack := [],
    currentToken := Token.default E }

/-- `ExpressionSolver::solve` with the scanning loop on `fuel`: the value returned and the
offset written back. -/
def solveWithFuel (E : Env α) (fuel : Nat) (expression : TextLine) (offset : Nat) :
    Except Failure (α × Nat) :=
  match solveLoop E expression fuel (initialState E offset) (Token.default E) with
  | .error e => .error e
  | .ok (st, token, previousToken) =>
    match analyzeForSyntaxError E token previousToken with
    | .error e => .error e
    | .ok _ =>
      match performStackOperations E true true st with
      | .error e => .error e
      | .ok st1 =>
        match st1.numberStack with
        | [] => .error undefinedBehaviour
        | top :: _ => .ok (top, st1.currentOffset)

/-- `ExpressionSolver::solve`.  Every turn of the scanning loop but the last reads at least one
symbol, so the loop makes at most one turn more than there are symbols from `offset` on. -/
def solve (E : Env α) (expression : TextLine) (offset : Nat) : Except Failure (α × Nat) :=
  solveWithFuel E (expression.length - offset + 1) expression offset

/-- A symbol a numeric literal may hold: a cipher or the decimal point. -/
def Env.isNumeric (E : Env α) (c : LCDChar) : Bool :=
  E.isCipher c || c == LCDChar_Dot

/-- The classes `readToken` and the dispatch of `solve` tell apart, as flags of a symbol. -/
def Env.classes (E : Env α) (e : LCDChar) : List Bool :=
  [E.isOperator e, E.isPreFunc e, E.isPostFunc e, E.isAlpha e, E.isCipher e,
    e == LCDChar_Dot, e == LCDChar_OpenParen, e == LCDChar_CloseParen,
    e == LCDChar_CloseBracket]

/-- What the functions of `misc.h` are taken to satisfy.  A symbol is in at most one of the
classes operator, prefix function, postfix function, letter, cipher, decimal point, open-paren,
close-paren, close-bracket (a token has one kind), and the character `toNumChar` gives for a
cipher is not the decimal point. -/
structure Env.Coherent (E : Env α) : Prop where
  unambiguous : ∀ e, (E.classes e).Pairwise (fun x y => ¬ (x = true ∧ y = true))
  cipher_char : ∀ e, E.isCipher e = true → E.toNumChar e ≠ '.'

/-- The character `parseNumber` appends for a symbol after the first one. -/
def numberChar (E : Env α) (c : LCDChar) : Char :=
  if E.isCipher c then E.toNumChar c else '.'

/-- The string `parseNumber` builds from a literal. -/
def numberString (E : Env α) : TextLine → List Char
  | [] => []
  | c :: rest => E.toNumChar c :: rest.map (numberChar E)

/-- The value of a literal: `toDouble` of the string built from it. -/
def literalValue (E : Env α) (a : TextLine) : α :=
  E.toDouble (numberString E a)

/-- A numeric literal: a non-empty run of ciphers and decimal points with at most one
decimal point. -/
def IsLiteral (E : Env α) (a : TextLine) : Prop :=
  a ≠ [] ∧ (∀ c ∈ a, E.isNumeric c = true) ∧ a.count LCDChar_Dot ≤ 1

instance (E : Env α) (a : TextLine) : Decidable (IsLiteral E a) := by
  unfold IsLiteral
  exact inferInstance

/-- What follows a literal does not continue it: the line ends there, or the next symbol is
neither a cipher nor a decimal point. -/
def EndsNumber (E : Env α) (rest : TextLine) : Prop :=
  ∀ c, rest.head? = some c → E.isNumeric c = false

/-- The token `readToken` builds for a literal that starts at `offset`. -/
def numberToken (E : Env α) (offset : Nat) (d : α) : Token α :=
  (Token.ofType E Type_Number offset).setValue d

/-- The token `readToken` builds for a letter that an open-bracket follows. -/
def openerToken (E : Env α) (entity : LCDChar) (offset : Nat) : Token α :=
  (Token.ofType E Type_OpenArrayVar offset).setEntity entity

/-- A symbol `readToken` makes a token of (any other one yields `Token()`). -/
def Env.isUsable (E : Env α) (c : LCDChar) : Bool :=
  c == LCDChar_OpenParen || c == LCDChar_CloseParen || c == LCDChar_CloseBracket ||
    E.isOperator c || E.isPreFunc c || E.isPostFunc c || E.isAlpha c || E.isCipher c ||
    c == LCDChar_Dot

/-- What an operation on the stacks has to leave alone: it does not run out of fuel, and when
it returns, the cursor, the command stack and the current token are as before. -/
def KeepsFrame (st : State α) (r : Except Failure (State α)) : Prop :=
  r ≠ .error outOfFuel ∧
    ∀ st1, r = .ok st1 → st1.currentOffset = st.currentOffset ∧
      st1.commandStack = st.commandStack ∧ st1.currentToken = st.currentToken

/-- What one dispatch in the scanning loop does to the cursor: nothing, unless it leaves the
loop on a stray close-bracket, in which case the cursor steps back by one. -/
def DispatchFrame (token : Token α) (st : State α)
    (r : Except Failure (State α × Bool)) : Prop :=
  r ≠ .error outOfFuel ∧
    ∀ st1 b, r = .ok (st1, b) →
      (b = false → st1.currentOffset = st.currentOffset) ∧
      (b = true → st1.currentOffset = st.currentOffset - 1 ∧
        token.isEntity LCDChar_CloseBracket = true)

/-- Where the scanning loop can stop: at the end of the line, at a stray close-bracket, or at a
symbol `readToken` makes no token of. -/
def StopsAt (E : Env α) (expression : TextLine) (offset : Nat) : Prop :=
  expression.length ≤ offset ∨ expression[offset]? = some LCDChar_CloseBracket ∨
    ∃ c, expression[offset]? = some c ∧ E.isUsable c = false

/-- The index, in a run of symbols, of its second decimal point (when it has two). -/
def secondDotIndex (run : TextLine) : Nat :=
  run.indexOf LCDChar_Dot + 1 + (run.drop (run.indexOf LCDChar_Dot + 1)).indexOf LCDChar_Dot

/-- The bounds of the two stacks: at most `_numberStackLimit` values and at most
`_commandStackLimit` tokens. -/
def Bounded (st : State α) : Prop :=
  st.numberStack.length ≤ numberStackLimit ∧ st.commandStack.length ≤ commandStackLimit

/-- The value an `int` holds after an arithmetic operation whose exact result is `x`: `x`
reduced to 32 bits, two's complement. -/
def wrapInt (x : Int) : Int :=
  (x + 2147483648) % 4294967296 - 2147483648

/-- Modelled from the spec: `LCDString`, whose declaration is not among the sources; the
functions of `ShellLine` use it as a sequence of symbols with `count()` and `operator[]`. -/
abbrev LCDString := List LCDChar

/-- A `ShellLine`: the list of strings it is (`QList<LCDString>`) and its
`_isRightJustified` flag. -/
structure ShellLine where
  strings : List LCDString
  isRightJustified : Bool

/-- `QList::count()` of a `ShellLine`: the number of its strings. -/
def ShellLine.count (line : ShellLine) : Int :=
  line.strings.length

/-- `ShellLine::length`. -/
def ShellLine.length (line : ShellLine) : Int :=
  line.strings.foldl (fun length lcdStr => wrapInt (length + lcdStr.length)) 0

/-- The `foreach` loop of `ShellLine::charAtOffset`, with the `return LCDChar_Space` that
follows it; `none` when `lcdStr[l]` is out of range. -/
def charAtOffsetLoop : List LCDString → Int → Option LCDChar
  | [], _ => some LCDChar_Space
  | lcdStr :: rest, l =>
    if wrapInt (l - lcdStr.length) ≥ 0 then
      charAtOffsetLoop rest (wrapInt (l - lcdStr.length))
    else if 0 ≤ l then lcdStr[l.toNat]?
    else none

/-- `ShellLine::charAtOffset`. -/
def ShellLine.charAtOffset (line : ShellLine) (offset : Int) : Option LCDChar :=
  if offset ≥ line.length then some LCDChar_Space
  else charAtOffsetLoop line.strings offset

/-- The `foreach` loop of `ShellLine::stringIndexAtOffset`, with the `return -1` that follows
it. -/
def stringIndexAtOffsetLoop : List LCDString → Int → Int → Int
  | [], _, _ => -1
  | lcdStr :: rest, l, index =>
    if wrapInt (l - lcdStr.length) ≥ 0 then
      stringIndexAtOffsetLoop rest (wrapInt (l - lcdStr.length)) (wrapInt (index + 1))
    else index

/-- `ShellLine::stringIndexAtOffset`; `none` when the assertion `offset >= 0` fails. -/
def ShellLine.stringIndexAtOffset (line : ShellLine) (offset : Int) : Option Int :=
  if offset ≥ 0 then
    if offset ≥ line.length then some line.count
    else some (stringIndexAtOffsetLoop line.strings offset 0)
  else none

/-! ### A concrete environment

Exact rational arithmetic in the place of `double`, a small classifier and a small memory.  It
instantiates the theorems below on concrete lines; nothing is proved from it alone. -/

/-- The digit `n` as a symbol of the sample alphabet (its ASCII code). -/
def digit (n : Nat) : LCDChar := other (48 + n)

/-- The letter `A` as a symbol of the sample alphabet. -/
def letterA : LCDChar := other 65

/-- The number a string of decimal digits denotes. -/
def digitsValue (s : List Char) : Nat :=
  s.foldl (fun n c => 10 * n + (c.toNat - 48)) 0

/-- The rational a decimal string denotes; `0` when the string is not digits around at most
one point. -/
def decimalValue (s : List Char) : ℚ :=
  let intPart := s.takeWhile (fun c => c != '.')
  let fracPart := (s.dropWhile (fun c => c != '.')).drop 1
  if (intPart ++ fracPart).all Char.isDigit then
    (digitsValue (intPart ++ fracPart) : ℚ) / 10 ^ fracPart.length
  else 0

/-- Binding priority in the sample classifier. -/
def samplePriority : LCDChar → Int
  | LCDChar_Add | LCDChar_Substract => 1
  | LCDChar_Multiply | LCDChar_Divide => 2
  | LCDOp_Xy | LCDOp_xSquareRoot => 4
  | LCDChar_Square | LCDChar_MinusOneUp | LCDChar_Exclamation
  | LCDChar_DegSuffix | LCDChar_RadSuffix | LCDChar_GradSuffix | LCDChar_Degree => 5
  | _ => 3

/-- The sample environment: the operators, prefix and postfix functions are the entities
`performOperation` handles under these headings, digits and capital letters are the ASCII
ones, a function of the C math library that has no rational value returns `0`, and the memory
holds `10 * index` in cells `0..25` of every variable.  The cast `(int)` truncates toward zero
when the result fits in an `int`; out of that range it gives `INT_MIN`, as the conversion
instruction of the x86 does. -/
def sampleEnv : Env ℚ where
  isOperator := fun e =>
    match e with
    | LCDChar_Multiply | LCDChar_Divide | LCDChar_Add | LCDChar_Substract
    | LCDOp_Xy | LCDOp_xSquareRoot => true
    | _ => false
  isPreFunc := fun e =>
    match e with
    | LCDChar_SquareRoot | LCDOp_CubeSquareRoot | LCDOp_Log | LCDChar_Ten | LCDOp_Ln
    | LCDChar_Euler | LCDOp_Sin | LCDOp_Cos | LCDOp_Tan | LCDOp_Sinh | LCDOp_Cosh
    | LCDOp_Tanh | LCDOp_Sin_1 | LCDOp_Cos_1 | LCDOp_Tan_1 | LCDOp_Sinh_1 | LCDOp_Cosh_1
    | LCDOp_Tanh_1 | LCDChar_MinusPrefix | LCDOp_Abs | LCDOp_Int | LCDOp_Frac
    | LCDChar_h | LCDChar_d | LCDChar_b | LCDChar_o | LCDOp_Neg | LCDOp_Not => true
    | _ => false
  isPostFunc := fun e =>
    match e with
    | LCDChar_Square | LCDChar_MinusOneUp | LCDChar_Exclamation
    | LCDChar_DegSuffix | LCDChar_RadSuffix | LCDChar_GradSuffix | LCDChar_Degree => true
    | _ => false
  isAlpha := fun e =>
    match e with
    | other n => decide (65 ≤ n) && decide (n ≤ 90)
    | _ => false
  isCipher := fun e =>
    match e with
    | other n => decide (48 ≤ n) && decide (n ≤ 57)
    | _ => false
  comparePriorities := fun e1 e2 => samplePriority e1 - samplePriority e2
  toNumChar := fun e =>
    match e with
    | other n => Char.ofNat n
    | LCDChar_Dot => '.'
    | _ => ' '
  toDouble := decimalValue
  zero := 0
  one := 1
  ten := 10
  mul := fun x y => x * y
  div := fun x y => x / y
  add := fun x y => x + y
  sub := fun x y => x - y
  pow := fun x y => if y.den = 1 then x ^ y.num else 0
  neg := fun x => -x
  isZero := fun x => decide (x = 0)
  isNegative := fun x => decide (x < 0)
  toInt := fun x =>
    if -2147483649 < x ∧ x < 2147483648 then (if 0 ≤ x then ⌊x⌋ else ⌈x⌉) else -2147483648
  ofInt := fun n => (n : ℚ)
  sqrt := fun _ => 0
  cbrt := fun _ => 0
  log10 := fun _ => 0
  log := fun _ => 0
  exp := fun _ => 0
  sin := fun _ => 0
  cos := fun _ => 0
  tan := fun _ => 0
  sinh := fun _ => 0
  cosh := fun _ => 0
  tanh := fun _ => 0
  asin := fun _ => 0
  acos := fun _ => 0
  atan := fun _ => 0
  asinh := fun _ => 0
  acosh := fun _ => 0
  atanh := fun _ => 0
  fabs := fun x => |x|
  factorial := fun x =>
    if x.den = 1 ∧ 0 ≤ x.num then .ok ((Nat.factorial x.num.toNat : Nat) : ℚ)
    else .error (Error_Math, 0)
  deg2rad := fun _ => 0
  rad2deg := fun _ => 0
  grad2rad := fun _ => 0
  rad2grad := fun _ => 0
  deg2grad := fun x => x * 10 / 9
  grad2deg := fun x => x * 9 / 10
  angleMode := AngleMode.Deg
  memoryVariable := fun _ index =>
    if 0 ≤ index ∧ index < 26 then ((10 * index : Int), false) else (0, true)
  entityValue := fun _ => 0
  noEntity := LCDChar_Space
  noValue := 0
  noOffset := 0

/-! ## Theorems

### The classifier and the tokenizer -/

/-- An operator symbol is in no other class. -/
theorem Env.Coherent.operator {E : Env α} (hE : E.Coherent) {e : LCDChar}
    (h : E.isOperator e = true) :
    E.isPreFunc e = false ∧ E.isPostFunc e = false ∧ E.isAlpha e = false ∧
      E.isCipher e = false ∧ e ≠ LCDChar_Dot ∧ e ≠ LCDChar_OpenParen ∧
      e ≠ LCDChar_CloseParen ∧ e ≠ LCDChar_CloseBracket := by
  have h1 := hE.unambiguous e
  simp [Env.classes, h] at h1
  simp [h1]

/-- A cipher is in no other class. -/
theorem Env.Coherent.cipher {E : Env α} (hE : E.Coherent) {e : LCDChar}
    (h : E.isCipher e = true) :
    E.isOperator e = false ∧ E.isPreFunc e = false ∧ E.isPostFunc e = false ∧ E.isAlpha e = false ∧
      e ≠ LCDChar_Dot ∧ e ≠ LCDChar_OpenParen ∧
      e ≠ LCDChar_CloseParen ∧ e ≠ LCDChar_CloseBracket := by
  have h1 := hE.unambiguous e
  simp [Env.classes, h] at h1
  simp [h1]

/-- The decimal point is in none of the classes of `misc.h`. -/
theorem Env.Coherent.dot {E : Env α} (hE : E.Coherent) :
    E.isOperator LCDChar_Dot = false ∧ E.isPreFunc LCDChar_Dot = false ∧ E.isPostFunc LCDChar_Dot = false ∧ E.isAlpha LCDChar_Dot = false ∧
      E.isCipher LCDChar_Dot = false := by
  have h1 := hE.unambiguous LCDChar_Dot
  simp [Env.classes] at h1
  simp [h1]

theorem getElem?_mid (pre rest : TextLine) (c : LCDChar) :
    (pre ++ c :: rest)[pre.length]? = some c := by
  rw [List.getElem?_append_right (Nat.le_refl _)]
  simp

/-- The loop of `parseNumber` over the rest of a literal: it appends one character per symbol
and stops right after the literal, given that the string so far holds no point when the rest
still has one. -/
theorem parseNumberLoop_run (E : Env α) (hE : E.Coherent) (rest : TextLine)
    (hrest : EndsNumber E rest) :
    ∀ (a pre : TextLine) (s : List Char) (fuel : Nat),
      (∀ c ∈ a, E.isNumeric c = true) →
      (a.count LCDChar_Dot = 0 ∨ ('.' ∉ s ∧ a.count LCDChar_Dot ≤ 1)) →
      a.length < fuel →
      parseNumberLoop E (pre ++ a ++ rest) fuel pre.length s
        = .ok (s ++ a.map (numberChar E), pre.length + a.length) := by
  intro a
  induction a with
  | nil =>
    intro pre s fuel _ _ hfuel
    obtain ⟨f, rfl⟩ : ∃ f, fuel = f + 1 := ⟨fuel - 1, by simp at hfuel; omega⟩
    cases rest with
    | nil => simp [parseNumberLoop]
    | cons c rest =>
      have hc : E.isNumeric c = false := hrest c rfl
      simp only [Env.isNumeric] at hc
      rw [parseNumberLoop, List.append_nil, getElem?_mid]
      simp [hc]
  | cons c a ih =>
    intro pre s fuel hnum hdot hfuel
    obtain ⟨f, rfl⟩ : ∃ f, fuel = f + 1 := ⟨fuel - 1, by simp at hfuel; omega⟩
    have hc : E.isNumeric c = true := hnum c (by simp)
    have hnum1 : ∀ x ∈ a, E.isNumeric x = true := fun x hx => hnum x (by simp [hx])
    have hf : a.length < f := by simp at hfuel; omega
    have hexpr : pre ++ c :: a ++ rest = (pre ++ [c]) ++ a ++ rest := by simp
    have hget : (pre ++ c :: a ++ rest)[pre.length]? = some c := by
      rw [List.append_assoc, List.cons_append, getElem?_mid]
    have hlen : pre.length + 1 = (pre ++ [c]).length := by simp
    simp only [Env.isNumeric] at hc
    rw [parseNumberLoop, hget]
    simp only [hc, if_true]
    by_cases hcip : E.isCipher c = true
    · have hne : c ≠ LCDChar_Dot := (hE.cipher hcip).2.2.2.2.1
      have hcount : List.count LCDChar_Dot (c :: a) = List.count LCDChar_Dot a := by
        rw [List.count_cons_of_ne hne.symm]
      have hch := hE.cipher_char c hcip
      rw [hcount] at hdot
      simp only [hcip, if_true]
      rw [hexpr, hlen, ih (pre ++ [c]) (s ++ [E.toNumChar c]) f hnum1 _ hf]
      · simp [numberChar, hcip]; omega
      · rcases hdot with h | ⟨h1, h2⟩
        · exact Or.inl h
        · refine Or.inr ⟨?_, h2⟩
          simp [h1]
          exact fun h => hch h.symm
    · have hcd : c = LCDChar_Dot := by simpa [hcip] using hc
      subst hcd
      have hcount : List.count LCDChar_Dot (LCDChar_Dot :: a) = List.count LCDChar_Dot a + 1 := by
        simp
      rw [hcount] at hdot
      have hs : '.' ∉ s := by
        rcases hdot with h | ⟨h1, _⟩
        · omega
        · exact h1
      have ha0 : List.count LCDChar_Dot a = 0 := by
        rcases hdot with h | ⟨_, h2⟩
        · omega
        · omega
      have hs1 : s.contains '.' = false := by simpa using hs
      simp only [hcip, hs1, Bool.false_eq_true, if_false, Bool.not_false, if_true]
      rw [hexpr, hlen, ih (pre ++ [LCDChar_Dot]) (s ++ ['.']) f hnum1 (Or.inl ha0) hf]
      simp [numberChar, hcip]; omega

/-- `parseNumber` at the start of a literal returns its value and the offset just past it. -/
theorem parseNumber_literal (E : Env α) (hE : E.Coherent) (pre a rest : TextLine)
    (ha : IsLiteral E a) (hrest : EndsNumber E rest) :
    parseNumber E (pre ++ a ++ rest) pre.length
      = .ok (literalValue E a, pre.length + a.length) := by
  obtain ⟨hne, hnum, hdot⟩ := ha
  cases a with
  | nil => exact absurd rfl hne
  | cons c a =>
    have hc : E.isNumeric c = true := hnum c (by simp)
    have hnum1 : ∀ x ∈ a, E.isNumeric x = true := fun x hx => hnum x (by simp [hx])
    have hexpr : pre ++ c :: a ++ rest = (pre ++ [c]) ++ a ++ rest := by simp
    have hget : (pre ++ c :: a ++ rest)[pre.length]? = some c := by
      rw [List.append_assoc, List.cons_append, getElem?_mid]
    have hlen : pre.length + 1 = (pre ++ [c]).length := by simp
    have hfuel : a.length < (pre ++ c :: a ++ rest).length - pre.length := by
      simp; omega
    have hcond : List.count LCDChar_Dot a = 0 ∨
        ('.' ∉ [E.toNumChar c] ∧ List.count LCDChar_Dot a ≤ 1) := by
      by_cases hcip : E.isCipher c = true
      · have hne1 : c ≠ LCDChar_Dot := (hE.cipher hcip).2.2.2.2.1
        rw [List.count_cons_of_ne hne1.symm] at hdot
        refine Or.inr ⟨?_, hdot⟩
        simp
        exact fun h => hE.cipher_char c hcip h.symm
      · have hcd : c = LCDChar_Dot := by simpa [Env.isNumeric, hcip] using hc
        subst hcd
        left
        simp at hdot
        exact hdot
    have hguard : (c != LCDChar_Dot && !E.isCipher c) = false := by
      simp only [Env.isNumeric] at hc
      cases h1 : E.isCipher c <;> simp_all
    have hrun := parseNumberLoop_run E hE rest hrest a (pre ++ [c]) [E.toNumChar c]
      ((pre ++ c :: a ++ rest).length - pre.length) hnum1 hcond hfuel
    rw [← hexpr, ← hlen] at hrun
    rw [parseNumber, hget]
    simp only [hguard, Bool.false_eq_true, if_false, hrun]
    simp [literalValue, numberString]
    omega

/-- `readToken` on a symbol, with the `switch` and the `if` chain as one chain of tests. -/
theorem readToken_eq (E : Env α) (expression : TextLine) (st : State α) (entity : LCDChar)
    (h : expression[st.currentOffset]? = some entity) :
    readToken E expression st =
      if (entity == LCDChar_OpenParen || entity == LCDChar_CloseParen ||
          entity == LCDChar_CloseBracket ||
          E.isOperator entity || E.isPreFunc entity || E.isPostFunc entity) = true then
        .ok (Token.ofEntity E entity st.currentOffset,
          { st with currentToken := Token.ofEntity E entity st.currentOffset,
                    currentOffset := st.currentOffset + 1 })
      else if E.isAlpha entity then
        if expression[st.currentOffset + 1]? = some LCDChar_OpenBracket then
          .ok ((Token.ofType E Type_OpenArrayVar st.currentOffset).setEntity entity,
            { st with
              currentToken := (Token.ofType E Type_OpenArrayVar st.currentOffset).setEntity entity,
              currentOffset := st.currentOffset + 2 })
        else
          .ok (Token.ofEntity E entity st.currentOffset,
            { st with currentToken := Token.ofEntity E entity st.currentOffset,
                      currentOffset := st.currentOffset + 1 })
      else if E.isCipher entity || entity == LCDChar_Dot then
        match parseNumber E expression st.currentOffset with
        | .error e => .error e
        | .ok (d, offset1) =>
          .ok (numberToken E st.currentOffset d,
            { st with currentToken := numberToken E st.currentOffset d,
                      currentOffset := offset1 })
      else
        .ok (Token.default E, { st with currentToken := Token.default E }) := by
  rw [readToken, h]
  cases entity <;> rfl

/-- `readToken` at the start of a literal builds its Number token and moves past it. -/
theorem readToken_literal (E : Env α) (hE : E.Coherent) (expression pre a rest : TextLine)
    (ha : IsLiteral E a) (hrest : EndsNumber E rest) (st : State α)
    (hexpr : expression = pre ++ a ++ rest) (hst : st.currentOffset = pre.length) :
    readToken E expression st =
      .ok (numberToken E pre.length (literalValue E a),
        { st with currentToken := numberToken E pre.length (literalValue E a),
                  currentOffset := pre.length + a.length }) := by
  subst hexpr
  have hp := parseNumber_literal E hE pre a rest ha hrest
  obtain ⟨hne, hnum, hdot⟩ := ha
  cases a with
  | nil => exact absurd rfl hne
  | cons c a =>
    have hc : E.isNumeric c = true := hnum c (by simp)
    have hget : (pre ++ c :: a ++ rest)[st.currentOffset]? = some c := by
      rw [hst, List.append_assoc, List.cons_append, getElem?_mid]
    rw [readToken_eq E _ st c hget, hst, hp]
    by_cases hcip : E.isCipher c = true
    · obtain ⟨h1, h2, h3, h4, h5, h6, h7, h8⟩ := hE.cipher hcip
      simp [h1, h2, h3, h4, h6, h7, h8, hcip]
    · have hcd : c = LCDChar_Dot := by simpa [Env.isNumeric, hcip] using hc
      subst hcd
      obtain ⟨h1, h2, h3, h4, h5⟩ := hE.dot
      simp [h1, h2, h3, h4, h5]

/-- `readToken` on a delimiter, an operator or a function builds its token and moves one
symbol on. -/
theorem readToken_entity (E : Env α) (expression : TextLine) (st : State α) (entity : LCDChar)
    (h : expression[st.currentOffset]? = some entity)
    (hent : (entity == LCDChar_OpenParen || entity == LCDChar_CloseParen ||
          entity == LCDChar_CloseBracket ||
          E.isOperator entity || E.isPreFunc entity || E.isPostFunc entity) = true) :
    readToken E expression st =
      .ok (Token.ofEntity E entity st.currentOffset,
          { st with currentToken := Token.ofEntity E entity st.currentOffset,
                    currentOffset := st.currentOffset + 1 }) := by
  rw [readToken_eq E _ st entity h, if_pos hent]

/-- `readToken` at or past the end of the line builds the end-of-input token and does not
move. -/
theorem readToken_eof (E : Env α) (expression : TextLine) (st : State α)
    (h : expression.length ≤ st.currentOffset) :
    readToken E expression st =
      .ok (Token.ofType E Type_EOF expression.length,
          { st with currentToken := Token.ofType E Type_EOF expression.length }) := by
  have h1 : expression[st.currentOffset]? = none := List.getElem?_eq_none h
  rw [readToken, h1]

/-! ### The sample environment -/

/-- The sample classifier gives a symbol one class. -/
theorem sampleEnv_coherent : sampleEnv.Coherent := by
  constructor
  · intro e
    cases e
    case other n =>
      have h : sampleEnv.classes (other n) =
          [false, false, false, decide (65 ≤ n) && decide (n ≤ 90),
            decide (48 ≤ n) && decide (n ≤ 57), false, false, false, false] := rfl
      rw [h]
      simp
      omega
    all_goals decide
  · intro e
    cases e
    case other n =>
      intro h
      have h1 : (decide (48 ≤ n) && decide (n ≤ 57)) = true := h
      have h2 : 48 ≤ n ∧ n ≤ 57 := by simpa using h1
      obtain ⟨h3, h4⟩ := h2
      show Char.ofNat n ≠ '.'
      interval_cases n <;> decide
    all_goals (intro h; exact absurd h (by decide))

theorem sample_isLiteral_digit (n : Nat) (h : n < 10) : IsLiteral sampleEnv [digit n] := by
  refine ⟨by simp, ?_, ?_⟩
  · intro c hc
    simp at hc
    subst hc
    have : sampleEnv.isNumeric (digit n) = ((decide (48 ≤ 48 + n) && decide (48 + n ≤ 57)) || false) := rfl
    rw [this]
    simp
    omega
  · simp [digit]

theorem sample_literalValue_digit (n : Nat) (h : n < 10) :
    literalValue sampleEnv [digit n] = (n : ℚ) := by
  interval_cases n <;>
    simp [literalValue, numberString, sampleEnv, digit, decimalValue, digitsValue,
      Char.isDigit]

theorem endsNumber_nil (E : Env α) : EndsNumber E [] := by
  intro c h
  simp at h

theorem endsNumber_cons (E : Env α) (e : LCDChar) (rest : TextLine)
    (h1 : E.isCipher e = false) (h2 : e ≠ LCDChar_Dot) : EndsNumber E (e :: rest) := by
  intro c hc
  simp at hc
  subst hc
  simp [Env.isNumeric, h1, h2]

/-! ### The adjacency check on the tokens `readToken` builds -/

theorem analyze_after_default (E : Env α) (token : Token α) :
    analyzeForSyntaxError E token (Token.default E) = .ok () := by
  simp [analyzeForSyntaxError, Token.default, Token.isOperatorToken, Token.isPreFuncToken,
    Token.isPostFuncToken, Token.isEntity, Token.isVariable]

theorem analyze_after_number (E : Env α) (token : Token α) (offset : Nat) (d : α) :
    analyzeForSyntaxError E token (numberToken E offset d) = .ok () := by
  simp [analyzeForSyntaxError, numberToken, Token.ofType, Token.setValue,
    Token.isOperatorToken, Token.isPreFuncToken,
    Token.isPostFuncToken, Token.isEntity, Token.isVariable]

theorem analyze_number_after_operator (E : Env α) (e : LCDChar) (offset1 : Int) (offset : Nat)
    (d : α) (h : E.isOperator e = true) :
    analyzeForSyntaxError E (numberToken E offset d) (Token.ofEntity E e offset1) = .ok () := by
  simp [analyzeForSyntaxError, numberToken, Token.ofType, Token.setValue, Token.ofEntity,
    Token.isOperatorToken, Token.isPreFuncToken,
    Token.isPostFuncToken, Token.isEntity, Token.isVariable, h]

/-! ### One turn of the scanning loop -/

/-- One turn of the scanning loop, unfolded. -/
theorem solveLoop_succ (E : Env α) (expression : TextLine) (fuel : Nat) (st : State α)
    (previousToken : Token α) :
    solveLoop E expression (fuel + 1) st previousToken =
      match readToken E expression st with
      | .error e => .error e
      | .ok (token, st1) =>
        if token.tokenType == Type_EOF then .ok (st1, token, previousToken)
        else
          match analyzeForSyntaxError E token previousToken with
          | .error e => .error e
          | .ok _ =>
            match dispatchToken E token st1 with
            | .error e => .error e
            | .ok (st2, true) => .ok (st2, Token.default E, previousToken)
            | .ok (st2, false) => solveLoop E expression fuel st2 token := by
  rfl

/-- A turn of the scanning loop that reads a token, accepts it and goes on. -/
theorem solveLoop_step {E : Env α} {expression : TextLine} {fuel : Nat} {st st1 st2 : State α}
    {prev token : Token α}
    (hread : readToken E expression st = .ok (token, st1))
    (htype : token.tokenType ≠ Type_EOF)
    (han : analyzeForSyntaxError E token prev = .ok ())
    (hdisp : dispatchToken E token st1 = .ok (st2, false)) :
    solveLoop E expression (fuel + 1) st prev = solveLoop E expression fuel st2 token := by
  rw [solveLoop_succ, hread]
  simp [htype, han, hdisp]

/-- At or past the end of the line the scanning loop stops on the end-of-input token. -/
theorem solveLoop_eof (E : Env α) (expression : TextLine) (fuel offset : Nat) (ns : List α)
    (cs : List (Token α)) (cur prev : Token α) (h : expression.length ≤ offset) :
    solveLoop E expression (fuel + 1) ⟨offset, ns, cs, cur⟩ prev =
      .ok (⟨offset, ns, cs, Token.ofType E Type_EOF expression.length⟩,
        Token.ofType E Type_EOF expression.length, prev) := by
  rw [solveLoop_succ, readToken_eof E expression _ h]
  simp [Token.ofType]

theorem dispatch_number (E : Env α) (offset : Nat) (d : α) (st : State α)
    (hns : st.numberStack.length < numberStackLimit) :
    dispatchToken E (numberToken E offset d) st =
      .ok ({ st with numberStack := d :: st.numberStack }, false) := by
  simp [dispatchToken, pushToken, numberToken, Token.ofType, Token.setValue, hns]

theorem dispatch_operator (E : Env α) (hE : E.Coherent) (e : LCDChar) (offset : Int)
    (st st1 : State α) (hop : E.isOperator e = true)
    (hred : reduceTop E (fun x => E.isOperator x || E.isPreFunc x) e st = .ok st1)
    (hcs : st1.commandStack.length < commandStackLimit) :
    dispatchToken E (Token.ofEntity E e offset) st =
      .ok ({ st1 with commandStack := Token.ofEntity E e offset :: st1.commandStack }, false) := by
  obtain ⟨h1, h2, h3, h4, h5, h6, h7, h8⟩ := hE.operator hop
  rw [dispatchToken]
  simp only [Token.ofEntity, Token.isVariable, Token.isPreFuncToken, Token.isEntity,
    Token.isOperatorToken, h1, h3, hop]
  simp [h6, hred, pushToken, Token.isVariable, h3, hcs]

/-- A turn of the scanning loop on a literal: its value goes on the number stack. -/
theorem solveLoop_literal (E : Env α) (hE : E.Coherent) (expression pre a rest : TextLine)
    (fuel offset : Nat) (ns : List α) (cs : List (Token α)) (cur prev : Token α)
    (ha : IsLiteral E a) (hrest : EndsNumber E rest) (hexpr : expression = pre ++ a ++ rest)
    (hoff : offset = pre.length) (hns : ns.length < numberStackLimit)
    (han : analyzeForSyntaxError E (numberToken E offset (literalValue E a)) prev = .ok ()) :
    solveLoop E expression (fuel + 1) ⟨offset, ns, cs, cur⟩ prev =
      solveLoop E expression fuel
        ⟨offset + a.length, literalValue E a :: ns, cs,
          numberToken E offset (literalValue E a)⟩
        (numberToken E offset (literalValue E a)) := by
  subst hoff
  exact solveLoop_step
    (readToken_literal E hE expression pre a rest ha hrest ⟨pre.length, ns, cs, cur⟩ hexpr rfl)
    (by simp [numberToken, Token.ofType, Token.setValue]) han
    (dispatch_number E pre.length (literalValue E a) _ hns)

/-- A turn of the scanning loop on an operator: after the reduction of the stack top, the
operator goes on the command stack. -/
theorem solveLoop_operator (E : Env α) (hE : E.Coherent) (expression : TextLine) (e : LCDChar)
    (fuel offset : Nat) (ns ns1 : List α) (cs cs1 : List (Token α)) (cur prev : Token α)
    (hget : expression[offset]? = some e) (hop : E.isOperator e = true)
    (han : analyzeForSyntaxError E (Token.ofEntity E e offset) prev = .ok ())
    (hred : reduceTop E (fun x => E.isOperator x || E.isPreFunc x) e
        ⟨offset + 1, ns, cs, Token.ofEntity E e offset⟩ =
      .ok ⟨offset + 1, ns1, cs1, Token.ofEntity E e offset⟩)
    (hcs : cs1.length < commandStackLimit) :
    solveLoop E expression (fuel + 1) ⟨offset, ns, cs, cur⟩ prev =
      solveLoop E expression fuel
        ⟨offset + 1, ns1, Token.ofEntity E e offset :: cs1, Token.ofEntity E e offset⟩
        (Token.ofEntity E e offset) :=
  solveLoop_step
    (readToken_entity E expression ⟨offset, ns, cs, cur⟩ e hget (by simp [hop]))
    (by simp [Token.ofEntity]) han
    (dispatch_operator E hE e offset _ _ hop hred hcs)

/-! ### Reductions on explicit stacks -/

theorem reduceTop_nil (E : Env α) (p : LCDChar → Bool) (e : LCDChar) (offset : Nat)
    (ns : List α) (cur : Token α) :
    reduceTop E p e ⟨offset, ns, [], cur⟩ = .ok ⟨offset, ns, [], cur⟩ := by
  rfl

theorem reduceTop_keep (E : Env α) (p : LCDChar → Bool) (e : LCDChar) (offset : Nat)
    (ns : List α) (top : Token α) (cs : List (Token α)) (cur : Token α)
    (h : p top.entity = false ∨ 0 < E.comparePriorities e top.entity) :
    reduceTop E p e ⟨offset, ns, top :: cs, cur⟩ = .ok ⟨offset, ns, top :: cs, cur⟩ := by
  rw [reduceTop]
  rcases h with h | h
  · simp [h]
  · simp [h]

theorem reduceTop_apply (E : Env α) (p : LCDChar → Bool) (e : LCDChar) (offset : Nat)
    (ns : List α) (top : Token α) (cs : List (Token α)) (cur : Token α)
    (h1 : p top.entity = true) (h2 : E.comparePriorities e top.entity ≤ 0) :
    reduceTop E p e ⟨offset, ns, top :: cs, cur⟩ =
      performOperation E top.entity ⟨offset, ns, cs, cur⟩ := by
  rw [reduceTop]
  simp [h1, h2]

theorem performOperation_mul (E : Env α) (offset : Nat) (d1 d2 : α) (ns : List α)
    (cs : List (Token α)) (cur : Token α) :
    performOperation E LCDChar_Multiply ⟨offset, d2 :: d1 :: ns, cs, cur⟩ =
      .ok ⟨offset, E.mul d1 d2 :: ns, cs, cur⟩ := by
  rfl

theorem performOperation_add (E : Env α) (offset : Nat) (d1 d2 : α) (ns : List α)
    (cs : List (Token α)) (cur : Token α) :
    performOperation E LCDChar_Add ⟨offset, d2 :: d1 :: ns, cs, cur⟩ =
      .ok ⟨offset, E.add d1 d2 :: ns, cs, cur⟩ := by
  rfl

theorem performOperation_sub (E : Env α) (offset : Nat) (d1 d2 : α) (ns : List α)
    (cs : List (Token α)) (cur : Token α) :
    performOperation E LCDChar_Substract ⟨offset, d2 :: d1 :: ns, cs, cur⟩ =
      .ok ⟨offset, E.sub d1 d2 :: ns, cs, cur⟩ := by
  rfl

theorem performOperation_div (E : Env α) (offset : Nat) (d1 d2 : α) (ns : List α)
    (cs : List (Token α)) (cur : Token α) :
    performOperation E LCDChar_Divide ⟨offset, d2 :: d1 :: ns, cs, cur⟩ =
      if E.isZero d2 then .error (InterpreterException Error_Math cur.offset)
      else .ok ⟨offset, E.div d1 d2 :: ns, cs, cur⟩ := by
  rfl

theorem performStackOperationsLoop_nil (E : Env α) (tp tb : Bool) (fuel offset : Nat)
    (ns : List α) (cur : Token α) :
    performStackOperationsLoop E tp tb (fuel + 1) ⟨offset, ns, [], cur⟩ =
      .ok ⟨offset, ns, [], cur⟩ := by
  rfl

theorem performStackOperationsLoop_apply (E : Env α) (tp tb : Bool) (fuel offset : Nat)
    (ns : List α) (top : Token α) (cs : List (Token α)) (cur : Token α)
    (h : (top.isOperatorToken E || top.isPreFuncToken E || top.isPostFuncToken E) = true) :
    performStackOperationsLoop E tp tb (fuel + 1) ⟨offset, ns, top :: cs, cur⟩ =
      match performOperation E top.entity ⟨offset, ns, cs, cur⟩ with
      | .error e => .error e
      | .ok st1 => performStackOperationsLoop E tp tb fuel st1 := by
  rw [performStackOperationsLoop]
  simp only [h, if_true]

theorem getElem?_at (pre rest expression : TextLine) (c : LCDChar) (offset : Nat)
    (hexpr : expression = pre ++ c :: rest) (hoff : offset = pre.length) :
    expression[offset]? = some c := by
  subst hexpr hoff
  exact getElem?_mid pre rest c

/-! ### Parentheses -/

/-- The open-paren is in none of the classes of `misc.h`. -/
theorem Env.Coherent.openParen {E : Env α} (hE : E.Coherent) :
    E.isOperator LCDChar_OpenParen = false ∧ E.isPreFunc LCDChar_OpenParen = false ∧
      E.isPostFunc LCDChar_OpenParen = false ∧ E.isAlpha LCDChar_OpenParen = false ∧
      E.isCipher LCDChar_OpenParen = false := by
  have h1 := hE.unambiguous LCDChar_OpenParen
  simp [Env.classes] at h1
  simp [h1]

/-- The close-paren is in none of the classes of `misc.h`. -/
theorem Env.Coherent.closeParen {E : Env α} (hE : E.Coherent) :
    E.isOperator LCDChar_CloseParen = false ∧ E.isPreFunc LCDChar_CloseParen = false ∧
      E.isPostFunc LCDChar_CloseParen = false ∧ E.isAlpha LCDChar_CloseParen = false ∧
      E.isCipher LCDChar_CloseParen = false := by
  have h1 := hE.unambiguous LCDChar_CloseParen
  simp [Env.classes] at h1
  simp [h1]

/-- The close-bracket is in none of the classes of `misc.h`. -/
theorem Env.Coherent.closeBracket {E : Env α} (hE : E.Coherent) :
    E.isOperator LCDChar_CloseBracket = false ∧ E.isPreFunc LCDChar_CloseBracket = false ∧
      E.isPostFunc LCDChar_CloseBracket = false ∧ E.isAlpha LCDChar_CloseBracket = false ∧
      E.isCipher LCDChar_CloseBracket = false := by
  have h1 := hE.unambiguous LCDChar_CloseBracket
  simp [Env.classes] at h1
  simp [h1]

/-- A letter is in no other class. -/
theorem Env.Coherent.alpha {E : Env α} (hE : E.Coherent) {e : LCDChar}
    (h : E.isAlpha e = true) :
    E.isOperator e = false ∧ E.isPreFunc e = false ∧ E.isPostFunc e = false ∧
      E.isCipher e = false ∧ e ≠ LCDChar_Dot ∧ e ≠ LCDChar_OpenParen ∧
      e ≠ LCDChar_CloseParen ∧ e ≠ LCDChar_CloseBracket := by
  have h1 := hE.unambiguous e
  simp [Env.classes, h] at h1
  simp [h1]

theorem analyze_number_after_openParen (E : Env α) (offset1 : Int) (offset : Nat) (d : α) :
    analyzeForSyntaxError E (numberToken E offset d) (Token.ofEntity E LCDChar_OpenParen offset1)
      = .ok () := by
  simp [analyzeForSyntaxError, numberToken, Token.ofType, Token.setValue, Token.ofEntity,
    Token.isOperatorToken, Token.isPreFuncToken,
    Token.isPostFuncToken, Token.isEntity, Token.isVariable]

theorem analyze_entity_after_closeParen (E : Env α) (hE : E.Coherent) (e : LCDChar)
    (offset offset1 : Int) :
    analyzeForSyntaxError E (Token.ofEntity E e offset)
      (Token.ofEntity E LCDChar_CloseParen offset1) = .ok () := by
  obtain ⟨h1, h2, h3, h4, h5⟩ := hE.closeParen
  simp [analyzeForSyntaxError, Token.ofEntity,
    Token.isOperatorToken, Token.isPreFuncToken,
    Token.isPostFuncToken, Token.isEntity, Token.isVariable, h1, h2]

theorem dispatch_openParen (E : Env α) (hE : E.Coherent) (offset : Int) (st : State α)
    (hcs : st.commandStack.length < commandStackLimit) :
    dispatchToken E (Token.ofEntity E LCDChar_OpenParen offset) st =
      .ok ({ st with commandStack := Token.ofEntity E LCDChar_OpenParen offset ::
        st.commandStack }, false) := by
  obtain ⟨h1, h2, h3, h4, h5⟩ := hE.openParen
  simp [dispatchToken, pushToken, Token.ofEntity, Token.isVariable, Token.isPreFuncToken,
    Token.isEntity, h4, hcs]

theorem dispatch_closeParen (E : Env α) (hE : E.Coherent) (offset : Int) (st : State α) :
    dispatchToken E (Token.ofEntity E LCDChar_CloseParen offset) st =
      match performStackOperations E false false st with
      | .error e => .error e
      | .ok st1 =>
        match st1.commandStack with
        | [] => .error (InterpreterException Error_Syntax offset)
        | top :: rest =>
          if top.entity == LCDChar_OpenParen then .ok ({ st1 with commandStack := rest }, false)
          else .error (InterpreterException Error_Syntax offset) := by
  obtain ⟨h1, h2, h3, h4, h5⟩ := hE.closeParen
  rw [dispatchToken]
  simp only [Token.ofEntity, Token.isVariable, Token.isPreFuncToken, Token.isEntity,
    Token.isOperatorToken, Token.isPostFuncToken, h1, h2, h3, h4]
  simp

theorem performStackOperationsLoop_stop (E : Env α) (tp tb : Bool) (fuel offset : Nat)
    (ns : List α) (top : Token α) (cs : List (Token α)) (cur : Token α)
    (h1 : (top.isOperatorToken E || top.isPreFuncToken E || top.isPostFuncToken E) = false)
    (h2 : (top.isEntity LCDChar_OpenParen && tp) = false)
    (h3 : (top.tokenType == Type_OpenArrayVar && tb) = false) :
    performStackOperationsLoop E tp tb (fuel + 1) ⟨offset, ns, top :: cs, cur⟩ =
      .ok ⟨offset, ns, top :: cs, cur⟩ := by
  rw [performStackOperationsLoop]
  simp only [h1, h2, h3]
  simp

/-- A turn of the scanning loop on an open-paren: it goes on the command stack. -/
theorem solveLoop_openParen (E : Env α) (hE : E.Coherent) (expression : TextLine)
    (fuel offset : Nat) (ns : List α) (cs : List (Token α)) (cur prev : Token α)
    (hget : expression[offset]? = some LCDChar_OpenParen)
    (han : analyzeForSyntaxError E (Token.ofEntity E LCDChar_OpenParen offset) prev = .ok ())
    (hcs : cs.length < commandStackLimit) :
    solveLoop E expression (fuel + 1) ⟨offset, ns, cs, cur⟩ prev =
      solveLoop E expression fuel
        ⟨offset + 1, ns, Token.ofEntity E LCDChar_OpenParen offset :: cs,
          Token.ofEntity E LCDChar_OpenParen offset⟩
        (Token.ofEntity E LCDChar_OpenParen offset) :=
  solveLoop_step
    (readToken_entity E expression ⟨offset, ns, cs, cur⟩ _ hget (by simp))
    (by simp [Token.ofEntity]) han
    (dispatch_openParen E hE offset _ hcs)

/-- A turn of the scanning loop on a close-paren whose reduction uncovers an open-paren: the
open-paren is discarded. -/
theorem solveLoop_closeParen (E : Env α) (hE : E.Coherent) (expression : TextLine)
    (fuel offset : Nat) (ns ns1 : List α) (cs cs1 : List (Token α)) (cur prev top : Token α)
    (hget : expression[offset]? = some LCDChar_CloseParen)
    (han : analyzeForSyntaxError E (Token.ofEntity E LCDChar_CloseParen offset) prev = .ok ())
    (hred : performStackOperations E false false
        ⟨offset + 1, ns, cs, Token.ofEntity E LCDChar_CloseParen offset⟩ =
      .ok ⟨offset + 1, ns1, top :: cs1, Token.ofEntity E LCDChar_CloseParen offset⟩)
    (htop : top.entity = LCDChar_OpenParen) :
    solveLoop E expression (fuel + 1) ⟨offset, ns, cs, cur⟩ prev =
      solveLoop E expression fuel
        ⟨offset + 1, ns1, cs1, Token.ofEntity E LCDChar_CloseParen offset⟩
        (Token.ofEntity E LCDChar_CloseParen offset) :=
  solveLoop_step
    (readToken_entity E expression ⟨offset, ns, cs, cur⟩ _ hget (by simp))
    (by simp [Token.ofEntity]) han
    (by rw [dispatch_closeParen E hE, hred]; simp [htop])

/-! ### Precedence and associativity -/

/-- C1 (operator precedence).  Whenever `+` and `*` are operators and `*` binds tighter than
`+` (`comparePriorities(*, +) > 0`), `solve` on the line `a + b * c` from offset 0, for any
three numeric literals, succeeds, returns `a + (b * c)` (the product is formed first, the sum
last) and writes back the length of the line. -/
theorem solve_precedence_add_mul (E : Env α) (hE : E.Coherent)
    (hadd : E.isOperator LCDChar_Add = true) (hmul : E.isOperator LCDChar_Multiply = true)
    (hprio : 0 < E.comparePriorities LCDChar_Multiply LCDChar_Add)
    (a b c : TextLine) (ha : IsLiteral E a) (hb : IsLiteral E b) (hc : IsLiteral E c) :
    solve E (a ++ LCDChar_Add :: (b ++ LCDChar_Multiply :: c)) 0 =
      .ok (E.add (literalValue E a) (E.mul (literalValue E b) (literalValue E c)),
        (a ++ LCDChar_Add :: (b ++ LCDChar_Multiply :: c)).length) := by
  obtain ⟨-, -, -, ha4, -⟩ := hE.operator hadd
  obtain ⟨-, -, -, hm4, -⟩ := hE.operator hmul
  have hapos : 0 < a.length := List.length_pos.mpr ha.1
  have hbpos : 0 < b.length := List.length_pos.mpr hb.1
  have hcpos : 0 < c.length := List.length_pos.mpr hc.1
  generalize hx : a ++ LCDChar_Add :: (b ++ LCDChar_Multiply :: c) = expr
  have hlen : expr.length = 0 + a.length + 1 + b.length + 1 + c.length := by
    rw [← hx]; simp; omega
  obtain ⟨k, hk⟩ : ∃ k, expr.length - 0 + 1 = k + 6 := ⟨expr.length - 5, by omega⟩
  have e1 := solveLoop_literal E hE expr [] a (LCDChar_Add :: (b ++ LCDChar_Multiply :: c))
    (k + 5) 0 [] [] (Token.default E) (Token.default E) ha
    (endsNumber_cons E _ _ ha4 (by decide)) (by simp [hx]) rfl (by simp [numberStackLimit])
    (analyze_after_default E _)
  have e2 := solveLoop_operator E hE expr LCDChar_Add (k + 4) (0 + a.length)
    [literalValue E a] [literalValue E a] [] []
    (numberToken E 0 (literalValue E a)) (numberToken E 0 (literalValue E a))
    (getElem?_at a (b ++ LCDChar_Multiply :: c) _ _ _ hx.symm (by simp))
    hadd (analyze_after_number E _ _ _) (reduceTop_nil _ _ _ _ _ _)
    (by simp [commandStackLimit])
  have e3 := solveLoop_literal E hE expr (a ++ [LCDChar_Add]) b (LCDChar_Multiply :: c)
    (k + 3) (0 + a.length + 1) [literalValue E a]
    [Token.ofEntity E LCDChar_Add ((0 + a.length : Nat) : Int)]
    (Token.ofEntity E LCDChar_Add ((0 + a.length : Nat) : Int))
    (Token.ofEntity E LCDChar_Add ((0 + a.length : Nat) : Int)) hb
    (endsNumber_cons E _ _ hm4 (by decide)) (by simp [hx]) (by simp)
    (by simp [numberStackLimit])
    (analyze_number_after_operator E _ _ _ _ hadd)
  have e4 := solveLoop_operator E hE expr LCDChar_Multiply (k + 2) (0 + a.length + 1 + b.length)
    [literalValue E b, literalValue E a] [literalValue E b, literalValue E a]
    [Token.ofEntity E LCDChar_Add ((0 + a.length : Nat) : Int)]
    [Token.ofEntity E LCDChar_Add ((0 + a.length : Nat) : Int)]
    (numberToken E (0 + a.length + 1) (literalValue E b))
    (numberToken E (0 + a.length + 1) (literalValue E b))
    (getElem?_at (a ++ LCDChar_Add :: b) c _ _ _ (by simp [hx]) (by simp; omega))
    hmul (analyze_after_number E _ _ _)
    (reduceTop_keep _ _ _ _ _ _ _ _ (Or.inr hprio))
    (by simp [commandStackLimit])
  have e5 := solveLoop_literal E hE expr (a ++ LCDChar_Add :: b ++ [LCDChar_Multiply]) c []
    (k + 1) (0 + a.length + 1 + b.length + 1) [literalValue E b, literalValue E a]
    [Token.ofEntity E LCDChar_Multiply ((0 + a.length + 1 + b.length : Nat) : Int),
      Token.ofEntity E LCDChar_Add ((0 + a.length : Nat) : Int)]
    (Token.ofEntity E LCDChar_Multiply ((0 + a.length + 1 + b.length : Nat) : Int))
    (Token.ofEntity E LCDChar_Multiply ((0 + a.length + 1 + b.length : Nat) : Int)) hc
    (endsNumber_nil E) (by simp [hx]) (by simp; omega)
    (by simp [numberStackLimit])
    (analyze_number_after_operator E _ _ _ _ hmul)
  have e6 := solveLoop_eof E expr k (0 + a.length + 1 + b.length + 1 + c.length)
    [literalValue E c, literalValue E b, literalValue E a]
    [Token.ofEntity E LCDChar_Multiply ((0 + a.length + 1 + b.length : Nat) : Int),
      Token.ofEntity E LCDChar_Add ((0 + a.length : Nat) : Int)]
    (numberToken E (0 + a.length + 1 + b.length + 1) (literalValue E c))
    (numberToken E (0 + a.length + 1 + b.length + 1) (literalValue E c))
    (by omega)
  rw [solve, solveWithFuel, hk, initialState, e1, e2, e3, e4, e5, e6]
  simp only [analyze_after_number]
  rw [performStackOperations]
  simp only [List.length_cons, List.length_nil]
  rw [performStackOperationsLoop_apply E _ _ _ _ _ _ _ _ (by simp [Token.isOperatorToken, Token.ofEntity, hmul])]
  simp only [Token.ofEntity, performOperation_mul]
  rw [performStackOperationsLoop_apply E _ _ _ _ _ _ _ _ (by simp [Token.isOperatorToken, hadd])]
  simp only [performOperation_add, performStackOperationsLoop_nil]
  rw [hlen]

/-- C1, on the sample environment: `2+3*4` is `14` (and not `20`), with the whole line
consumed. -/
theorem solve_precedence_add_mul_witness :
    solve sampleEnv [digit 2, LCDChar_Add, digit 3, LCDChar_Multiply, digit 4] 0 =
        .ok (14, 5) ∧
      solve sampleEnv [digit 2, LCDChar_Add, digit 3, LCDChar_Multiply, digit 4] 0 ≠
        .ok (20, 5) := by
  have h := solve_precedence_add_mul sampleEnv sampleEnv_coherent rfl rfl (by decide)
    [digit 2] [digit 3] [digit 4] (sample_isLiteral_digit 2 (by decide))
    (sample_isLiteral_digit 3 (by decide)) (sample_isLiteral_digit 4 (by decide))
  rw [sample_literalValue_digit 2 (by decide), sample_literalValue_digit 3 (by decide),
    sample_literalValue_digit 4 (by decide)] at h
  rw [show ([digit 2] ++ LCDChar_Add :: ([digit 3] ++ LCDChar_Multiply :: [digit 4]))
    = [digit 2, LCDChar_Add, digit 3, LCDChar_Multiply, digit 4] from rfl] at h
  rw [h]
  norm_num [sampleEnv]

/-- C2 (parentheses override precedence).  Whenever `+` and `*` are operators, `solve` on the
line `( a + b ) * c` from offset 0, for any three numeric literals, succeeds, returns
`(a + b) * c` and writes back the length of the line.  On the way, the five tokens up to the
close-paren leave the sum `a + b` alone on the number stack and nothing on the command stack:
the close-paren has applied the pending addition and discarded the open-paren before the
multiply is read. -/
theorem solve_parentheses_override (E : Env α) (hE : E.Coherent)
    (hadd : E.isOperator LCDChar_Add = true) (hmul : E.isOperator LCDChar_Multiply = true)
    (a b c : TextLine) (ha : IsLiteral E a) (hb : IsLiteral E b) (hc : IsLiteral E c) :
    solve E (LCDChar_OpenParen :: (a ++ LCDChar_Add :: (b ++ LCDChar_CloseParen ::
        LCDChar_Multiply :: c))) 0 =
      .ok (E.mul (E.add (literalValue E a) (literalValue E b)) (literalValue E c),
        (LCDChar_OpenParen :: (a ++ LCDChar_Add :: (b ++ LCDChar_CloseParen ::
          LCDChar_Multiply :: c))).length) ∧
    ∀ fuel : Nat,
      solveLoop E (LCDChar_OpenParen :: (a ++ LCDChar_Add :: (b ++ LCDChar_CloseParen ::
          LCDChar_Multiply :: c))) (fuel + 5) (initialState E 0) (Token.default E) =
        solveLoop E (LCDChar_OpenParen :: (a ++ LCDChar_Add :: (b ++ LCDChar_CloseParen ::
          LCDChar_Multiply :: c))) fuel
          ⟨1 + a.length + 1 + b.length + 1,
            [E.add (literalValue E a) (literalValue E b)], [],
            Token.ofEntity E LCDChar_CloseParen ((1 + a.length + 1 + b.length : Nat) : Int)⟩
          (Token.ofEntity E LCDChar_CloseParen ((1 + a.length + 1 + b.length : Nat) : Int))
    := by
  obtain ⟨-, -, -, ha4, -⟩ := hE.operator hadd
  obtain ⟨-, -, -, hm4, -⟩ := hE.operator hmul
  obtain ⟨ho1, ho2, ho3, ho4, ho5⟩ := hE.openParen
  obtain ⟨hp1, hp2, hp3, hp4, hp5⟩ := hE.closeParen
  generalize hx : LCDChar_OpenParen :: (a ++ LCDChar_Add :: (b ++ LCDChar_CloseParen ::
    LCDChar_Multiply :: c)) = expr
  have hlen : expr.length = 0 + 1 + a.length + 1 + b.length + 1 + 1 + c.length := by
    rw [← hx]; simp; omega
  have e1 : ∀ fuel, solveLoop E expr (fuel + 1) (initialState E 0) (Token.default E) = _ :=
    fun fuel => solveLoop_openParen E hE expr fuel 0 [] [] (Token.default E) (Token.default E)
      (getElem?_at [] (a ++ LCDChar_Add :: (b ++ LCDChar_CloseParen :: LCDChar_Multiply :: c))
        _ _ _ hx.symm rfl) (analyze_after_default E _)
      (by simp [commandStackLimit])
  have e2 := fun fuel => solveLoop_literal E hE expr [LCDChar_OpenParen] a
    (LCDChar_Add :: (b ++ LCDChar_CloseParen :: LCDChar_Multiply :: c))
    fuel (0 + 1) [] [Token.ofEntity E LCDChar_OpenParen ((0 : Nat) : Int)]
    (Token.ofEntity E LCDChar_OpenParen ((0 : Nat) : Int))
    (Token.ofEntity E LCDChar_OpenParen ((0 : Nat) : Int)) ha
    (endsNumber_cons E _ _ ha4 (by decide)) (by simp [← hx]) (by simp)
    (by simp [numberStackLimit]) (analyze_number_after_openParen E _ _ _)
  have e3 := fun fuel => solveLoop_operator E hE expr LCDChar_Add fuel (0 + 1 + a.length)
    [literalValue E a] [literalValue E a]
    [Token.ofEntity E LCDChar_OpenParen ((0 : Nat) : Int)]
    [Token.ofEntity E LCDChar_OpenParen ((0 : Nat) : Int)]
    (numberToken E (0 + 1) (literalValue E a)) (numberToken E (0 + 1) (literalValue E a))
    (getElem?_at (LCDChar_OpenParen :: a) (b ++ LCDChar_CloseParen :: LCDChar_Multiply :: c)
      _ _ _ (by simp [← hx]) (by simp; omega))
    hadd (analyze_after_number E _ _ _)
    (reduceTop_keep _ _ _ _ _ _ _ _ (Or.inl (by simp [Token.ofEntity, ho1, ho2])))
    (by simp [commandStackLimit])
  have e4 := fun fuel => solveLoop_literal E hE expr (LCDChar_OpenParen :: a ++ [LCDChar_Add]) b
    (LCDChar_CloseParen :: LCDChar_Multiply :: c)
    fuel (0 + 1 + a.length + 1) [literalValue E a]
    [Token.ofEntity E LCDChar_Add ((0 + 1 + a.length : Nat) : Int),
      Token.ofEntity E LCDChar_OpenParen ((0 : Nat) : Int)]
    (Token.ofEntity E LCDChar_Add ((0 + 1 + a.length : Nat) : Int))
    (Token.ofEntity E LCDChar_Add ((0 + 1 + a.length : Nat) : Int)) hb
    (endsNumber_cons E _ _ hp5 (by decide)) (by simp [← hx]) (by simp; omega)
    (by simp [numberStackLimit]) (analyze_number_after_operator E _ _ _ _ hadd)
  have hred : performStackOperations E false false
      ⟨0 + 1 + a.length + 1 + b.length + 1, [literalValue E b, literalValue E a],
        [Token.ofEntity E LCDChar_Add ((0 + 1 + a.length : Nat) : Int),
          Token.ofEntity E LCDChar_OpenParen ((0 : Nat) : Int)],
        Token.ofEntity E LCDChar_CloseParen ((0 + 1 + a.length + 1 + b.length : Nat) : Int)⟩ =
      .ok ⟨0 + 1 + a.length + 1 + b.length + 1, [E.add (literalValue E a) (literalValue E b)],
        [Token.ofEntity E LCDChar_OpenParen ((0 : Nat) : Int)],
        Token.ofEntity E LCDChar_CloseParen ((0 + 1 + a.length + 1 + b.length : Nat) : Int)⟩ := by
    rw [performStackOperations]
    simp only [List.length_cons, List.length_nil]
    rw [performStackOperationsLoop_apply E _ _ _ _ _ _ _ _
      (by simp [Token.isOperatorToken, Token.ofEntity, hadd])]
    simp only [Token.ofEntity, performOperation_add]
    rw [performStackOperationsLoop_stop E _ _ _ _ _ _ _ _
      (by simp [Token.isOperatorToken, Token.isPreFuncToken, Token.isPostFuncToken, ho1, ho2,
        ho3]) (by simp) (by simp)]
  have e5 := fun fuel => solveLoop_closeParen E hE expr fuel (0 + 1 + a.length + 1 + b.length)
    [literalValue E b, literalValue E a] [E.add (literalValue E a) (literalValue E b)]
    [Token.ofEntity E LCDChar_Add ((0 + 1 + a.length : Nat) : Int),
      Token.ofEntity E LCDChar_OpenParen ((0 : Nat) : Int)] []
    (numberToken E (0 + 1 + a.length + 1) (literalValue E b))
    (numberToken E (0 + 1 + a.length + 1) (literalValue E b))
    (Token.ofEntity E LCDChar_OpenParen ((0 : Nat) : Int))
    (getElem?_at (LCDChar_OpenParen :: a ++ LCDChar_Add :: b) (LCDChar_Multiply :: c) _ _ _
      (by simp [← hx]) (by simp; omega))
    (analyze_after_number E _ _ _) hred rfl
  have e6 := fun fuel => solveLoop_operator E hE expr LCDChar_Multiply fuel
    (0 + 1 + a.length + 1 + b.length + 1)
    [E.add (literalValue E a) (literalValue E b)] [E.add (literalValue E a) (literalValue E b)]
    [] []
    (Token.ofEntity E LCDChar_CloseParen ((0 + 1 + a.length + 1 + b.length : Nat) : Int))
    (Token.ofEntity E LCDChar_CloseParen ((0 + 1 + a.length + 1 + b.length : Nat) : Int))
    (getElem?_at (LCDChar_OpenParen :: a ++ LCDChar_Add :: b ++ [LCDChar_CloseParen]) c _ _ _
      (by simp [← hx]) (by simp; omega))
    hmul (analyze_entity_after_closeParen E hE _ _ _) (reduceTop_nil _ _ _ _ _ _)
    (by simp [commandStackLimit])
  have e7 := fun fuel => solveLoop_literal E hE expr
    (LCDChar_OpenParen :: a ++ LCDChar_Add :: b ++ [LCDChar_CloseParen, LCDChar_Multiply]) c []
    fuel (0 + 1 + a.length + 1 + b.length + 1 + 1)
    [E.add (literalValue E a) (literalValue E b)]
    [Token.ofEntity E LCDChar_Multiply ((0 + 1 + a.length + 1 + b.length + 1 : Nat) : Int)]
    (Token.ofEntity E LCDChar_Multiply ((0 + 1 + a.length + 1 + b.length + 1 : Nat) : Int))
    (Token.ofEntity E LCDChar_Multiply ((0 + 1 + a.length + 1 + b.length + 1 : Nat) : Int)) hc
    (endsNumber_nil E) (by simp [← hx]) (by simp; omega)
    (by simp [numberStackLimit]) (analyze_number_after_operator E _ _ _ _ hmul)
  have e8 := fun fuel => solveLoop_eof E expr fuel
    (0 + 1 + a.length + 1 + b.length + 1 + 1 + c.length)
    [literalValue E c, E.add (literalValue E a) (literalValue E b)]
    [Token.ofEntity E LCDChar_Multiply ((0 + 1 + a.length + 1 + b.length + 1 : Nat) : Int)]
    (numberToken E (0 + 1 + a.length + 1 + b.length + 1 + 1) (literalValue E c))
    (numberToken E (0 + 1 + a.length + 1 + b.length + 1 + 1) (literalValue E c))
    (by omega)
  constructor
  · have hapos : 0 < a.length := List.length_pos.mpr ha.1
    have hbpos : 0 < b.length := List.length_pos.mpr hb.1
    have hcpos : 0 < c.length := List.length_pos.mpr hc.1
    obtain ⟨k, hk⟩ : ∃ k, expr.length - 0 + 1 = k + 8 := ⟨expr.length - 7, by omega⟩
    rw [solve, solveWithFuel, hk, e1, e2, e3, e4, e5, e6, e7, e8]
    simp only [analyze_after_number]
    rw [performStackOperations]
    simp only [List.length_cons, List.length_nil]
    rw [performStackOperationsLoop_apply E _ _ _ _ _ _ _ _
      (by simp [Token.isOperatorToken, Token.ofEntity, hmul])]
    simp only [Token.ofEntity, performOperation_mul, performStackOperationsLoop_nil]
    rw [hlen]
  · intro fuel
    rw [e1, e2, e3, e4, e5]

/-- C2, on the sample environment: `(2+3)*4` is `20`, with the whole line consumed. -/
theorem solve_parentheses_override_witness :
    solve sampleEnv [LCDChar_OpenParen, digit 2, LCDChar_Add, digit 3, LCDChar_CloseParen,
      LCDChar_Multiply, digit 4] 0 = .ok (20, 7) := by
  have h := (solve_parentheses_override sampleEnv sampleEnv_coherent rfl rfl
    [digit 2] [digit 3] [digit 4] (sample_isLiteral_digit 2 (by decide))
    (sample_isLiteral_digit 3 (by decide)) (sample_isLiteral_digit 4 (by decide))).1
  rw [sample_literalValue_digit 2 (by decide), sample_literalValue_digit 3 (by decide),
    sample_literalValue_digit 4 (by decide)] at h
  rw [show (LCDChar_OpenParen :: ([digit 2] ++ LCDChar_Add :: ([digit 3] ++
      LCDChar_CloseParen :: LCDChar_Multiply :: [digit 4])))
    = [LCDChar_OpenParen, digit 2, LCDChar_Add, digit 3, LCDChar_CloseParen,
      LCDChar_Multiply, digit 4] from rfl] at h
  rw [h]
  norm_num [sampleEnv]

/-- C3 (left-associativity at equal priority).  Whenever `-` is an operator and comparing it
against itself gives `comparePriorities(-, -) <= 0`, `solve` on the line `a - b - c` from
offset 0, for any three numeric literals, succeeds and returns `(a - b) - c`.  On the way, the
second `-` applies the stacked one before it is pushed: after four tokens the number stack
holds `a - b` alone and the command stack holds the second `-` alone. -/
theorem solve_left_assoc_sub (E : Env α) (hE : E.Coherent)
    (hsub : E.isOperator LCDChar_Substract = true)
    (hprio : E.comparePriorities LCDChar_Substract LCDChar_Substract ≤ 0)
    (a b c : TextLine) (ha : IsLiteral E a) (hb : IsLiteral E b) (hc : IsLiteral E c) :
    solve E (a ++ LCDChar_Substract :: (b ++ LCDChar_Substract :: c)) 0 =
      .ok (E.sub (E.sub (literalValue E a) (literalValue E b)) (literalValue E c),
        (a ++ LCDChar_Substract :: (b ++ LCDChar_Substract :: c)).length) ∧
    ∀ fuel : Nat,
      solveLoop E (a ++ LCDChar_Substract :: (b ++ LCDChar_Substract :: c)) (fuel + 4)
          (initialState E 0) (Token.default E) =
        solveLoop E (a ++ LCDChar_Substract :: (b ++ LCDChar_Substract :: c)) fuel
          ⟨a.length + 1 + b.length + 1,
            [E.sub (literalValue E a) (literalValue E b)],
            [Token.ofEntity E LCDChar_Substract ((a.length + 1 + b.length : Nat) : Int)],
            Token.ofEntity E LCDChar_Substract ((a.length + 1 + b.length : Nat) : Int)⟩
          (Token.ofEntity E LCDChar_Substract ((a.length + 1 + b.length : Nat) : Int)) := by
  obtain ⟨-, -, -, hs4, -⟩ := hE.operator hsub
  generalize hx : a ++ LCDChar_Substract :: (b ++ LCDChar_Substract :: c) = expr
  have hlen : expr.length = 0 + a.length + 1 + b.length + 1 + c.length := by
    rw [← hx]; simp; omega
  have e1 : ∀ fuel, solveLoop E expr (fuel + 1) (initialState E 0) (Token.default E) = _ :=
    fun fuel => solveLoop_literal E hE expr [] a (LCDChar_Substract :: (b ++ LCDChar_Substract :: c))
      fuel 0 [] [] (Token.default E) (Token.default E) ha
      (endsNumber_cons E _ _ hs4 (by decide)) (by simp [hx]) rfl (by simp [numberStackLimit])
      (analyze_after_default E _)
  have e2 := fun fuel => solveLoop_operator E hE expr LCDChar_Substract fuel (0 + a.length)
    [literalValue E a] [literalValue E a] [] []
    (numberToken E 0 (literalValue E a)) (numberToken E 0 (literalValue E a))
    (getElem?_at a (b ++ LCDChar_Substract :: c) _ _ _ hx.symm (by simp))
    hsub (analyze_after_number E _ _ _) (reduceTop_nil _ _ _ _ _ _)
    (by simp [commandStackLimit])
  have e3 := fun fuel => solveLoop_literal E hE expr (a ++ [LCDChar_Substract]) b
    (LCDChar_Substract :: c)
    fuel (0 + a.length + 1) [literalValue E a]
    [Token.ofEntity E LCDChar_Substract ((0 + a.length : Nat) : Int)]
    (Token.ofEntity E LCDChar_Substract ((0 + a.length : Nat) : Int))
    (Token.ofEntity E LCDChar_Substract ((0 + a.length : Nat) : Int)) hb
    (endsNumber_cons E _ _ hs4 (by decide)) (by simp [hx]) (by simp)
    (by simp [numberStackLimit])
    (analyze_number_after_operator E _ _ _ _ hsub)
  have e4 := fun fuel => solveLoop_operator E hE expr LCDChar_Substract fuel
    (0 + a.length + 1 + b.length)
    [literalValue E b, literalValue E a] [E.sub (literalValue E a) (literalValue E b)]
    [Token.ofEntity E LCDChar_Substract ((0 + a.length : Nat) : Int)] []
    (numberToken E (0 + a.length + 1) (literalValue E b))
    (numberToken E (0 + a.length + 1) (literalValue E b))
    (getElem?_at (a ++ LCDChar_Substract :: b) c _ _ _ (by simp [hx]) (by simp; omega))
    hsub (analyze_after_number E _ _ _)
    (by
      rw [reduceTop_apply _ _ _ _ _ _ _ _ (by simp [Token.ofEntity, hsub])
        (by simpa [Token.ofEntity] using hprio)]
      simp only [Token.ofEntity, performOperation_sub])
    (by simp [commandStackLimit])
  have e5 := fun fuel => solveLoop_literal E hE expr
    (a ++ LCDChar_Substract :: b ++ [LCDChar_Substract]) c []
    fuel (0 + a.length + 1 + b.length + 1) [E.sub (literalValue E a) (literalValue E b)]
    [Token.ofEntity E LCDChar_Substract ((0 + a.length + 1 + b.length : Nat) : Int)]
    (Token.ofEntity E LCDChar_Substract ((0 + a.length + 1 + b.length : Nat) : Int))
    (Token.ofEntity E LCDChar_Substract ((0 + a.length + 1 + b.length : Nat) : Int)) hc
    (endsNumber_nil E) (by simp [hx]) (by simp; omega)
    (by simp [numberStackLimit])
    (analyze_number_after_operator E _ _ _ _ hsub)
  have e6 := fun fuel => solveLoop_eof E expr fuel (0 + a.length + 1 + b.length + 1 + c.length)
    [literalValue E c, E.sub (literalValue E a) (literalValue E b)]
    [Token.ofEntity E LCDChar_Substract ((0 + a.length + 1 + b.length : Nat) : Int)]
    (numberToken E (0 + a.length + 1 + b.length + 1) (literalValue E c))
    (numberToken E (0 + a.length + 1 + b.length + 1) (literalValue E c))
    (by omega)
  constructor
  · have hapos : 0 < a.length := List.length_pos.mpr ha.1
    have hbpos : 0 < b.length := List.length_pos.mpr hb.1
    have hcpos : 0 < c.length := List.length_pos.mpr hc.1
    obtain ⟨k, hk⟩ : ∃ k, expr.length - 0 + 1 = k + 6 := ⟨expr.length - 5, by omega⟩
    rw [solve, solveWithFuel, hk, e1, e2, e3, e4, e5, e6]
    simp only [analyze_after_number]
    rw [performStackOperations]
    simp only [List.length_cons, List.length_nil]
    rw [performStackOperationsLoop_apply E _ _ _ _ _ _ _ _
      (by simp [Token.isOperatorToken, Token.ofEntity, hsub])]
    simp only [Token.ofEntity, performOperation_sub, performStackOperationsLoop_nil]
    rw [hlen]
  · intro fuel
    rw [e1, e2, e3, e4]
    simp only [Nat.zero_add]

/-- C3, on the sample environment: `8-3-2` is `3` (and not `7`), with the whole line
consumed. -/
theorem solve_left_assoc_sub_witness :
    solve sampleEnv [digit 8, LCDChar_Substract, digit 3, LCDChar_Substract, digit 2] 0 =
        .ok (3, 5) ∧
      solve sampleEnv [digit 8, LCDChar_Substract, digit 3, LCDChar_Substract, digit 2] 0 ≠
        .ok (7, 5) := by
  have h := (solve_left_assoc_sub sampleEnv sampleEnv_coherent rfl (by decide)
    [digit 8] [digit 3] [digit 2] (sample_isLiteral_digit 8 (by decide))
    (sample_isLiteral_digit 3 (by decide)) (sample_isLiteral_digit 2 (by decide))).1
  rw [sample_literalValue_digit 8 (by decide), sample_literalValue_digit 3 (by decide),
    sample_literalValue_digit 2 (by decide)] at h
  rw [show ([digit 8] ++ LCDChar_Substract :: ([digit 3] ++ LCDChar_Substract :: [digit 2]))
    = [digit 8, LCDChar_Substract, digit 3, LCDChar_Substract, digit 2] from rfl] at h
  rw [h]
  norm_num [sampleEnv]

/-! ### Division by zero -/

/-- The run of `solve` on `a / z` with `z` zero: the division is applied while draining, when
the current token is the end-of-input token. -/
theorem solve_div_zero_run (E : Env α) (hE : E.Coherent)
    (hdiv : E.isOperator LCDChar_Divide = true)
    (a z : TextLine) (ha : IsLiteral E a) (hz : IsLiteral E z)
    (hzero : E.isZero (literalValue E z) = true) :
    solve E (a ++ LCDChar_Divide :: z) 0 =
      .error (InterpreterException Error_Math ((a ++ LCDChar_Divide :: z).length : Nat)) := by
  obtain ⟨-, -, -, hd4, -⟩ := hE.operator hdiv
  generalize hx : a ++ LCDChar_Divide :: z = expr
  have hlen : expr.length = 0 + a.length + 1 + z.length := by
    rw [← hx]; simp; omega
  have e1 : ∀ fuel, solveLoop E expr (fuel + 1) (initialState E 0) (Token.default E) = _ :=
    fun fuel => solveLoop_literal E hE expr [] a (LCDChar_Divide :: z)
      fuel 0 [] [] (Token.default E) (Token.default E) ha
      (endsNumber_cons E _ _ hd4 (by decide)) (by simp [hx]) rfl (by simp [numberStackLimit])
      (analyze_after_default E _)
  have e2 := fun fuel => solveLoop_operator E hE expr LCDChar_Divide fuel (0 + a.length)
    [literalValue E a] [literalValue E a] [] []
    (numberToken E 0 (literalValue E a)) (numberToken E 0 (literalValue E a))
    (getElem?_at a z _ _ _ hx.symm (by simp))
    hdiv (analyze_after_number E _ _ _) (reduceTop_nil _ _ _ _ _ _)
    (by simp [commandStackLimit])
  have e3 := fun fuel => solveLoop_literal E hE expr (a ++ [LCDChar_Divide]) z []
    fuel (0 + a.length + 1) [literalValue E a]
    [Token.ofEntity E LCDChar_Divide ((0 + a.length : Nat) : Int)]
    (Token.ofEntity E LCDChar_Divide ((0 + a.length : Nat) : Int))
    (Token.ofEntity E LCDChar_Divide ((0 + a.length : Nat) : Int)) hz
    (endsNumber_nil E) (by simp [hx]) (by simp)
    (by simp [numberStackLimit])
    (analyze_number_after_operator E _ _ _ _ hdiv)
  have e4 := fun fuel => solveLoop_eof E expr fuel (0 + a.length + 1 + z.length)
    [literalValue E z, literalValue E a]
    [Token.ofEntity E LCDChar_Divide ((0 + a.length : Nat) : Int)]
    (numberToken E (0 + a.length + 1) (literalValue E z))
    (numberToken E (0 + a.length + 1) (literalValue E z))
    (by omega)
  have hapos : 0 < a.length := List.length_pos.mpr ha.1
  have hzpos : 0 < z.length := List.length_pos.mpr hz.1
  obtain ⟨k, hk⟩ : ∃ k, expr.length - 0 + 1 = k + 4 := ⟨expr.length - 3, by omega⟩
  rw [solve, solveWithFuel, hk, e1, e2, e3, e4]
  simp only [analyze_after_number]
  rw [performStackOperations]
  simp only [List.length_cons, List.length_nil]
  rw [performStackOperationsLoop_apply E _ _ _ _ _ _ _ _
    (by simp [Token.isOperatorToken, Token.ofEntity, hdiv])]
  simp only [Token.ofEntity, performOperation_div, hzero, if_true, Token.ofType]

theorem sample_isZero_zero : sampleEnv.isZero (literalValue sampleEnv [digit 0]) = true := by
  rw [sample_literalValue_digit 0 (by decide)]
  simp [sampleEnv]

/-- C4 (division by zero), as the code has it.  Whenever `/` is an operator, `solve` on the
line `a / z` from offset 0, for any numeric literal `a` and any numeric literal `z` whose value
is zero, returns no value: it fails with a Math error, and the offset the error carries is the
offset of the token being read when the division is applied.  That token is the end-of-input
token, so the offset is the length of the line (not the offset of the divide token). -/
theorem solve_div_zero (E : Env α) (hE : E.Coherent)
    (hdiv : E.isOperator LCDChar_Divide = true)
    (a z : TextLine) (ha : IsLiteral E a) (hz : IsLiteral E z)
    (hzero : E.isZero (literalValue E z) = true) :
    solve E (a ++ LCDChar_Divide :: z) 0 =
      .error (InterpreterException Error_Math ((a ++ LCDChar_Divide :: z).length : Nat)) :=
  solve_div_zero_run E hE hdiv a z ha hz hzero

/-- C4, on the sample environment: `5/0` fails with a Math error at offset 3. -/
theorem solve_div_zero_witness :
    solve sampleEnv [digit 5, LCDChar_Divide, digit 0] 0 =
      .error (InterpreterException Error_Math 3) :=
  solve_div_zero sampleEnv sampleEnv_coherent rfl [digit 5] [digit 0]
    (sample_isLiteral_digit 5 (by decide)) (sample_isLiteral_digit 0 (by decide))
    sample_isZero_zero

/-- C4 as the spec states it fails on `5/0`: the Math error does not carry offset 1, the
offset of the divide token, but offset 3. -/
theorem solve_div_zero_not_at_divide_token :
    solve sampleEnv [digit 5, LCDChar_Divide, digit 0] 0 ≠
        .error (InterpreterException Error_Math 1) ∧
      solve sampleEnv [digit 5, LCDChar_Divide, digit 0] 0 =
        .error (InterpreterException Error_Math 3) := by
  have h : solve sampleEnv [digit 5, LCDChar_Divide, digit 0] 0 =
      .error (InterpreterException Error_Math 3) :=
    solve_div_zero_run sampleEnv sampleEnv_coherent rfl [digit 5] [digit 0]
      (sample_isLiteral_digit 5 (by decide)) (sample_isLiteral_digit 0 (by decide))
      sample_isZero_zero
  rw [h]
  exact ⟨by simp, rfl⟩

/-! ### Unmatched close-paren -/

/-- `analyzeForSyntaxError` either passes or raises a Syntax error at the current token's
offset. -/
theorem analyze_ok_or_syntax (E : Env α) (token prev : Token α) :
    analyzeForSyntaxError E token prev = .ok () ∨
      analyzeForSyntaxError E token prev =
        .error (InterpreterException Error_Syntax token.offset) := by
  rw [analyzeForSyntaxError]
  split_ifs <;> simp

theorem dispatch_closeParen_unmatched (E : Env α) (hE : E.Coherent) (offset : Int)
    (st st1 : State α)
    (hred : performStackOperations E false false st = .ok st1)
    (htop : ∀ top rest, st1.commandStack = top :: rest → top.entity ≠ LCDChar_OpenParen) :
    dispatchToken E (Token.ofEntity E LCDChar_CloseParen offset) st =
      .error (InterpreterException Error_Syntax offset) := by
  rw [dispatch_closeParen E hE, hred]
  simp only []
  cases hcs : st1.commandStack with
  | nil => simp
  | cons top rest =>
    have := htop top rest hcs
    simp [this]

theorem solveLoop_closeParen_unmatched (E : Env α) (hE : E.Coherent) (expression : TextLine)
    (fuel offset : Nat) (ns : List α) (cs : List (Token α)) (cur prev : Token α)
    (st1 : State α)
    (hget : expression[offset]? = some LCDChar_CloseParen)
    (hred : performStackOperations E false false
      ⟨offset + 1, ns, cs, Token.ofEntity E LCDChar_CloseParen offset⟩ = .ok st1)
    (htop : ∀ top rest, st1.commandStack = top :: rest → top.entity ≠ LCDChar_OpenParen) :
    solveLoop E expression (fuel + 1) ⟨offset, ns, cs, cur⟩ prev =
      .error (InterpreterException Error_Syntax offset) := by
  have hd := dispatch_closeParen_unmatched E hE offset _ st1 hred htop
  have htype : (Token.ofEntity E LCDChar_CloseParen (offset : Int)).tokenType ≠ Type_EOF := by
    simp [Token.ofEntity]
  have hoff : (Token.ofEntity E LCDChar_CloseParen (offset : Int)).offset = offset := rfl
  rw [solveLoop_succ, readToken_entity E expression ⟨offset, ns, cs, cur⟩ _ hget (by simp)]
  rcases analyze_ok_or_syntax E (Token.ofEntity E LCDChar_CloseParen offset) prev with h | h
  · simp only [h, hd, beq_iff_eq, htype, if_false]
  · simp only [h, hoff, beq_iff_eq, htype, if_false]

theorem performStackOperations_nil (E : Env α) (tp tb : Bool) (offset : Nat) (ns : List α)
    (cur : Token α) :
    performStackOperations E tp tb ⟨offset, ns, [], cur⟩ = .ok ⟨offset, ns, [], cur⟩ := by
  rfl

/-- C5 (unmatched close-paren).  Take a state of the scanning loop in which the next symbol is
a close-paren, and suppose the reduction the close-paren starts
(`performStackOperations(false, false)`) goes through and leaves a command stack whose top is
not an open-paren: the stack is empty, or its top has another entity, as an indexed-variable
opener has.  Then the loop fails there with a Syntax error at the close-paren's offset, and so
does every `solve` whose scanning reaches that state.  In particular `solve` from offset 0 on
any line that starts with `)` fails with a Syntax error at offset 0. -/
theorem solve_unmatched_closeParen (E : Env α) (hE : E.Coherent) :
    (∀ (expression : TextLine) (fuel offset : Nat) (ns : List α) (cs : List (Token α))
        (cur prev : Token α) (st1 : State α),
        expression[offset]? = some LCDChar_CloseParen →
        performStackOperations E false false
          ⟨offset + 1, ns, cs, Token.ofEntity E LCDChar_CloseParen offset⟩ = .ok st1 →
        (∀ top rest, st1.commandStack = top :: rest → top.entity ≠ LCDChar_OpenParen) →
        solveLoop E expression (fuel + 1) ⟨offset, ns, cs, cur⟩ prev =
            .error (InterpreterException Error_Syntax offset) ∧
          ∀ fuel0 offset0 : Nat,
            solveLoop E expression fuel0 (initialState E offset0) (Token.default E) =
              solveLoop E expression (fuel + 1) ⟨offset, ns, cs, cur⟩ prev →
            solveWithFuel E fuel0 expression offset0 =
              .error (InterpreterException Error_Syntax offset)) ∧
    ∀ rest : TextLine,
      solve E (LCDChar_CloseParen :: rest) 0 = .error (InterpreterException Error_Syntax 0) := by
  constructor
  · intro expression fuel offset ns cs cur prev st1 hget hred htop
    have h := solveLoop_closeParen_unmatched E hE expression fuel offset ns cs cur prev st1
      hget hred htop
    refine ⟨h, ?_⟩
    intro fuel0 offset0 hreach
    rw [solveWithFuel, hreach, h]
  · intro rest
    have h := solveLoop_closeParen_unmatched E hE (LCDChar_CloseParen :: rest)
      ((LCDChar_CloseParen :: rest).length - 0) 0 [] [] (Token.default E) (Token.default E)
      _ (by simp) (performStackOperations_nil E false false _ _ _) (by simp)
    rw [solve, solveWithFuel, initialState, h]
    rfl

/-- C5, on the sample environment: `)1` fails with a Syntax error at offset 0; and in `A[2)`
the close-paren at offset 3 finds the indexed-variable opener on top of the command stack and
fails with a Syntax error at offset 3. -/
theorem solve_unmatched_closeParen_witness :
    solve sampleEnv [LCDChar_CloseParen, digit 1] 0 =
        .error (InterpreterException Error_Syntax 0) ∧
      solveLoop sampleEnv [letterA, LCDChar_OpenBracket, digit 2, LCDChar_CloseParen] (0 + 1)
          ⟨3, [2], [openerToken sampleEnv letterA 0], numberToken sampleEnv 2 2⟩
          (numberToken sampleEnv 2 2) =
        .error (InterpreterException Error_Syntax 3) := by
  constructor
  · exact (solve_unmatched_closeParen sampleEnv sampleEnv_coherent).2 [digit 1]
  · exact ((solve_unmatched_closeParen sampleEnv sampleEnv_coherent).1
      [letterA, LCDChar_OpenBracket, digit 2, LCDChar_CloseParen] 0 3 [2]
      [openerToken sampleEnv letterA 0] (numberToken sampleEnv 2 2) (numberToken sampleEnv 2 2)
      ⟨3 + 1, [2], [openerToken sampleEnv letterA 0],
        Token.ofEntity sampleEnv LCDChar_CloseParen ((3 : Nat) : Int)⟩
      rfl rfl (by
        intro top rest h
        simp at h
        rw [← h.1]
        decide)).1

/-! ### Stack overflow -/

theorem analyze_openParen_after_openParen (E : Env α) (hE : E.Coherent) (offset offset1 : Int) :
    analyzeForSyntaxError E (Token.ofEntity E LCDChar_OpenParen offset)
      (Token.ofEntity E LCDChar_OpenParen offset1) = .ok () := by
  obtain ⟨h1, h2, h3, h4, h5⟩ := hE.openParen
  simp [analyzeForSyntaxError, Token.ofEntity, Token.isOperatorToken, Token.isPreFuncToken,
    Token.isPostFuncToken, Token.isEntity, Token.isVariable, h1, h3]

theorem getElem?_replicate_lt (n i : Nat) (c : LCDChar) (h : i < n) :
    (List.replicate n c)[i]? = some c := by
  rw [List.getElem?_eq_getElem (by simpa using h)]
  simp

/-- Scanning 21 open-parens from the `i`-th on, with `i` of them stacked: the 21st push
fails. -/
theorem solveLoop_openParens_overflow (E : Env α) (hE : E.Coherent) :
    ∀ (d i fuel : Nat) (cs : List (Token α)) (cur prev : Token α),
      i + d = 20 → cs.length = i →
      (prev = Token.default E ∨ ∃ o : Int, prev = Token.ofEntity E LCDChar_OpenParen o) →
      solveLoop E (List.replicate 21 LCDChar_OpenParen) (fuel + d + 1) ⟨i, [], cs, cur⟩ prev =
        .error (InterpreterException Error_Stack 20) := by
  obtain ⟨h1, h2, h3, h4, h5⟩ := hE.openParen
  intro d
  induction d with
  | zero =>
    intro i fuel cs cur prev hi hcs hprev
    have hi20 : i = 20 := by omega
    subst hi20
    have han : analyzeForSyntaxError E (Token.ofEntity E LCDChar_OpenParen ((20 : Nat) : Int))
        prev = .ok () := by
      rcases hprev with h | ⟨o, h⟩
      · rw [h]; exact analyze_after_default E _
      · rw [h]; exact analyze_openParen_after_openParen E hE _ _
    rw [solveLoop_succ, readToken_entity E _ ⟨20, [], cs, cur⟩ LCDChar_OpenParen
      (getElem?_replicate_lt 21 20 _ (by decide)) (by simp)]
    have htype : (Token.ofEntity E LCDChar_OpenParen ((20 : Nat) : Int)).tokenType ≠ Type_EOF := by
      simp [Token.ofEntity]
    simp only [han, beq_iff_eq, htype, if_false]
    simp [dispatchToken, pushToken, Token.ofEntity, Token.isVariable, Token.isPreFuncToken,
      Token.isEntity, h4, hcs, commandStackLimit]
  | succ d ih =>
    intro i fuel cs cur prev hi hcs hprev
    have han : analyzeForSyntaxError E (Token.ofEntity E LCDChar_OpenParen (i : Int))
        prev = .ok () := by
      rcases hprev with h | ⟨o, h⟩
      · rw [h]; exact analyze_after_default E _
      · rw [h]; exact analyze_openParen_after_openParen E hE _ _
    have hstep := solveLoop_openParen E hE (List.replicate 21 LCDChar_OpenParen) (fuel + d + 1)
      i [] cs cur prev (getElem?_replicate_lt 21 i _ (by omega)) han
      (by rw [hcs]; simp [commandStackLimit]; omega)
    rw [show fuel + (d + 1) + 1 = fuel + d + 1 + 1 by omega, hstep]
    exact ih (i + 1) fuel _ _ _ (by omega) (by simp [hcs]) (Or.inr ⟨_, rfl⟩)

theorem solve_openParens_overflow (E : Env α) (hE : E.Coherent) :
    solve E (List.replicate 21 LCDChar_OpenParen) 0 =
      .error (InterpreterException Error_Stack 20) := by
  have h := solveLoop_openParens_overflow E hE 20 0 1 [] (Token.default E) (Token.default E)
    (by decide) rfl (Or.inl rfl)
  rw [solve, solveWithFuel]
  simp only [List.length_replicate]
  rw [show 21 - 0 + 1 = 1 + 20 + 1 by decide, initialState, h]

/-- C6 (stack overflow is an explicit failure).  For a Number or Variable token, `pushToken`
fails exactly when the number stack holds at least 9 values, which for a stack within its bound
is: exactly 9; for any other token it fails exactly when the command stack holds at least 20
tokens (within its bound: exactly 20).  When it fails, the failure is a Stack error at the
token's offset; otherwise the token (its value, for the number stack) is pushed on the stack and
nothing else changes.  Consequently `solve` from offset 0 on 21 open-parens fails with a Stack
error at offset 20. -/
theorem pushToken_overflow (E : Env α) (hE : E.Coherent) :
    (∀ (token : Token α) (st : State α),
      (token.tokenType == Type_Number || token.isVariable E) = true →
        (9 ≤ st.numberStack.length →
          pushToken E token st = .error (InterpreterException Error_Stack token.offset)) ∧
        (st.numberStack.length < 9 →
          pushToken E token st = .ok { st with numberStack := token.value :: st.numberStack }) ∧
        (st.numberStack.length ≤ 9 →
          ((∃ e, pushToken E token st = .error e) ↔ st.numberStack.length = 9))) ∧
    (∀ (token : Token α) (st : State α),
      (token.tokenType == Type_Number || token.isVariable E) = false →
        (20 ≤ st.commandStack.length →
          pushToken E token st = .error (InterpreterException Error_Stack token.offset)) ∧
        (st.commandStack.length < 20 →
          pushToken E token st = .ok { st with commandStack := token :: st.commandStack }) ∧
        (st.commandStack.length ≤ 20 →
          ((∃ e, pushToken E token st = .error e) ↔ st.commandStack.length = 20))) ∧
    solve E (List.replicate 21 LCDChar_OpenParen) 0 =
      .error (InterpreterException Error_Stack 20) := by
  refine ⟨?_, ?_, solve_openParens_overflow E hE⟩
  · intro token st hnum
    have hfail : 9 ≤ st.numberStack.length →
        pushToken E token st = .error (InterpreterException Error_Stack token.offset) := by
      intro h
      have h' : ¬ st.numberStack.length < numberStackLimit := by
        simp [numberStackLimit]; omega
      simp [pushToken, hnum, h']
    have hok : st.numberStack.length < 9 →
        pushToken E token st = .ok { st with numberStack := token.value :: st.numberStack } := by
      intro h
      have h' : st.numberStack.length < numberStackLimit := h
      simp [pushToken, hnum, h']
    refine ⟨hfail, hok, ?_⟩
    intro hle
    constructor
    · rintro ⟨e, he⟩
      by_contra hne
      rw [hok (by omega)] at he
      cases he
    · intro h
      exact ⟨_, hfail (by omega)⟩
  · intro token st hnum
    have hfail : 20 ≤ st.commandStack.length →
        pushToken E token st = .error (InterpreterException Error_Stack token.offset) := by
      intro h
      have h' : ¬ st.commandStack.length < commandStackLimit := by
        simp [commandStackLimit]; omega
      simp [pushToken, hnum, h']
    have hok : st.commandStack.length < 20 →
        pushToken E token st = .ok { st with commandStack := token :: st.commandStack } := by
      intro h
      have h' : st.commandStack.length < commandStackLimit := h
      simp [pushToken, hnum, h']
    refine ⟨hfail, hok, ?_⟩
    intro hle
    constructor
    · rintro ⟨e, he⟩
      by_contra hne
      rw [hok (by omega)] at he
      cases he
    · intro h
      exact ⟨_, hfail (by omega)⟩

/-- C6, on the sample environment: 21 open-parens fail with a Stack error at offset 20, and a
Number token read at offset 9 is refused by a number stack that holds 9 values. -/
theorem pushToken_overflow_witness :
    solve sampleEnv (List.replicate 21 LCDChar_OpenParen) 0 =
        .error (InterpreterException Error_Stack 20) ∧
      pushToken sampleEnv (numberToken sampleEnv 9 1)
          ⟨10, List.replicate 9 1, [], numberToken sampleEnv 9 1⟩ =
        .error (InterpreterException Error_Stack 9) := by
  constructor
  · exact (pushToken_overflow sampleEnv sampleEnv_coherent).2.2
  · exact ((pushToken_overflow sampleEnv sampleEnv_coherent).1 (numberToken sampleEnv 9 1)
      ⟨10, List.replicate 9 1, [], numberToken sampleEnv 9 1⟩ rfl).1 (by simp)

/-! ### Indexed variables -/

theorem readToken_opener (E : Env α) (hE : E.Coherent) (expression : TextLine) (A : LCDChar)
    (offset : Nat) (ns : List α) (cs : List (Token α)) (cur : Token α)
    (hA : E.isAlpha A = true) (hget : expression[offset]? = some A)
    (hnext : expression[offset + 1]? = some LCDChar_OpenBracket) :
    readToken E expression ⟨offset, ns, cs, cur⟩ =
      .ok (openerToken E A offset, ⟨offset + 2, ns, cs, openerToken E A offset⟩) := by
  obtain ⟨h1, h2, h3, h4, h5, h6, h7, h8⟩ := hE.alpha hA
  rw [readToken_eq E expression _ A hget]
  simp [h1, h2, h3, h6, h7, h8, hA, hnext, openerToken]

theorem dispatch_closeBracket (E : Env α) (hE : E.Coherent) (offset : Int) (st : State α) :
    dispatchToken E (Token.ofEntity E LCDChar_CloseBracket offset) st =
      match performStackOperations E true false st with
      | .error e => .error e
      | .ok st1 =>
        match st1.commandStack with
        | [] => .ok ({ st1 with currentOffset := st1.currentOffset - 1 }, true)
        | top :: rest =>
          if top.tokenType == Type_OpenArrayVar then
            match resolveArrayVar E top.entity offset { st1 with commandStack := rest } with
            | .error e => .error e
            | .ok st2 => .ok (st2, false)
          else .ok ({ st1 with currentOffset := st1.currentOffset - 1 }, true) := by
  obtain ⟨h1, h2, h3, h4, h5⟩ := hE.closeBracket
  rw [dispatchToken]
  simp only [Token.ofEntity, Token.isVariable, Token.isPreFuncToken, Token.isEntity,
    Token.isOperatorToken, Token.isPostFuncToken, h1, h2, h3, h4]
  simp

theorem sample_literalValue_27 : literalValue sampleEnv [digit 2, digit 7] = 27 := by
  simp [literalValue, numberString, numberChar, sampleEnv, digit, decimalValue, digitsValue,
    Char.isDigit]

/-! ### The adjacency validator -/

/-- A token after which an operand is expected is not one that completes a value. -/
theorem operand_expected_not_completed (E : Env α) (hE : E.Coherent) (t : Token α)
    (h : (t.isOperatorToken E || t.isPreFuncToken E || t.isEntity LCDChar_OpenParen ||
      t.tokenType == Type_OpenArrayVar) = true) :
    (t.isPostFuncToken E || t.isEntity LCDChar_CloseParen || t.isVariable E) = false := by
  have hu := hE.unambiguous t.entity
  simp [Env.classes] at hu
  simp only [Token.isOperatorToken, Token.isPreFuncToken, Token.isPostFuncToken, Token.isEntity,
    Token.isVariable] at h ⊢
  by_cases hty : t.tokenType = Type_Entity
  · simp only [hty, beq_self_eq_true, Bool.true_and, Bool.or_eq_true] at h ⊢
    rcases h with ((h | h) | h) | h
    · simp [h] at hu
      simp [hu]
    · simp [h] at hu
      simp [hu]
    · have h' : t.entity = LCDChar_OpenParen := by simpa using h
      simp [h'] at hu ⊢
      simp [hu]
    · exact absurd h (by simp)
  · simp [hty]

/-- C10 (adjacency validator, raises-iff).  With a classifier in which a symbol has one class,
`analyzeForSyntaxError` fails, for any pair of tokens, if and only if either (1) the previous
token is an operator, a prefix function, an open-paren or an indexed-variable opener and the
current one is an operator, a postfix function, a close-paren, a close-bracket or the
end-of-input token, or (2) the previous token is a postfix function, a close-paren or a variable
and the current one is a Number; and whenever it fails, the failure is a Syntax error at the
current token's offset. -/
theorem analyzeForSyntaxError_fails_iff (E : Env α) (hE : E.Coherent)
    (token previousToken : Token α) :
    (analyzeForSyntaxError E token previousToken ≠ .ok () ↔
      ((previousToken.isOperatorToken E = true ∨ previousToken.isPreFuncToken E = true ∨
          previousToken.isEntity LCDChar_OpenParen = true ∨
          previousToken.tokenType = Type_OpenArrayVar) ∧
        (token.isOperatorToken E = true ∨ token.isPostFuncToken E = true ∨
          token.isEntity LCDChar_CloseParen = true ∨
          token.isEntity LCDChar_CloseBracket = true ∨ token.tokenType = Type_EOF)) ∨
      ((previousToken.isPostFuncToken E = true ∨
          previousToken.isEntity LCDChar_CloseParen = true ∨
          previousToken.isVariable E = true) ∧
        token.tokenType = Type_Number)) ∧
    (analyzeForSyntaxError E token previousToken ≠ .ok () →
      analyzeForSyntaxError E token previousToken =
        .error (InterpreterException Error_Syntax token.offset)) := by
  have hexcl := operand_expected_not_completed E hE previousToken
  constructor
  · have key : ∀ (x : Failure) (bA bB bC bN : Bool), (bA = true → bC = false) →
        ((if bA = true then (if bB = true then (.error x : Except Failure Unit) else .ok ())
          else if bC = true then (if bN = true then .error x else .ok ()) else .ok ()) ≠ .ok ()
          ↔ (bA = true ∧ bB = true) ∨ (bC = true ∧ bN = true)) := by
      intro x bA bB bC bN h
      cases bA <;> cases bB <;> cases bC <;> cases bN <;> simp at h ⊢
    rw [analyzeForSyntaxError]
    refine Iff.trans (key _ _ _ _ _ hexcl) ?_
    simp only [Bool.or_eq_true, beq_iff_eq, or_assoc]
  · intro h
    rcases analyze_ok_or_syntax E token previousToken with h1 | h1
    · exact absurd h1 h
    · exact h1

/-- C10, on the sample environment: after the operator `+` the end-of-input token (as in `2+`)
is rejected with a Syntax error at its offset 2, and after the variable `A` so is a Number. -/
theorem analyzeForSyntaxError_fails_iff_witness :
    analyzeForSyntaxError sampleEnv (Token.ofType sampleEnv Type_EOF 2)
        (Token.ofEntity sampleEnv LCDChar_Add 1) =
      .error (InterpreterException Error_Syntax 2) ∧
    analyzeForSyntaxError sampleEnv (numberToken sampleEnv 1 5)
        (Token.ofEntity sampleEnv letterA 0) =
      .error (InterpreterException Error_Syntax 1) := by
  constructor
  · exact (analyzeForSyntaxError_fails_iff sampleEnv sampleEnv_coherent _ _).2
      ((analyzeForSyntaxError_fails_iff sampleEnv sampleEnv_coherent _ _).1.mpr
        (Or.inl ⟨Or.inl rfl, Or.inr (Or.inr (Or.inr (Or.inr rfl)))⟩))
  · exact (analyzeForSyntaxError_fails_iff sampleEnv sampleEnv_coherent _ _).2
      ((analyzeForSyntaxError_fails_iff sampleEnv sampleEnv_coherent _ _).1.mpr
        (Or.inr ⟨Or.inr (Or.inr rfl), rfl⟩))

/-! ### What the operations leave unchanged, and fuel -/

theorem parseNumberLoop_spec (E : Env α) (expression : TextLine) :
    ∀ (fuel offset : Nat) (s : List Char),
      offset ≤ expression.length → expression.length < offset + fuel →
      parseNumberLoop E expression fuel offset s ≠ .error outOfFuel ∧
      ∀ s1 offset1, parseNumberLoop E expression fuel offset s = .ok (s1, offset1) →
        offset ≤ offset1 ∧ offset1 ≤ expression.length := by
  intro fuel
  induction fuel with
  | zero =>
    intro offset s h1 h2
    omega
  | succ fuel ih =>
    intro offset s h1 h2
    rw [parseNumberLoop]
    cases hget : expression[offset]? with
    | none =>
      refine ⟨by simp, ?_⟩
      intro s1 offset1 h
      simp at h
      omega
    | some c =>
      have hlt : offset < expression.length := by
        by_contra hge
        rw [List.getElem?_eq_none (by omega)] at hget
        cases hget
      simp only []
      split_ifs with h3 h4 h5
      · obtain ⟨i1, i2⟩ := ih (offset + 1) (s ++ [E.toNumChar c]) (by omega) (by omega)
        refine ⟨i1, ?_⟩
        intro s1 offset1 h
        have := i2 s1 offset1 h
        omega
      · obtain ⟨i1, i2⟩ := ih (offset + 1) (s ++ ['.']) (by omega) (by omega)
        refine ⟨i1, ?_⟩
        intro s1 offset1 h
        have := i2 s1 offset1 h
        omega
      · exact ⟨by simp, by intro s1 offset1 h; cases h⟩
      · refine ⟨by simp, ?_⟩
        intro s1 offset1 h
        simp at h
        omega

theorem parseNumber_spec (E : Env α) (expression : TextLine) (offset : Nat) (c : LCDChar)
    (hget : expression[offset]? = some c) (hc : (E.isCipher c || c == LCDChar_Dot) = true) :
    parseNumber E expression offset ≠ .error outOfFuel ∧
      ∀ d offset1, parseNumber E expression offset = .ok (d, offset1) →
        offset < offset1 ∧ offset1 ≤ expression.length := by
  have hlt : offset < expression.length := by
    by_contra hge
    rw [List.getElem?_eq_none (by omega)] at hget
    cases hget
  have hguard : (c != LCDChar_Dot && !E.isCipher c) = false := by
    cases h1 : E.isCipher c <;> simp_all
  obtain ⟨i1, i2⟩ := parseNumberLoop_spec E expression (expression.length - offset) (offset + 1)
    [E.toNumChar c] (by omega) (by omega)
  rw [parseNumber, hget]
  simp only [hguard, Bool.false_eq_true, if_false]
  cases hloop : parseNumberLoop E expression (expression.length - offset) (offset + 1)
      [E.toNumChar c] with
  | error e =>
    refine ⟨?_, by intro d offset1 h; cases h⟩
    intro h
    simp at h
    exact i1 (by rw [hloop, h])
  | ok r =>
    obtain ⟨s1, o1⟩ := r
    refine ⟨by simp, ?_⟩
    intro d offset1 h
    simp at h
    have := i2 s1 o1 hloop
    omega

/-- `readToken` does not run out of fuel, leaves the stacks alone, and moves the cursor
forward, by at least one symbol unless the token is of type `Type_EOF`. -/
theorem readToken_spec (E : Env α) (expression : TextLine) (st : State α) :
    readToken E expression st ≠ .error outOfFuel ∧
      ∀ token st1, readToken E expression st = .ok (token, st1) →
        st1.numberStack = st.numberStack ∧ st1.commandStack = st.commandStack ∧
        st1.currentToken = token ∧
        st.currentOffset ≤ st1.currentOffset ∧
        (token.tokenType ≠ Type_EOF →
          st.currentOffset < st1.currentOffset ∧ st1.currentOffset ≤ expression.length) ∧
        (token.tokenType = Type_EOF → st1.currentOffset = st.currentOffset ∧
          (expression.length ≤ st.currentOffset ∨
            ∃ c, expression[st.currentOffset]? = some c ∧ E.isUsable c = false)) ∧
        (token.isEntity LCDChar_CloseBracket = true →
          st1.currentOffset = st.currentOffset + 1 ∧
          expression[st.currentOffset]? = some LCDChar_CloseBracket) := by
  cases hget : expression[st.currentOffset]? with
  | none =>
    have hge : expression.length ≤ st.currentOffset := by
      by_contra hlt
      rw [List.getElem?_eq_getElem (by omega)] at hget
      cases hget
    rw [readToken_eof E expression st hge]
    refine ⟨by simp, ?_⟩
    intro token st1 h
    simp at h
    obtain ⟨h1, h2⟩ := h
    subst h1 h2
    simp [Token.ofType, Token.isEntity, hge]
  | some c =>
    have hlt : st.currentOffset < expression.length := by
      by_contra hge
      rw [List.getElem?_eq_none (by omega)] at hget
      cases hget
    rw [readToken_eq E expression st c hget]
    split_ifs with h1 h2 h3 h4
    · refine ⟨by simp, ?_⟩
      intro token st1 h
      simp at h
      obtain ⟨h1', h2'⟩ := h
      subst h1' h2'
      simp [Token.ofEntity, Token.isEntity]
      omega
    · have hnext : st.currentOffset + 1 < expression.length := by
        by_contra hge
        rw [List.getElem?_eq_none (by omega)] at h3
        cases h3
      refine ⟨by simp, ?_⟩
      intro token st1 h
      simp at h
      obtain ⟨h1', h2'⟩ := h
      subst h1' h2'
      simp [Token.ofType, Token.setEntity, Token.isEntity]
      omega
    · refine ⟨by simp, ?_⟩
      intro token st1 h
      simp at h
      obtain ⟨h1', h2'⟩ := h
      subst h1' h2'
      simp [Token.ofEntity, Token.isEntity]
      omega
    · obtain ⟨i1, i2⟩ := parseNumber_spec E expression st.currentOffset c hget h4
      cases hp : parseNumber E expression st.currentOffset with
      | error e =>
        refine ⟨?_, by intro token st1 h; cases h⟩
        intro h
        simp at h
        exact i1 (by rw [hp, h])
      | ok r =>
        obtain ⟨d, o1⟩ := r
        have := i2 d o1 hp
        refine ⟨by simp, ?_⟩
        intro token st1 h
        simp at h
        obtain ⟨h1', h2'⟩ := h
        subst h1' h2'
        simp [numberToken, Token.ofType, Token.setValue, Token.isEntity]
        omega
    · refine ⟨by simp, ?_⟩
      intro token st1 h
      simp at h
      obtain ⟨h1', h2'⟩ := h
      subst h1' h2'
      simp [Token.default, Token.isEntity]
      right
      simp only [Env.isUsable]
      simp only [Bool.or_eq_true, not_or, Bool.not_eq_true] at h1 h2 h4
      simp [h1, h2, h4]

theorem keepsFrame_ok (st st1 : State α) (h1 : st1.currentOffset = st.currentOffset)
    (h2 : st1.commandStack = st.commandStack) (h3 : st1.currentToken = st.currentToken) :
    KeepsFrame st (.ok st1) := by
  refine ⟨by simp, ?_⟩
  intro st2 h
  simp at h
  subst h
  exact ⟨h1, h2, h3⟩

theorem keepsFrame_exception (st : State α) (error : Error) (offset : Int) :
    KeepsFrame st (.error (InterpreterException error offset)) :=
  ⟨by simp, by intro st1 h; cases h⟩

theorem keepsFrame_undefined (st : State α) :
    KeepsFrame st (.error undefinedBehaviour) :=
  ⟨by simp, by intro st1 h; cases h⟩

theorem mapTop_spec (st : State α) (f : α → α) : KeepsFrame st (st.mapTop f) := by
  obtain ⟨off, ns, cs, cur⟩ := st
  cases ns with
  | nil => exact keepsFrame_undefined _
  | cons d ns => exact keepsFrame_ok _ _ rfl rfl rfl

/-- `performOperation` touches the number stack only. -/
theorem performOperation_spec (E : Env α) (entity : LCDChar) (st : State α) :
    KeepsFrame st (performOperation E entity st) := by
  cases entity
  case LCDChar_Divide =>
    obtain ⟨off, ns, cs, cur⟩ := st
    rcases ns with _ | ⟨d2, _ | ⟨d1, ns⟩⟩
    · exact keepsFrame_undefined _
    · exact keepsFrame_undefined _
    · rw [performOperation_div]
      split_ifs
      · exact keepsFrame_exception _ _ _
      · exact keepsFrame_ok _ _ rfl rfl rfl
  case LCDChar_SquareRoot =>
    obtain ⟨off, ns, cs, cur⟩ := st
    rcases ns with _ | ⟨d, ns⟩
    · exact keepsFrame_undefined _
    · show KeepsFrame _ (if E.isNegative d then _ else _)
      split_ifs
      · exact keepsFrame_exception _ _ _
      · exact keepsFrame_ok _ _ rfl rfl rfl
  case LCDChar_Exclamation =>
    obtain ⟨off, ns, cs, cur⟩ := st
    rcases ns with _ | ⟨d, ns⟩
    · exact keepsFrame_undefined _
    · show KeepsFrame _ (match E.factorial d with
        | .error (error, offset) => .error (InterpreterException error offset)
        | .ok r => .ok _)
      cases E.factorial d with
      | error e => exact keepsFrame_exception _ _ _
      | ok r => exact keepsFrame_ok _ _ rfl rfl rfl
  all_goals
    first
    | exact mapTop_spec st _
    | exact keepsFrame_ok st st rfl rfl rfl
    | (obtain ⟨off, ns, cs, cur⟩ := st
       rcases ns with _ | ⟨d2, _ | ⟨d1, ns⟩⟩
       · exact keepsFrame_undefined _
       · exact keepsFrame_undefined _
       · exact keepsFrame_ok _ _ rfl rfl rfl)

theorem resolveArrayVar_spec (E : Env α) (entity : LCDChar) (errorOffset : Int)
    (st : State α) : KeepsFrame st (resolveArrayVar E entity errorOffset st) := by
  obtain ⟨off, ns, cs, cur⟩ := st
  rcases ns with _ | ⟨d, ns⟩
  · exact keepsFrame_undefined _
  · show KeepsFrame _ (if (E.memoryVariable entity (E.toInt d)).2 then _ else _)
    split_ifs
    · exact keepsFrame_exception _ _ _
    · exact keepsFrame_ok _ _ rfl rfl rfl

theorem pushToken_spec (E : Env α) (token : Token α) (st : State α) :
    pushToken E token st ≠ .error outOfFuel ∧
      ∀ st1, pushToken E token st = .ok st1 → st1.currentOffset = st.currentOffset ∧
        st1.currentToken = st.currentToken := by
  rw [pushToken]
  split_ifs <;> simp

/-- With one unit of fuel per command-stack entry and one more, the reduction loop does not
run out of fuel, and it leaves the cursor and the current token alone. -/
theorem performStackOperationsLoop_spec (E : Env α) (tp tb : Bool) :
    ∀ (fuel : Nat) (st : State α), st.commandStack.length < fuel →
      performStackOperationsLoop E tp tb fuel st ≠ .error outOfFuel ∧
        ∀ st1, performStackOperationsLoop E tp tb fuel st = .ok st1 →
          st1.currentOffset = st.currentOffset ∧ st1.currentToken = st.currentToken := by
  intro fuel
  induction fuel with
  | zero => intro st h; omega
  | succ fuel ih =>
    intro st hlen
    obtain ⟨off, ns, cs, cur⟩ := st
    cases cs with
    | nil =>
      rw [performStackOperationsLoop_nil]
      refine ⟨by simp, ?_⟩
      intro st1 h
      simp at h
      subst h
      simp
    | cons top rest =>
      have hrest : rest.length < fuel := by simp at hlen; omega
      rw [performStackOperationsLoop]
      simp only []
      split_ifs with h1 h2 h3
      · obtain ⟨i1, i2⟩ := performOperation_spec E top.entity ⟨off, ns, rest, cur⟩
        cases hop : performOperation E top.entity ⟨off, ns, rest, cur⟩ with
        | error e =>
          refine ⟨?_, by intro st1 h; cases h⟩
          intro h
          simp at h
          exact i1 (by rw [hop, h])
        | ok st2 =>
          obtain ⟨j1, j2, j3⟩ := i2 st2 hop
          obtain ⟨k1, k2⟩ := ih st2 (by rw [j2]; exact hrest)
          refine ⟨k1, ?_⟩
          intro st1 h
          obtain ⟨l1, l2⟩ := k2 st1 h
          exact ⟨l1.trans j1, l2.trans j3⟩
      · exact ih ⟨off, ns, rest, cur⟩ hrest
      · obtain ⟨i1, i2⟩ := resolveArrayVar_spec E top.entity 0 ⟨off, ns, rest, cur⟩
        cases hop : resolveArrayVar E top.entity 0 ⟨off, ns, rest, cur⟩ with
        | error e =>
          refine ⟨?_, by intro st1 h; cases h⟩
          intro h
          simp at h
          exact i1 (by rw [hop, h])
        | ok st2 =>
          obtain ⟨j1, j2, j3⟩ := i2 st2 hop
          obtain ⟨k1, k2⟩ := ih st2 (by rw [j2]; exact hrest)
          refine ⟨k1, ?_⟩
          intro st1 h
          obtain ⟨l1, l2⟩ := k2 st1 h
          exact ⟨l1.trans j1, l2.trans j3⟩
      · refine ⟨by simp, ?_⟩
        intro st1 h
        simp at h
        subst h
        simp

theorem performStackOperations_spec (E : Env α) (tp tb : Bool) (st : State α) :
    performStackOperations E tp tb st ≠ .error outOfFuel ∧
      ∀ st1, performStackOperations E tp tb st = .ok st1 →
        st1.currentOffset = st.currentOffset ∧ st1.currentToken = st.currentToken :=
  performStackOperationsLoop_spec E tp tb _ st (Nat.lt_succ_self _)

theorem reduceTop_spec (E : Env α) (p : LCDChar → Bool) (entity : LCDChar) (st : State α) :
    reduceTop E p entity st ≠ .error outOfFuel ∧
      ∀ st1, reduceTop E p entity st = .ok st1 →
        st1.currentOffset = st.currentOffset ∧ st1.currentToken = st.currentToken := by
  obtain ⟨off, ns, cs, cur⟩ := st
  cases cs with
  | nil =>
    rw [reduceTop_nil]
    refine ⟨by simp, ?_⟩
    intro st1 h
    simp at h
    subst h
    simp
  | cons top rest =>
    rw [reduceTop]
    simp only []
    split_ifs
    · obtain ⟨i1, i2⟩ := performOperation_spec E top.entity ⟨off, ns, rest, cur⟩
      refine ⟨i1, ?_⟩
      intro st1 h
      obtain ⟨j1, j2, j3⟩ := i2 st1 h
      exact ⟨j1, j3⟩
    · refine ⟨by simp, ?_⟩
      intro st1 h
      simp at h
      subst h
      simp
    · refine ⟨by simp, ?_⟩
      intro st1 h
      simp at h
      subst h
      simp

theorem dispatchFrame_bind (token : Token α) (st : State α) :
    ∀ r : Except Failure (State α), r ≠ .error outOfFuel →
      (∀ st1, r = .ok st1 → st1.currentOffset = st.currentOffset) →
      DispatchFrame token st
        (match r with
        | .error e => .error e
        | .ok st1 => .ok (st1, false)) := by
  intro r h1 h2
  cases r with
  | error e =>
    refine ⟨?_, by intro st1 b h; cases h⟩
    intro h
    simp at h
    exact h1 (by rw [h])
  | ok st2 =>
    refine ⟨by simp, ?_⟩
    intro st1 b h
    simp at h
    obtain ⟨h3, h4⟩ := h
    subst h3 h4
    exact ⟨fun _ => h2 _ rfl, fun h => by cases h⟩

/-- The dispatch on a token does not run out of fuel and moves the cursor only back by one,
on a stray close-bracket. -/
theorem dispatchToken_spec (E : Env α) (token : Token α) (st : State α) :
    DispatchFrame token st (dispatchToken E token st) := by
  rw [dispatchToken]
  split_ifs with h1 h2 h3 h4 h5
  · exact dispatchFrame_bind token st _ (pushToken_spec E token st).1
      (fun st1 h => ((pushToken_spec E token st).2 st1 h).1)
  · obtain ⟨i1, i2⟩ := reduceTop_spec E (fun e => E.isOperator e || E.isPreFunc e)
      token.entity st
    cases hr : reduceTop E (fun e => E.isOperator e || E.isPreFunc e) token.entity st with
    | error e =>
      refine ⟨?_, by intro st1 b h; cases h⟩
      intro h
      simp at h
      exact i1 (by rw [hr, h])
    | ok st2 =>
      obtain ⟨j1, j2⟩ := i2 st2 hr
      simp only []
      have := dispatchFrame_bind token st2 _ (pushToken_spec E token st2).1
        (fun st1 h => ((pushToken_spec E token st2).2 st1 h).1)
      refine ⟨this.1, ?_⟩
      intro st1 b h
      obtain ⟨k1, k2⟩ := this.2 st1 b h
      exact ⟨fun hb => (k1 hb).trans j1, fun hb => by rw [← j1]; exact k2 hb⟩
  · obtain ⟨i1, i2⟩ := reduceTop_spec E
      (fun e => E.isOperator e || E.isPreFunc e || E.isPostFunc e) token.entity st
    cases hr : reduceTop E (fun e => E.isOperator e || E.isPreFunc e || E.isPostFunc e)
        token.entity st with
    | error e =>
      refine ⟨?_, by intro st1 b h; cases h⟩
      intro h
      simp at h
      exact i1 (by rw [hr, h])
    | ok st2 =>
      obtain ⟨j1, j2⟩ := i2 st2 hr
      simp only []
      have := dispatchFrame_bind token st2 _ (performOperation_spec E token.entity st2).1
        (fun st1 h => ((performOperation_spec E token.entity st2).2 st1 h).1)
      refine ⟨this.1, ?_⟩
      intro st1 b h
      obtain ⟨k1, k2⟩ := this.2 st1 b h
      exact ⟨fun hb => (k1 hb).trans j1, fun hb => by rw [← j1]; exact k2 hb⟩
  · obtain ⟨i1, i2⟩ := performStackOperations_spec E false false st
    cases hr : performStackOperations E false false st with
    | error e =>
      refine ⟨?_, by intro st1 b h; cases h⟩
      intro h
      simp at h
      exact i1 (by rw [hr, h])
    | ok st2 =>
      obtain ⟨j1, j2⟩ := i2 st2 hr
      simp only []
      cases hcs : st2.commandStack with
      | nil => exact ⟨by simp, by intro st1 b h; cases h⟩
      | cons top rest =>
        simp only []
        split_ifs
        · refine ⟨by simp, ?_⟩
          intro st1 b h
          simp at h
          obtain ⟨h6, h7⟩ := h
          subst h6 h7
          exact ⟨fun _ => j1, fun h => by cases h⟩
        · exact ⟨by simp, by intro st1 b h; cases h⟩
  · obtain ⟨i1, i2⟩ := performStackOperations_spec E true false st
    cases hr : performStackOperations E true false st with
    | error e =>
      refine ⟨?_, by intro st1 b h; cases h⟩
      intro h
      simp at h
      exact i1 (by rw [hr, h])
    | ok st2 =>
      obtain ⟨j1, j2⟩ := i2 st2 hr
      simp only []
      cases hcs : st2.commandStack with
      | nil =>
        refine ⟨by simp, ?_⟩
        intro st1 b h
        simp at h
        obtain ⟨h6, h7⟩ := h
        subst h6 h7
        exact ⟨fun h => absurd h (by decide), fun _ => ⟨by simp [j1], h5⟩⟩
      | cons top rest =>
        simp only []
        split_ifs
        · have := dispatchFrame_bind token { st2 with commandStack := rest } _
            (resolveArrayVar_spec E top.entity token.offset { st2 with commandStack := rest }).1
            (fun st1 h => ((resolveArrayVar_spec E top.entity token.offset
              { st2 with commandStack := rest }).2 st1 h).1)
          refine ⟨this.1, ?_⟩
          intro st1 b h
          obtain ⟨k1, k2⟩ := this.2 st1 b h
          exact ⟨fun hb => (k1 hb).trans j1, fun hb => ⟨by rw [(k2 hb).1]; simp [j1], h5⟩⟩
        · refine ⟨by simp, ?_⟩
          intro st1 b h
          simp at h
          obtain ⟨h6, h7⟩ := h
          subst h6 h7
          exact ⟨fun h => absurd h (by decide), fun _ => ⟨by simp [j1], h5⟩⟩
  · refine ⟨by simp, ?_⟩
    intro st1 b h
    simp at h
    obtain ⟨h6, h7⟩ := h
    subst h6 h7
    exact ⟨fun _ => rfl, fun h => by cases h⟩

/-! ### Termination and the reported cursor -/

/-- With one unit of fuel per remaining symbol and one more, the scanning loop does not run
out of fuel; when it stops, the cursor has not moved back, has not passed the end of the line,
and stands where scanning can stop. -/
theorem solveLoop_spec (E : Env α) (expression : TextLine) :
    ∀ (fuel : Nat) (st : State α) (prev : Token α),
      expression.length - st.currentOffset < fuel →
      solveLoop E expression fuel st prev ≠ .error outOfFuel ∧
        ∀ st1 token prev1, solveLoop E expression fuel st prev = .ok (st1, token, prev1) →
          st.currentOffset ≤ st1.currentOffset ∧
          st1.currentOffset ≤ max st.currentOffset expression.length ∧
          StopsAt E expression st1.currentOffset := by
  intro fuel
  induction fuel with
  | zero => intro st prev h; omega
  | succ fuel ih =>
    intro st prev hfuel
    rw [solveLoop_succ]
    obtain ⟨r1, r2⟩ := readToken_spec E expression st
    cases hread : readToken E expression st with
    | error e =>
      refine ⟨?_, by intro st1 token prev1 h; cases h⟩
      intro h
      simp at h
      exact r1 (by rw [hread, h])
    | ok r =>
      obtain ⟨token, st1⟩ := r
      obtain ⟨-, -, -, q1, q2, q3, q4⟩ := r2 token st1 hread
      simp only []
      by_cases hty : token.tokenType = Type_EOF
      · simp only [hty, beq_self_eq_true, if_true]
        refine ⟨by simp, ?_⟩
        intro st2 token2 prev2 h
        simp at h
        obtain ⟨h1, -, -⟩ := h
        subst h1
        obtain ⟨q5, q6⟩ := q3 hty
        refine ⟨q1, by omega, ?_⟩
        rw [q5]
        rcases q6 with q6 | q6
        · exact Or.inl q6
        · exact Or.inr (Or.inr q6)
      · have hty' : (token.tokenType == Type_EOF) = false := by simpa using hty
        simp only [hty', Bool.false_eq_true, if_false]
        obtain ⟨q5, q6⟩ := q2 hty
        rcases analyze_ok_or_syntax E token prev with han | han
        · simp only [han]
          obtain ⟨d1, d2⟩ := dispatchToken_spec E token st1
          cases hd : dispatchToken E token st1 with
          | error e =>
            refine ⟨?_, by intro st2 token2 prev2 h; cases h⟩
            intro h
            simp at h
            exact d1 (by rw [hd, h])
          | ok r =>
            obtain ⟨st2, b⟩ := r
            obtain ⟨d3, d4⟩ := d2 st2 b hd
            cases b with
            | true =>
              simp only []
              obtain ⟨d5, d6⟩ := d4 rfl
              obtain ⟨q7, q8⟩ := q4 d6
              refine ⟨by simp, ?_⟩
              intro st3 token3 prev3 h
              simp at h
              obtain ⟨h1, -, -⟩ := h
              subst h1
              have hco : st2.currentOffset = st.currentOffset := by omega
              refine ⟨by omega, by omega, ?_⟩
              rw [hco]
              exact Or.inr (Or.inl q8)
            | false =>
              simp only []
              have hco := d3 rfl
              obtain ⟨i1, i2⟩ := ih st2 token (by omega)
              refine ⟨i1, ?_⟩
              intro st3 token3 prev3 h
              obtain ⟨i3, i4, i5⟩ := i2 st3 token3 prev3 h
              refine ⟨by omega, ?_, i5⟩
              have : max st2.currentOffset expression.length = expression.length := by
                omega
              rw [this] at i4
              omega
        · simp only [han]
          exact ⟨by simp, by intro st2 token2 prev2 h; cases h⟩

/-- One more unit of fuel does not change an outcome that was reached within the fuel. -/
theorem solveLoop_fuel_succ (E : Env α) (expression : TextLine) :
    ∀ (fuel : Nat) (st : State α) (prev : Token α),
      solveLoop E expression fuel st prev ≠ .error outOfFuel →
      solveLoop E expression (fuel + 1) st prev = solveLoop E expression fuel st prev := by
  intro fuel
  induction fuel with
  | zero =>
    intro st prev h
    exact absurd rfl h
  | succ fuel ih =>
    intro st prev h
    rw [solveLoop_succ E expression (fuel + 1), solveLoop_succ E expression fuel]
    rw [solveLoop_succ] at h
    cases hread : readToken E expression st with
    | error e => rfl
    | ok r =>
      obtain ⟨token, st1⟩ := r
      rw [hread] at h
      simp only [] at h ⊢
      split_ifs with hty
      · rfl
      · rw [if_neg hty] at h
        cases han : analyzeForSyntaxError E token prev with
        | error e => rfl
        | ok u =>
          rw [han] at h
          simp only [] at h ⊢
          cases hd : dispatchToken E token st1 with
          | error e => rfl
          | ok r =>
            obtain ⟨st2, b⟩ := r
            rw [hd] at h
            cases b with
            | true => rfl
            | false =>
              simp only [] at h ⊢
              exact ih st2 token h

/-- More fuel does not change an outcome that was reached within the fuel. -/
theorem solveLoop_fuel_add (E : Env α) (expression : TextLine) (fuel : Nat) (st : State α)
    (prev : Token α) (h : solveLoop E expression fuel st prev ≠ .error outOfFuel) :
    ∀ extra : Nat,
      solveLoop E expression (fuel + extra) st prev = solveLoop E expression fuel st prev := by
  intro extra
  induction extra with
  | zero => rfl
  | succ extra ih =>
    rw [← Nat.add_assoc, solveLoop_fuel_succ E expression (fuel + extra) st prev (by rw [ih]; exact h),
      ih]

theorem solveWithFuel_ne_outOfFuel (E : Env α) (fuel : Nat) (expression : TextLine)
    (offset : Nat) (hfuel : expression.length - offset < fuel) :
    solveWithFuel E fuel expression offset ≠ .error outOfFuel := by
  obtain ⟨l1, -⟩ := solveLoop_spec E expression fuel (initialState E offset) (Token.default E)
    hfuel
  rw [solveWithFuel]
  cases hloop : solveLoop E expression fuel (initialState E offset) (Token.default E) with
  | error e =>
    intro h
    simp at h
    exact l1 (by rw [hloop, h])
  | ok r =>
    obtain ⟨st, token, prev⟩ := r
    simp only []
    rcases analyze_ok_or_syntax E token prev with han | han
    · simp only [han]
      obtain ⟨p1, -⟩ := performStackOperations_spec E true true st
      cases hp : performStackOperations E true true st with
      | error e =>
        intro h
        simp at h
        exact p1 (by rw [hp, h])
      | ok st1 =>
        simp only []
        cases st1.numberStack <;> simp
    · simp only [han]
      simp

/-- C8 (termination).  On every line and from every start offset, with any classifier and any
memory, `solve` comes to an end: it never runs out of the fuel it is given (one turn of the
scanning loop per remaining symbol, and one more for the end-of-input token), and more fuel
changes nothing in its outcome.  The same holds of the scanning loop from any state, of
`readToken` (whose number loop stops at the end of the line at the latest) and of the reduction
loop `performStackOperations` (which pops one command-stack entry per turn). -/
theorem solve_terminates (E : Env α) (expression : TextLine) (offset : Nat) :
    solve E expression offset ≠ .error outOfFuel ∧
    (∀ extra : Nat,
      solveWithFuel E (expression.length - offset + 1 + extra) expression offset =
        solve E expression offset) ∧
    (∀ (st : State α) (prev : Token α) (extra : Nat),
      solveLoop E expression (expression.length - st.currentOffset + 1 + extra) st prev ≠
        .error outOfFuel) ∧
    (∀ st : State α, readToken E expression st ≠ .error outOfFuel) ∧
    (∀ (treatOpenParens treatOpenBracket : Bool) (st : State α),
      performStackOperations E treatOpenParens treatOpenBracket st ≠ .error outOfFuel) := by
  refine ⟨solveWithFuel_ne_outOfFuel E _ expression offset (by omega), ?_, ?_,
    fun st => (readToken_spec E expression st).1,
    fun tp tb st => (performStackOperations_spec E tp tb st).1⟩
  · intro extra
    have h := (solveLoop_spec E expression (expression.length - offset + 1)
      (initialState E offset) (Token.default E) (by simp [initialState])).1
    rw [solve, solveWithFuel, solveWithFuel, solveLoop_fuel_add E expression _ _ _ h extra]
  · intro st prev extra
    exact (solveLoop_spec E expression _ st prev (by omega)).1

/-- From an offset at or past the end of the line nothing is pushed, and `solve` reads the top
of an empty number stack. -/
theorem solve_past_end (E : Env α) (expression : TextLine) (offset : Nat)
    (h : expression.length ≤ offset) :
    solve E expression offset = .error undefinedBehaviour := by
  rw [solve, solveWithFuel, initialState, solveLoop_eof E expression _ offset [] [] _ _ h]
  simp only [analyze_after_default, performStackOperations_nil]

/-- C9 (reported cursor).  Whenever `solve` returns a value, the offset it writes back is at
least the start offset and at most the length of the line, and it is where scanning stopped:
the length of the line (all of the remaining input was consumed), or the index of a stray
close-bracket, or the index of a symbol no token is made of. -/
theorem solve_reported_cursor (E : Env α) (expression : TextLine) (offset : Nat) (v : α)
    (offset1 : Nat) (h : solve E expression offset = .ok (v, offset1)) :
    offset ≤ offset1 ∧ offset1 ≤ expression.length ∧
      (offset1 = expression.length ∨ expression[offset1]? = some LCDChar_CloseBracket ∨
        ∃ c, expression[offset1]? = some c ∧ E.isUsable c = false) := by
  have hlt : offset < expression.length := by
    by_contra hge
    rw [solve_past_end E expression offset (by omega)] at h
    cases h
  obtain ⟨-, l2⟩ := solveLoop_spec E expression (expression.length - offset + 1)
    (initialState E offset) (Token.default E) (by simp [initialState])
  rw [solve, solveWithFuel] at h
  cases hloop : solveLoop E expression (expression.length - offset + 1) (initialState E offset)
      (Token.default E) with
  | error e =>
    rw [hloop] at h
    cases h
  | ok r =>
    obtain ⟨st, token, prev⟩ := r
    obtain ⟨m1, m2, m3⟩ := l2 st token prev hloop
    rw [hloop] at h
    simp only [] at h
    cases han : analyzeForSyntaxError E token prev with
    | error e =>
      rw [han] at h
      cases h
    | ok u =>
      rw [han] at h
      simp only [] at h
      obtain ⟨-, p2⟩ := performStackOperations_spec E true true st
      cases hp : performStackOperations E true true st with
      | error e =>
        rw [hp] at h
        cases h
      | ok st1 =>
        obtain ⟨p3, -⟩ := p2 st1 hp
        rw [hp] at h
        simp only [] at h
        cases hns : st1.numberStack with
        | nil =>
          rw [hns] at h
          cases h
        | cons top rest =>
          rw [hns] at h
          simp at h
          obtain ⟨-, h2⟩ := h
          have hco : offset1 = st.currentOffset := by omega
          have hinit : (initialState E offset).currentOffset = offset := rfl
          rw [hinit] at m1 m2
          rw [hco]
          refine ⟨m1, by omega, ?_⟩
          rcases m3 with m3 | m3 | m3
          · exact Or.inl (by omega)
          · exact Or.inr (Or.inl m3)
          · exact Or.inr (Or.inr m3)

/-- The run of `solve` on a single literal. -/
theorem solve_literal_run (E : Env α) (hE : E.Coherent) (a : TextLine) (ha : IsLiteral E a) :
    solve E a 0 = .ok (literalValue E a, a.length) := by
  have hapos : 0 < a.length := List.length_pos.mpr ha.1
  obtain ⟨k, hk⟩ : ∃ k, a.length - 0 + 1 = k + 2 := ⟨a.length - 1, by omega⟩
  have e1 := solveLoop_literal E hE a [] a [] (k + 1) 0 [] [] (Token.default E)
    (Token.default E) ha (endsNumber_nil E) (by simp) rfl (by simp [numberStackLimit])
    (analyze_after_default E _)
  have e2 := solveLoop_eof E a k (0 + a.length) [literalValue E a] []
    (numberToken E 0 (literalValue E a)) (numberToken E 0 (literalValue E a)) (by omega)
  rw [solve, solveWithFuel, hk, initialState, e1, e2]
  simp only [analyze_after_number, performStackOperations_nil]
  simp

/-- C9, on the sample environment: `solve` on the line `7` from offset 0 returns 7 and writes
back 1, the length of the line. -/
theorem solve_reported_cursor_witness :
    solve sampleEnv [digit 7] 0 = .ok (7, 1) ∧
      (0 ≤ 1 ∧ 1 ≤ [digit 7].length ∧
        (1 = [digit 7].length ∨ [digit 7][1]? = some LCDChar_CloseBracket ∨
          ∃ c, [digit 7][1]? = some c ∧ sampleEnv.isUsable c = false)) := by
  have h : solve sampleEnv [digit 7] 0 = .ok (7, 1) := by
    have h1 := solve_literal_run sampleEnv sampleEnv_coherent [digit 7]
      (sample_isLiteral_digit 7 (by decide))
    rw [sample_literalValue_digit 7 (by decide)] at h1
    rw [h1]
    simp
  exact ⟨h, solve_reported_cursor sampleEnv [digit 7] 0 7 1 h⟩

/-! ### The number-literal parser -/

theorem isNumeric_cases (E : Env α) (hE : E.Coherent) (c : LCDChar)
    (hc : E.isNumeric c = true) :
    (E.isCipher c = true ∧ c ≠ LCDChar_Dot) ∨ (E.isCipher c = false ∧ c = LCDChar_Dot) := by
  by_cases hcip : E.isCipher c = true
  · exact Or.inl ⟨hcip, (hE.cipher hcip).2.2.2.2.1⟩
  · right
    have h1 : E.isCipher c = false := by simpa using hcip
    refine ⟨h1, ?_⟩
    simpa [Env.isNumeric, h1] using hc

/-- The loop of `parseNumber` over the rest of a run, once the string holds a point: it fails
at the first decimal point of the rest, and gets through when there is none. -/
theorem parseNumberLoop_dotted (E : Env α) (hE : E.Coherent) (rest : TextLine)
    (hrest : EndsNumber E rest) :
    ∀ (a pre : TextLine) (s : List Char) (fuel : Nat),
      (∀ c ∈ a, E.isNumeric c = true) → '.' ∈ s → a.length < fuel →
      parseNumberLoop E (pre ++ a ++ rest) fuel pre.length s =
        if LCDChar_Dot ∈ a then
          .error (InterpreterException Error_Syntax ((pre.length + a.indexOf LCDChar_Dot : Nat) : Int))
        else .ok (s ++ a.map (numberChar E), pre.length + a.length) := by
  intro a
  induction a with
  | nil =>
    intro pre s fuel _ _ hfuel
    obtain ⟨f, rfl⟩ : ∃ f, fuel = f + 1 := ⟨fuel - 1, by simp at hfuel; omega⟩
    cases rest with
    | nil => simp [parseNumberLoop]
    | cons c rest =>
      have hc : E.isNumeric c = false := hrest c rfl
      simp only [Env.isNumeric] at hc
      rw [parseNumberLoop, List.append_nil, getElem?_mid]
      simp [hc]
  | cons c a ih =>
    intro pre s fuel hnum hs hfuel
    obtain ⟨f, rfl⟩ : ∃ f, fuel = f + 1 := ⟨fuel - 1, by simp at hfuel; omega⟩
    have hc : E.isNumeric c = true := hnum c (by simp)
    have hnum1 : ∀ x ∈ a, E.isNumeric x = true := fun x hx => hnum x (by simp [hx])
    have hf : a.length < f := by simp at hfuel; omega
    have hexpr : pre ++ c :: a ++ rest = (pre ++ [c]) ++ a ++ rest := by simp
    have hget : (pre ++ c :: a ++ rest)[pre.length]? = some c := by
      rw [List.append_assoc, List.cons_append, getElem?_mid]
    have hlen : pre.length + 1 = (pre ++ [c]).length := by simp
    have hc' := hc
    simp only [Env.isNumeric] at hc'
    rw [parseNumberLoop, hget]
    simp only [hc', if_true]
    rcases isNumeric_cases E hE c hc with ⟨hcip, hne⟩ | ⟨hcip, hcd⟩
    · simp only [hcip, if_true]
      rw [hexpr, hlen, ih (pre ++ [c]) (s ++ [E.toNumChar c]) f hnum1 (by simp [hs]) hf]
      have hidx : List.indexOf LCDChar_Dot (c :: a) = List.indexOf LCDChar_Dot a + 1 :=
        List.indexOf_cons_ne _ hne
      simp only [List.mem_cons, hne.symm, false_or, hidx, List.length_append,
        List.length_singleton, List.map_cons, numberChar, hcip, if_true]
      split_ifs
      · congr 3
        omega
      · simp
        omega
    · subst hcd
      have hs1 : s.contains '.' = true := by simpa using hs
      simp only [hcip, hs1, Bool.false_eq_true, if_false, Bool.not_true]
      simp

/-- The loop of `parseNumber` over the rest of a run, while the string holds no point: it gets
through when the rest has at most one decimal point, and fails at the second one otherwise. -/
theorem parseNumberLoop_undotted (E : Env α) (hE : E.Coherent) (rest : TextLine)
    (hrest : EndsNumber E rest) :
    ∀ (a pre : TextLine) (s : List Char) (fuel : Nat),
      (∀ c ∈ a, E.isNumeric c = true) → '.' ∉ s → a.length < fuel →
      parseNumberLoop E (pre ++ a ++ rest) fuel pre.length s =
        if a.count LCDChar_Dot ≤ 1 then .ok (s ++ a.map (numberChar E), pre.length + a.length)
        else .error (InterpreterException Error_Syntax ((pre.length + secondDotIndex a : Nat) : Int))
    := by
  intro a
  induction a with
  | nil =>
    intro pre s fuel _ _ hfuel
    obtain ⟨f, rfl⟩ : ∃ f, fuel = f + 1 := ⟨fuel - 1, by simp at hfuel; omega⟩
    cases rest with
    | nil => simp [parseNumberLoop]
    | cons c rest =>
      have hc : E.isNumeric c = false := hrest c rfl
      simp only [Env.isNumeric] at hc
      rw [parseNumberLoop, List.append_nil, getElem?_mid]
      simp [hc]
  | cons c a ih =>
    intro pre s fuel hnum hs hfuel
    obtain ⟨f, rfl⟩ : ∃ f, fuel = f + 1 := ⟨fuel - 1, by simp at hfuel; omega⟩
    have hc : E.isNumeric c = true := hnum c (by simp)
    have hnum1 : ∀ x ∈ a, E.isNumeric x = true := fun x hx => hnum x (by simp [hx])
    have hf : a.length < f := by simp at hfuel; omega
    have hexpr : pre ++ c :: a ++ rest = (pre ++ [c]) ++ a ++ rest := by simp
    have hget : (pre ++ c :: a ++ rest)[pre.length]? = some c := by
      rw [List.append_assoc, List.cons_append, getElem?_mid]
    have hlen : pre.length + 1 = (pre ++ [c]).length := by simp
    have hc' := hc
    simp only [Env.isNumeric] at hc'
    rw [parseNumberLoop, hget]
    simp only [hc', if_true]
    rcases isNumeric_cases E hE c hc with ⟨hcip, hne⟩ | ⟨hcip, hcd⟩
    · have hch := hE.cipher_char c hcip
      simp only [hcip, if_true]
      rw [hexpr, hlen, ih (pre ++ [c]) (s ++ [E.toNumChar c]) f hnum1
        (by simp [hs]; exact fun h => hch h.symm) hf]
      have hidx : List.indexOf LCDChar_Dot (c :: a) = List.indexOf LCDChar_Dot a + 1 :=
        List.indexOf_cons_ne _ hne
      have hsec : secondDotIndex (c :: a) = secondDotIndex a + 1 := by
        simp only [secondDotIndex, hidx, List.drop_succ_cons]
        omega
      have hcount : List.count LCDChar_Dot (c :: a) = List.count LCDChar_Dot a :=
        List.count_cons_of_ne hne.symm a
      simp only [hsec, hcount, List.length_append, List.length_singleton, List.map_cons,
        numberChar, hcip, if_true]
      split_ifs
      · simp
        omega
      · congr 3
        omega
    · subst hcd
      have hs1 : s.contains '.' = false := by simpa using hs
      simp only [hcip, hs1, Bool.false_eq_true, if_false, Bool.not_false, if_true]
      rw [hexpr, hlen, parseNumberLoop_dotted E hE rest hrest a (pre ++ [LCDChar_Dot])
        (s ++ ['.']) f hnum1 (by simp) hf]
      have hsec : secondDotIndex (LCDChar_Dot :: a) = 1 + List.indexOf LCDChar_Dot a := by
        simp [secondDotIndex]
      have hcount : List.count LCDChar_Dot (LCDChar_Dot :: a) = List.count LCDChar_Dot a + 1 :=
        List.count_cons_self _ _
      have hmem : LCDChar_Dot ∈ a ↔ ¬ (List.count LCDChar_Dot a + 1 ≤ 1) := by
        rw [← List.count_pos_iff]
        omega
      simp only [hsec, hcount, List.length_append, List.length_singleton, List.map_cons,
        numberChar, hcip]
      by_cases hm : LCDChar_Dot ∈ a
      · rw [if_pos hm, if_neg (hmem.mp hm)]
        congr 3
        omega
      · have : List.count LCDChar_Dot a + 1 ≤ 1 := by
          by_contra h
          exact hm (hmem.mpr h)
        rw [if_neg hm, if_pos this]
        simp
        omega

/-- `parseNumber` at the start of a run of ciphers and points that the line does not continue,
when the character of the decimal point is the point. -/
theorem parseNumber_run (E : Env α) (hE : E.Coherent)
    (hdot : E.toNumChar LCDChar_Dot = '.') (pre run rest : TextLine)
    (hne : run ≠ []) (hnum : ∀ c ∈ run, E.isNumeric c = true) (hrest : EndsNumber E rest) :
    parseNumber E (pre ++ run ++ rest) pre.length =
      if run.count LCDChar_Dot ≤ 1 then .ok (literalValue E run, pre.length + run.length)
      else .error (InterpreterException Error_Syntax
        ((pre.length + secondDotIndex run : Nat) : Int)) := by
  cases run with
  | nil => exact absurd rfl hne
  | cons c a =>
    have hc : E.isNumeric c = true := hnum c (by simp)
    have hnum1 : ∀ x ∈ a, E.isNumeric x = true := fun x hx => hnum x (by simp [hx])
    have hexpr : pre ++ c :: a ++ rest = (pre ++ [c]) ++ a ++ rest := by simp
    have hget : (pre ++ c :: a ++ rest)[pre.length]? = some c := by
      rw [List.append_assoc, List.cons_append, getElem?_mid]
    have hlen : pre.length + 1 = (pre ++ [c]).length := by simp
    have hfuel : a.length < (pre ++ c :: a ++ rest).length - pre.length := by
      simp; omega
    have hguard : (c != LCDChar_Dot && !E.isCipher c) = false := by
      simp only [Env.isNumeric] at hc
      cases h1 : E.isCipher c <;> simp_all
    rw [parseNumber, hget]
    simp only [hguard, Bool.false_eq_true, if_false]
    rcases isNumeric_cases E hE c hc with ⟨hcip, hcne⟩ | ⟨hcip, hcd⟩
    · have hch := hE.cipher_char c hcip
      have hrun := parseNumberLoop_undotted E hE rest hrest a (pre ++ [c]) [E.toNumChar c]
        ((pre ++ c :: a ++ rest).length - pre.length) hnum1
        (by simp; exact fun h => hch h.symm) hfuel
      rw [← hexpr, ← hlen] at hrun
      have hidx : List.indexOf LCDChar_Dot (c :: a) = List.indexOf LCDChar_Dot a + 1 :=
        List.indexOf_cons_ne _ hcne
      have hsec : secondDotIndex (c :: a) = secondDotIndex a + 1 := by
        simp only [secondDotIndex, hidx, List.drop_succ_cons]
        omega
      have hcount : List.count LCDChar_Dot (c :: a) = List.count LCDChar_Dot a :=
        List.count_cons_of_ne hcne.symm a
      rw [hrun, hsec, hcount]
      split_ifs
      · simp [literalValue, numberString]
        omega
      · simp
        omega
    · subst hcd
      have hrun := parseNumberLoop_dotted E hE rest hrest a (pre ++ [LCDChar_Dot])
        [E.toNumChar LCDChar_Dot]
        ((pre ++ LCDChar_Dot :: a ++ rest).length - pre.length) hnum1
        (by simp [hdot]) hfuel
      rw [← hexpr, ← hlen] at hrun
      have hsec : secondDotIndex (LCDChar_Dot :: a) = 1 + List.indexOf LCDChar_Dot a := by
        simp [secondDotIndex]
      have hcount : List.count LCDChar_Dot (LCDChar_Dot :: a) = List.count LCDChar_Dot a + 1 :=
        List.count_cons_self _ _
      have hmem : LCDChar_Dot ∈ a ↔ ¬ (List.count LCDChar_Dot a + 1 ≤ 1) := by
        rw [← List.count_pos_iff]
        omega
      rw [hrun, hsec, hcount]
      by_cases hm : LCDChar_Dot ∈ a
      · rw [if_pos hm, if_neg (hmem.mp hm)]
        simp
        omega
      · have : List.count LCDChar_Dot a + 1 ≤ 1 := by
          by_contra h
          exact hm (hmem.mpr h)
        rw [if_neg hm, if_pos this]
        simp [literalValue, numberString]
        omega

/-- A line splits around the maximal run of ciphers and points that starts at an offset. -/
theorem split_at_run (E : Env α) (expression : TextLine) (offset : Nat) (c : LCDChar)
    (hget : expression[offset]? = some c) (hc : E.isNumeric c = true) :
    expression = expression.take offset ++ (expression.drop offset).takeWhile E.isNumeric ++
        (expression.drop offset).dropWhile E.isNumeric ∧
      (expression.take offset).length = offset ∧
      (expression.drop offset).takeWhile E.isNumeric ≠ [] ∧
      (∀ x ∈ (expression.drop offset).takeWhile E.isNumeric, E.isNumeric x = true) ∧
      EndsNumber E ((expression.drop offset).dropWhile E.isNumeric) := by
  have hlt : offset < expression.length := by
    by_contra hge
    rw [List.getElem?_eq_none (by omega)] at hget
    cases hget
  refine ⟨?_, ?_, ?_, ?_, ?_⟩
  · rw [List.append_assoc, List.takeWhile_append_dropWhile, List.take_append_drop]
  · simp
    omega
  · have hd : expression.drop offset = c :: expression.drop (offset + 1) := by
      rw [List.drop_eq_getElem_cons hlt]
      congr 1
      rw [List.getElem?_eq_getElem hlt] at hget
      exact Option.some.inj hget
    rw [hd, List.takeWhile_cons_of_pos hc]
    simp
  · intro x hx
    exact List.mem_takeWhile_imp hx
  · intro x hx
    cases hdw : (expression.drop offset).dropWhile E.isNumeric with
    | nil => rw [hdw] at hx; cases hx
    | cons y ys =>
      rw [hdw] at hx
      simp at hx
      subst hx
      have := List.head_dropWhile_not E.isNumeric (expression.drop offset)
        (by rw [hdw]; simp)
      simpa [hdw] using this

/-- C11 (number-literal parser, second decimal point).  Take a classifier in which a symbol
has one class and for which the character of the decimal point is `.`, a line and an offset at
which a cipher or a decimal point stands, and the maximal run of ciphers and decimal points
that starts there.  Then `parseNumber` fails if and only if the run holds at least two decimal
points, and the failure is a Syntax error at the index of the second one; otherwise it returns
the value of the run and leaves the offset just past the run. -/
theorem parseNumber_second_point (E : Env α) (hE : E.Coherent)
    (hdot : E.toNumChar LCDChar_Dot = '.') (expression : TextLine) (offset : Nat)
    (c : LCDChar) (hget : expression[offset]? = some c) (hc : E.isNumeric c = true) :
    ((∃ e, parseNumber E expression offset = .error e) ↔
        2 ≤ ((expression.drop offset).takeWhile E.isNumeric).count LCDChar_Dot) ∧
      (2 ≤ ((expression.drop offset).takeWhile E.isNumeric).count LCDChar_Dot →
        parseNumber E expression offset =
          .error (InterpreterException Error_Syntax
            ((offset + secondDotIndex ((expression.drop offset).takeWhile E.isNumeric) : Nat)
              : Int))) ∧
      (((expression.drop offset).takeWhile E.isNumeric).count LCDChar_Dot < 2 →
        parseNumber E expression offset =
          .ok (literalValue E ((expression.drop offset).takeWhile E.isNumeric),
            offset + ((expression.drop offset).takeWhile E.isNumeric).length)) := by
  obtain ⟨h1, h2, h3, h4, h5⟩ := split_at_run E expression offset c hget hc
  have hrun := parseNumber_run E hE hdot (expression.take offset)
    ((expression.drop offset).takeWhile E.isNumeric)
    ((expression.drop offset).dropWhile E.isNumeric) h3 h4 h5
  rw [← h1, h2] at hrun
  refine ⟨?_, ?_, ?_⟩
  · rw [hrun]
    constructor
    · rintro ⟨e, he⟩
      by_contra hlt
      rw [if_pos (by omega)] at he
      cases he
    · intro h
      rw [if_neg (by omega)]
      exact ⟨_, rfl⟩
  · intro h
    rw [hrun, if_neg (by omega)]
  · intro h
    rw [hrun, if_pos (by omega)]

/-- C11, on the sample environment: `parseNumber` on `1.2.3` from offset 0 fails with a Syntax
error at offset 3, the index of the second decimal point. -/
theorem parseNumber_second_point_witness :
    parseNumber sampleEnv [digit 1, LCDChar_Dot, digit 2, LCDChar_Dot, digit 3] 0 =
      .error (InterpreterException Error_Syntax 3) := by
  have h := (parseNumber_second_point sampleEnv sampleEnv_coherent rfl
    [digit 1, LCDChar_Dot, digit 2, LCDChar_Dot, digit 3] 0 (digit 1) rfl rfl).2.1
  have hrun : (List.drop 0 [digit 1, LCDChar_Dot, digit 2, LCDChar_Dot, digit 3]).takeWhile
      sampleEnv.isNumeric = [digit 1, LCDChar_Dot, digit 2, LCDChar_Dot, digit 3] := by
    decide
  rw [hrun] at h
  exact h (by decide)

/-! ### The tokenizer on letters -/

/-- `readToken` on a letter that no open-bracket follows builds the Variable token and moves
one symbol on. -/
theorem readToken_variable (E : Env α) (hE : E.Coherent) (expression : TextLine) (A : LCDChar)
    (offset : Nat) (ns : List α) (cs : List (Token α)) (cur : Token α)
    (hA : E.isAlpha A = true) (hget : expression[offset]? = some A)
    (hnext : expression[offset + 1]? ≠ some LCDChar_OpenBracket) :
    readToken E expression ⟨offset, ns, cs, cur⟩ =
      .ok (Token.ofEntity E A offset, ⟨offset + 1, ns, cs, Token.ofEntity E A offset⟩) := by
  obtain ⟨h1, h2, h3, h4, h5, h6, h7, h8⟩ := hE.alpha hA
  rw [readToken_eq E expression _ A hget]
  simp [h1, h2, h3, h6, h7, h8, hA, hnext]

/-- C12 (tokenizer, indexed-variable opener), as the code has it.  When the symbol at the
cursor is a letter and the next symbol is an open-bracket, `readToken` returns an
IndexedVariableOpener token that carries the letter as its entity and the letter's offset, and
it consumes the bracket as well: the cursor advances by exactly two symbols.  When the next
symbol is not an open-bracket, or there is none, it returns a plain Variable token with that
entity and offset, and the cursor advances by one. -/
theorem readToken_letter (E : Env α) (hE : E.Coherent) (expression : TextLine) (A : LCDChar)
    (offset : Nat) (ns : List α) (cs : List (Token α)) (cur : Token α)
    (hA : E.isAlpha A = true) (hget : expression[offset]? = some A) :
    (expression[offset + 1]? = some LCDChar_OpenBracket →
      readToken E expression ⟨offset, ns, cs, cur⟩ =
        .ok (⟨Type_OpenArrayVar, A, E.noValue, offset⟩,
          ⟨offset + 2, ns, cs, ⟨Type_OpenArrayVar, A, E.noValue, offset⟩⟩)) ∧
    (expression[offset + 1]? ≠ some LCDChar_OpenBracket →
      readToken E expression ⟨offset, ns, cs, cur⟩ =
        .ok (⟨Type_Entity, A, E.entityValue A, offset⟩,
          ⟨offset + 1, ns, cs, ⟨Type_Entity, A, E.entityValue A, offset⟩⟩) ∧
      Token.isVariable E ⟨Type_Entity, A, E.entityValue A, offset⟩ = true) := by
  constructor
  · intro hnext
    exact readToken_opener E hE expression A offset ns cs cur hA hget hnext
  · intro hnext
    exact ⟨readToken_variable E hE expression A offset ns cs cur hA hget hnext,
      by simp [Token.isVariable, hA]⟩

/-- C12, on the sample environment: on `A[2]` from offset 0 the opener is read and the cursor
is at 2; on `A+` the Variable is read and the cursor is at 1. -/
theorem readToken_letter_witness :
    readToken sampleEnv [letterA, LCDChar_OpenBracket, digit 2, LCDChar_CloseBracket]
        ⟨0, [], [], Token.default sampleEnv⟩ =
      .ok (⟨Type_OpenArrayVar, letterA, 0, 0⟩,
        ⟨2, [], [], ⟨Type_OpenArrayVar, letterA, 0, 0⟩⟩) ∧
    readToken sampleEnv [letterA, LCDChar_Add] ⟨0, [], [], Token.default sampleEnv⟩ =
      .ok (⟨Type_Entity, letterA, 0, 0⟩, ⟨1, [], [], ⟨Type_Entity, letterA, 0, 0⟩⟩) := by
  constructor
  · exact (readToken_letter sampleEnv sampleEnv_coherent
      [letterA, LCDChar_OpenBracket, digit 2, LCDChar_CloseBracket] letterA 0 [] []
      (Token.default sampleEnv) rfl rfl).1 rfl
  · exact ((readToken_letter sampleEnv sampleEnv_coherent [letterA, LCDChar_Add] letterA 0 [] []
      (Token.default sampleEnv) rfl rfl).2 (by decide)).1

/-- C12 as the spec states it fails on `A[2]`: after the opener is read from offset 0 the
cursor is not at 1 (the bracket left to be read) but at 2. -/
theorem readToken_opener_consumes_bracket :
    ¬ ∃ (token : Token ℚ) (st1 : State ℚ),
      readToken sampleEnv [letterA, LCDChar_OpenBracket, digit 2, LCDChar_CloseBracket]
          ⟨0, [], [], Token.default sampleEnv⟩ = .ok (token, st1) ∧
        st1.currentOffset = 0 + 1 := by
  rintro ⟨token, st1, h, hco⟩
  rw [readToken_opener sampleEnv sampleEnv_coherent
    [letterA, LCDChar_OpenBracket, digit 2, LCDChar_CloseBracket] letterA 0 [] []
    (Token.default sampleEnv) rfl rfl rfl] at h
  simp at h
  obtain ⟨-, h2⟩ := h
  rw [← h2] at hco
  simp at hco

/-! ### Binary operations -/

/-- C17 (binary operand order and frame).  On a number stack that holds `b` on top of `a` on
top of `rest`, `performOperation` of multiply, add and subtract leaves `a * b`, `a + b` and
`a - b` on top of `rest`, and so does divide with `a / b` when `b` is not zero: the value popped
second is the left operand, the value popped first the right one, one result takes the place of
the two operands, and the values below, the command stack, the cursor and the current token are
as before. -/
theorem performOperation_binary (E : Env α) (offset : Nat) (a b : α) (rest : List α)
    (cs : List (Token α)) (cur : Token α) :
    performOperation E LCDChar_Multiply ⟨offset, b :: a :: rest, cs, cur⟩ =
        .ok ⟨offset, E.mul a b :: rest, cs, cur⟩ ∧
      performOperation E LCDChar_Add ⟨offset, b :: a :: rest, cs, cur⟩ =
        .ok ⟨offset, E.add a b :: rest, cs, cur⟩ ∧
      performOperation E LCDChar_Substract ⟨offset, b :: a :: rest, cs, cur⟩ =
        .ok ⟨offset, E.sub a b :: rest, cs, cur⟩ ∧
      (E.isZero b = false →
        performOperation E LCDChar_Divide ⟨offset, b :: a :: rest, cs, cur⟩ =
          .ok ⟨offset, E.div a b :: rest, cs, cur⟩) := by
  refine ⟨rfl, rfl, rfl, ?_⟩
  intro hb
  rw [performOperation_div, hb]
  simp

/-- C17, on the sample environment: with 2 on top of 6 on top of 1, divide leaves 3 on top
of 1. -/
theorem performOperation_binary_witness :
    performOperation sampleEnv LCDChar_Divide
        ⟨0, [2, 6, 1], [], Token.default sampleEnv⟩ =
      .ok ⟨0, [3, 1], [], Token.default sampleEnv⟩ := by
  have h := (performOperation_binary sampleEnv 0 6 2 [1] [] (Token.default sampleEnv)).2.2.2
    (by simp [sampleEnv])
  rw [h]
  norm_num [sampleEnv]

/-! ### The empty result -/

/-- C15 (empty result), what the code does: on the empty line from offset 0, for every
environment, nothing is pushed, draining finds nothing to do, and `solve` reads the top of the
empty number stack.  That is undefined behaviour: no `InterpreterException` is raised. -/
theorem solve_empty_line (E : Env α) :
    solve E [] 0 = .error undefinedBehaviour ∧
      ∀ (error : Error) (offset : Int),
        solve E [] 0 ≠ .error (InterpreterException error offset) := by
  have h : solve E [] 0 = .error undefinedBehaviour := solve_past_end E [] 0 (by simp)
  refine ⟨h, ?_⟩
  intro error offset
  rw [h]
  simp

/-! ### One reduction per operator -/

/-- The run of `solve` on `a - b * c - d`: the second `-` applies the pending `*` and is pushed
on top of the first `-`, which is still pending; draining then subtracts from the right. -/
theorem solve_sub_mul_sub_run (E : Env α) (hE : E.Coherent)
    (hsub : E.isOperator LCDChar_Substract = true) (hmul : E.isOperator LCDChar_Multiply = true)
    (hprio1 : 0 < E.comparePriorities LCDChar_Multiply LCDChar_Substract)
    (hprio2 : E.comparePriorities LCDChar_Substract LCDChar_Multiply ≤ 0)
    (a b c d : TextLine) (ha : IsLiteral E a) (hb : IsLiteral E b) (hc : IsLiteral E c)
    (hd : IsLiteral E d) :
    solve E (a ++ LCDChar_Substract :: (b ++ LCDChar_Multiply :: (c ++ LCDChar_Substract :: d)))
        0 =
      .ok (E.sub (literalValue E a)
          (E.sub (E.mul (literalValue E b) (literalValue E c)) (literalValue E d)),
        (a ++ LCDChar_Substract :: (b ++ LCDChar_Multiply :: (c ++ LCDChar_Substract :: d))).length)
      ∧
    ∀ fuel : Nat,
      solveLoop E
          (a ++ LCDChar_Substract :: (b ++ LCDChar_Multiply :: (c ++ LCDChar_Substract :: d)))
          (fuel + 6) (initialState E 0) (Token.default E) =
        solveLoop E
          (a ++ LCDChar_Substract :: (b ++ LCDChar_Multiply :: (c ++ LCDChar_Substract :: d)))
          fuel
          ⟨a.length + 1 + b.length + 1 + c.length + 1,
            [E.mul (literalValue E b) (literalValue E c), literalValue E a],
            [Token.ofEntity E LCDChar_Substract
                ((a.length + 1 + b.length + 1 + c.length : Nat) : Int),
              Token.ofEntity E LCDChar_Substract ((a.length : Nat) : Int)],
            Token.ofEntity E LCDChar_Substract
              ((a.length + 1 + b.length + 1 + c.length : Nat) : Int)⟩
          (Token.ofEntity E LCDChar_Substract
            ((a.length + 1 + b.length + 1 + c.length : Nat) : Int)) := by
  obtain ⟨-, -, -, hs4, -⟩ := hE.operator hsub
  obtain ⟨-, -, -, hm4, -⟩ := hE.operator hmul
  generalize hx : a ++ LCDChar_Substract :: (b ++ LCDChar_Multiply ::
    (c ++ LCDChar_Substract :: d)) = expr
  have hlen : expr.length = 0 + a.length + 1 + b.length + 1 + c.length + 1 + d.length := by
    rw [← hx]; simp; omega
  have e1 : ∀ fuel, solveLoop E expr (fuel + 1) (initialState E 0) (Token.default E) = _ :=
    fun fuel => solveLoop_literal E hE expr [] a
      (LCDChar_Substract :: (b ++ LCDChar_Multiply :: (c ++ LCDChar_Substract :: d)))
      fuel 0 [] [] (Token.default E) (Token.default E) ha
      (endsNumber_cons E _ _ hs4 (by decide)) (by simp [hx]) rfl (by simp [numberStackLimit])
      (analyze_after_default E _)
  have e2 := fun fuel => solveLoop_operator E hE expr LCDChar_Substract fuel (0 + a.length)
    [literalValue E a] [literalValue E a] [] []
    (numberToken E 0 (literalValue E a)) (numberToken E 0 (literalValue E a))
    (getElem?_at a (b ++ LCDChar_Multiply :: (c ++ LCDChar_Substract :: d)) _ _ _ hx.symm
      (by simp))
    hsub (analyze_after_number E _ _ _) (reduceTop_nil _ _ _ _ _ _)
    (by simp [commandStackLimit])
  have e3 := fun fuel => solveLoop_literal E hE expr (a ++ [LCDChar_Substract]) b
    (LCDChar_Multiply :: (c ++ LCDChar_Substract :: d))
    fuel (0 + a.length + 1) [literalValue E a]
    [Token.ofEntity E LCDChar_Substract ((0 + a.length : Nat) : Int)]
    (Token.ofEntity E LCDChar_Substract ((0 + a.length : Nat) : Int))
    (Token.ofEntity E LCDChar_Substract ((0 + a.length : Nat) : Int)) hb
    (endsNumber_cons E _ _ hm4 (by decide)) (by simp [← hx]) (by simp)
    (by simp [numberStackLimit])
    (analyze_number_after_operator E _ _ _ _ hsub)
  have e4 := fun fuel => solveLoop_operator E hE expr LCDChar_Multiply fuel
    (0 + a.length + 1 + b.length)
    [literalValue E b, literalValue E a] [literalValue E b, literalValue E a]
    [Token.ofEntity E LCDChar_Substract ((0 + a.length : Nat) : Int)]
    [Token.ofEntity E LCDChar_Substract ((0 + a.length : Nat) : Int)]
    (numberToken E (0 + a.length + 1) (literalValue E b))
    (numberToken E (0 + a.length + 1) (literalValue E b))
    (getElem?_at (a ++ LCDChar_Substract :: b) (c ++ LCDChar_Substract :: d) _ _ _
      (by simp [← hx]) (by simp; omega))
    hmul (analyze_after_number E _ _ _)
    (reduceTop_keep _ _ _ _ _ _ _ _ (Or.inr hprio1))
    (by simp [commandStackLimit])
  have e5 := fun fuel => solveLoop_literal E hE expr
    (a ++ LCDChar_Substract :: b ++ [LCDChar_Multiply]) c (LCDChar_Substract :: d)
    fuel (0 + a.length + 1 + b.length + 1) [literalValue E b, literalValue E a]
    [Token.ofEntity E LCDChar_Multiply ((0 + a.length + 1 + b.length : Nat) : Int),
      Token.ofEntity E LCDChar_Substract ((0 + a.length : Nat) : Int)]
    (Token.ofEntity E LCDChar_Multiply ((0 + a.length + 1 + b.length : Nat) : Int))
    (Token.ofEntity E LCDChar_Multiply ((0 + a.length + 1 + b.length : Nat) : Int)) hc
    (endsNumber_cons E _ _ hs4 (by decide)) (by simp [← hx]) (by simp; omega)
    (by simp [numberStackLimit])
    (analyze_number_after_operator E _ _ _ _ hmul)
  have e6 := fun fuel => solveLoop_operator E hE expr LCDChar_Substract fuel
    (0 + a.length + 1 + b.length + 1 + c.length)
    [literalValue E c, literalValue E b, literalValue E a]
    [E.mul (literalValue E b) (literalValue E c), literalValue E a]
    [Token.ofEntity E LCDChar_Multiply ((0 + a.length + 1 + b.length : Nat) : Int),
      Token.ofEntity E LCDChar_Substract ((0 + a.length : Nat) : Int)]
    [Token.ofEntity E LCDChar_Substract ((0 + a.length : Nat) : Int)]
    (numberToken E (0 + a.length + 1 + b.length + 1) (literalValue E c))
    (numberToken E (0 + a.length + 1 + b.length + 1) (literalValue E c))
    (getElem?_at (a ++ LCDChar_Substract :: b ++ LCDChar_Multiply :: c) d _ _ _
      (by simp [← hx]) (by simp; omega))
    hsub (analyze_after_number E _ _ _)
    (by
      rw [reduceTop_apply _ _ _ _ _ _ _ _ (by simp [Token.ofEntity, hmul])
        (by simpa [Token.ofEntity] using hprio2)]
      simp only [Token.ofEntity, performOperation_mul])
    (by simp [commandStackLimit])
  have e7 := fun fuel => solveLoop_literal E hE expr
    (a ++ LCDChar_Substract :: b ++ LCDChar_Multiply :: c ++ [LCDChar_Substract]) d []
    fuel (0 + a.length + 1 + b.length + 1 + c.length + 1)
    [E.mul (literalValue E b) (literalValue E c), literalValue E a]
    [Token.ofEntity E LCDChar_Substract
        ((0 + a.length + 1 + b.length + 1 + c.length : Nat) : Int),
      Token.ofEntity E LCDChar_Substract ((0 + a.length : Nat) : Int)]
    (Token.ofEntity E LCDChar_Substract
      ((0 + a.length + 1 + b.length + 1 + c.length : Nat) : Int))
    (Token.ofEntity E LCDChar_Substract
      ((0 + a.length + 1 + b.length + 1 + c.length : Nat) : Int)) hd
    (endsNumber_nil E) (by simp [← hx]) (by simp; omega)
    (by simp [numberStackLimit])
    (analyze_number_after_operator E _ _ _ _ hsub)
  have e8 := fun fuel => solveLoop_eof E expr fuel
    (0 + a.length + 1 + b.length + 1 + c.length + 1 + d.length)
    [literalValue E d, E.mul (literalValue E b) (literalValue E c), literalValue E a]
    [Token.ofEntity E LCDChar_Substract
        ((0 + a.length + 1 + b.length + 1 + c.length : Nat) : Int),
      Token.ofEntity E LCDChar_Substract ((0 + a.length : Nat) : Int)]
    (numberToken E (0 + a.length + 1 + b.length + 1 + c.length + 1) (literalValue E d))
    (numberToken E (0 + a.length + 1 + b.length + 1 + c.length + 1) (literalValue E d))
    (by omega)
  constructor
  · have hapos : 0 < a.length := List.length_pos.mpr ha.1
    obtain ⟨k, hk⟩ : ∃ k, expr.length - 0 + 1 = k + 8 := ⟨expr.length - 7, by
      have := List.length_pos.mpr hb.1
      have := List.length_pos.mpr hc.1
      have := List.length_pos.mpr hd.1
      omega⟩
    rw [solve, solveWithFuel, hk, e1, e2, e3, e4, e5, e6, e7, e8]
    simp only [analyze_after_number]
    rw [performStackOperations]
    simp only [List.length_cons, List.length_nil]
    rw [performStackOperationsLoop_apply E _ _ _ _ _ _ _ _
      (by simp [Token.isOperatorToken, Token.ofEntity, hsub])]
    simp only [Token.ofEntity, performOperation_sub]
    rw [performStackOperationsLoop_apply E _ _ _ _ _ _ _ _
      (by simp [Token.isOperatorToken, hsub])]
    simp only [performOperation_sub, performStackOperationsLoop_nil]
    rw [hlen]
  · intro fuel
    rw [e1, e2, e3, e4, e5, e6]
    simp only [Nat.zero_add]

/-- C13 (operator reduction loop), what the code does on `8-3*2-1`: the second `-` applies the
pending `*` only.  After six tokens the command stack holds the second `-` right on top of the
first one, although `comparePriorities(-, -) <= 0`, and the number stack holds `6` on top of
`8`; the value returned is `8 - (6 - 1) = 3`, not `(8 - 6) - 1 = 1`. -/
theorem solve_operator_reduces_once :
    solve sampleEnv [digit 8, LCDChar_Substract, digit 3, LCDChar_Multiply, digit 2,
        LCDChar_Substract, digit 1] 0 = .ok (3, 7) ∧
      solve sampleEnv [digit 8, LCDChar_Substract, digit 3, LCDChar_Multiply, digit 2,
        LCDChar_Substract, digit 1] 0 ≠ .ok (1, 7) ∧
      sampleEnv.comparePriorities LCDChar_Substract LCDChar_Substract ≤ 0 ∧
      ∀ fuel : Nat,
        solveLoop sampleEnv [digit 8, LCDChar_Substract, digit 3, LCDChar_Multiply, digit 2,
            LCDChar_Substract, digit 1] (fuel + 6) (initialState sampleEnv 0)
            (Token.default sampleEnv) =
          solveLoop sampleEnv [digit 8, LCDChar_Substract, digit 3, LCDChar_Multiply, digit 2,
            LCDChar_Substract, digit 1] fuel
            ⟨6, [6, 8], [Token.ofEntity sampleEnv LCDChar_Substract 5,
              Token.ofEntity sampleEnv LCDChar_Substract 1],
              Token.ofEntity sampleEnv LCDChar_Substract 5⟩
            (Token.ofEntity sampleEnv LCDChar_Substract 5) := by
  have h := solve_sub_mul_sub_run sampleEnv sampleEnv_coherent rfl rfl (by decide) (by decide)
    [digit 8] [digit 3] [digit 2] [digit 1] (sample_isLiteral_digit 8 (by decide))
    (sample_isLiteral_digit 3 (by decide)) (sample_isLiteral_digit 2 (by decide))
    (sample_isLiteral_digit 1 (by decide))
  rw [sample_literalValue_digit 8 (by decide), sample_literalValue_digit 3 (by decide),
    sample_literalValue_digit 2 (by decide), sample_literalValue_digit 1 (by decide)] at h
  rw [show ([digit 8] ++ LCDChar_Substract :: ([digit 3] ++ LCDChar_Multiply ::
      ([digit 2] ++ LCDChar_Substract :: [digit 1])))
    = [digit 8, LCDChar_Substract, digit 3, LCDChar_Multiply, digit 2, LCDChar_Substract,
      digit 1] from rfl] at h
  obtain ⟨h1, h2⟩ := h
  refine ⟨?_, ?_, by decide, ?_⟩
  · rw [h1]
    norm_num [sampleEnv]
  · rw [h1]
    norm_num [sampleEnv]
  · intro fuel
    rw [h2 fuel]
    norm_num [sampleEnv]

/-! ### Number-stack underflow -/

/-- The run of `solve` on a binary operator followed by a literal: no adjacency check fails,
and draining applies the operator to a number stack that holds one value. -/
theorem solve_leading_operator_run (E : Env α) (hE : E.Coherent)
    (hadd : E.isOperator LCDChar_Add = true) (a : TextLine) (ha : IsLiteral E a) :
    solve E (LCDChar_Add :: a) 0 = .error undefinedBehaviour := by
  generalize hx : LCDChar_Add :: a = expr
  have hlen : expr.length = 0 + 1 + a.length := by
    rw [← hx]; simp; omega
  have hapos : 0 < a.length := List.length_pos.mpr ha.1
  obtain ⟨k, hk⟩ : ∃ k, expr.length - 0 + 1 = k + 3 := ⟨expr.length - 2, by omega⟩
  have e1 : solveLoop E expr (k + 2 + 1) (initialState E 0) (Token.default E) = _ :=
    solveLoop_operator E hE expr LCDChar_Add (k + 2) 0 [] [] [] []
      (Token.default E) (Token.default E)
      (getElem?_at [] a _ _ _ hx.symm rfl)
      hadd (analyze_after_default E _) (reduceTop_nil _ _ _ _ _ _)
      (by simp [commandStackLimit])
  have e2 := solveLoop_literal E hE expr [LCDChar_Add] a [] (k + 1) (0 + 1) []
    [Token.ofEntity E LCDChar_Add ((0 : Nat) : Int)]
    (Token.ofEntity E LCDChar_Add ((0 : Nat) : Int))
    (Token.ofEntity E LCDChar_Add ((0 : Nat) : Int)) ha
    (endsNumber_nil E) (by simp [← hx]) (by simp)
    (by simp [numberStackLimit])
    (analyze_number_after_operator E _ _ _ _ hadd)
  have e3 := solveLoop_eof E expr k (0 + 1 + a.length) [literalValue E a]
    [Token.ofEntity E LCDChar_Add ((0 : Nat) : Int)]
    (numberToken E (0 + 1) (literalValue E a)) (numberToken E (0 + 1) (literalValue E a))
    (by omega)
  rw [solve, solveWithFuel, hk, e1, e2, e3]
  simp only [analyze_after_number]
  rw [performStackOperations]
  simp only [List.length_cons, List.length_nil]
  rw [performStackOperationsLoop_apply E _ _ _ _ _ _ _ _
    (by simp [Token.isOperatorToken, Token.ofEntity, hadd])]
  rfl

/-- C14 (no number-stack underflow), what the code does on `+2`: the three adjacency checks
(of `+` against the default previous token, of `2` against `+`, of the end-of-input token
against `2`) pass, and `solve` ends in a pop from an empty number stack, when draining applies
`+` to the single operand. -/
theorem solve_leading_operator_underflow :
    analyzeForSyntaxError sampleEnv (Token.ofEntity sampleEnv LCDChar_Add 0)
        (Token.default sampleEnv) = .ok () ∧
      analyzeForSyntaxError sampleEnv (numberToken sampleEnv 1 2)
        (Token.ofEntity sampleEnv LCDChar_Add 0) = .ok () ∧
      analyzeForSyntaxError sampleEnv (Token.ofType sampleEnv Type_EOF 2)
        (numberToken sampleEnv 1 2) = .ok () ∧
      solve sampleEnv [LCDChar_Add, digit 2] 0 = .error undefinedBehaviour :=
  ⟨analyze_after_default sampleEnv _, analyze_number_after_operator sampleEnv _ _ _ _ rfl,
    analyze_after_number sampleEnv _ _ _,
    solve_leading_operator_run sampleEnv sampleEnv_coherent rfl [digit 2]
      (sample_isLiteral_digit 2 (by decide))⟩

/-! ### The end of the line after a token that expects an operand -/

/-- The scanning of `a +` up to the end of the line. -/
theorem solveLoop_literal_operator (E : Env α) (hE : E.Coherent)
    (hadd : E.isOperator LCDChar_Add = true) (a : TextLine) (ha : IsLiteral E a) (fuel : Nat) :
    solveLoop E (a ++ [LCDChar_Add]) (fuel + 2) (initialState E 0) (Token.default E) =
      solveLoop E (a ++ [LCDChar_Add]) fuel
        ⟨a.length + 1, [literalValue E a], [Token.ofEntity E LCDChar_Add ((a.length : Nat) : Int)],
          Token.ofEntity E LCDChar_Add ((a.length : Nat) : Int)⟩
        (Token.ofEntity E LCDChar_Add ((a.length : Nat) : Int)) := by
  obtain ⟨-, -, -, ha4, -⟩ := hE.operator hadd
  have e1 : solveLoop E (a ++ [LCDChar_Add]) (fuel + 1 + 1) (initialState E 0)
      (Token.default E) = _ :=
    solveLoop_literal E hE (a ++ [LCDChar_Add]) [] a [LCDChar_Add]
      (fuel + 1) 0 [] [] (Token.default E) (Token.default E) ha
      (endsNumber_cons E _ _ ha4 (by decide)) (by simp) rfl (by simp [numberStackLimit])
      (analyze_after_default E _)
  have e2 := solveLoop_operator E hE (a ++ [LCDChar_Add]) LCDChar_Add fuel (0 + a.length)
    [literalValue E a] [literalValue E a] [] []
    (numberToken E 0 (literalValue E a)) (numberToken E 0 (literalValue E a))
    (getElem?_at a [] _ _ _ rfl (by simp))
    hadd (analyze_after_number E _ _ _) (reduceTop_nil _ _ _ _ _ _)
    (by simp [commandStackLimit])
  rw [e1, e2]
  simp only [Nat.zero_add]

/-! ### The stray close-bracket -/

/-- After a token that does not expect an operand, a token that is not a Number passes the
adjacency check. -/
theorem analyze_not_number_after_complete (E : Env α) (token prev : Token α)
    (hprev : (prev.isOperatorToken E || prev.isPreFuncToken E ||
      prev.isEntity LCDChar_OpenParen || prev.tokenType == Type_OpenArrayVar) = false)
    (htoken : token.tokenType ≠ Type_Number) :
    analyzeForSyntaxError E token prev = .ok () := by
  rw [analyzeForSyntaxError]
  simp only [hprev, Bool.false_eq_true, if_false]
  split_ifs with h1 h2
  · exact absurd (by simpa using h2) htoken
  · rfl
  · rfl

/-- The dispatch on a close-bracket whose reduction leaves no indexed-variable opener on top:
no failure, the cursor steps back onto the bracket and the loop is left. -/
theorem dispatch_closeBracket_stray (E : Env α) (hE : E.Coherent) (offset : Int)
    (st st1 : State α)
    (hred : performStackOperations E true false st = .ok st1)
    (htop : ∀ top rest, st1.commandStack = top :: rest → top.tokenType ≠ Type_OpenArrayVar) :
    dispatchToken E (Token.ofEntity E LCDChar_CloseBracket offset) st =
      .ok ({ st1 with currentOffset := st1.currentOffset - 1 }, true) := by
  rw [dispatch_closeBracket E hE, hred]
  simp only []
  cases hcs : st1.commandStack with
  | nil => simp
  | cons top rest =>
    have := htop top rest hcs
    simp [this]

/-- The turn of the scanning loop on a stray close-bracket. -/
theorem solveLoop_closeBracket_stray (E : Env α) (hE : E.Coherent) (expression : TextLine)
    (fuel offset : Nat) (ns : List α) (cs : List (Token α)) (cur prev : Token α)
    (st1 : State α)
    (hget : expression[offset]? = some LCDChar_CloseBracket)
    (hprev : (prev.isOperatorToken E || prev.isPreFuncToken E ||
      prev.isEntity LCDChar_OpenParen || prev.tokenType == Type_OpenArrayVar) = false)
    (hred : performStackOperations E true false
      ⟨offset + 1, ns, cs, Token.ofEntity E LCDChar_CloseBracket offset⟩ = .ok st1)
    (htop : ∀ top rest, st1.commandStack = top :: rest → top.tokenType ≠ Type_OpenArrayVar) :
    solveLoop E expression (fuel + 1) ⟨offset, ns, cs, cur⟩ prev =
      .ok (⟨offset, st1.numberStack, st1.commandStack,
        Token.ofEntity E LCDChar_CloseBracket offset⟩, Token.default E, prev) := by
  have hd := dispatch_closeBracket_stray E hE offset _ st1 hred htop
  obtain ⟨p1, p2⟩ := (performStackOperations_spec E true false
    ⟨offset + 1, ns, cs, Token.ofEntity E LCDChar_CloseBracket offset⟩).2 st1 hred
  have htype : (Token.ofEntity E LCDChar_CloseBracket (offset : Int)).tokenType ≠ Type_EOF := by
    simp [Token.ofEntity]
  have han := analyze_not_number_after_complete E
    (Token.ofEntity E LCDChar_CloseBracket (offset : Int)) prev hprev
    (by simp [Token.ofEntity])
  rw [solveLoop_succ, readToken_entity E expression ⟨offset, ns, cs, cur⟩ _ hget (by simp)]
  simp only [han, hd, beq_iff_eq, htype, if_false]
  simp only [p1, p2, Nat.add_sub_cancel]

/-- What `solve` does once the scanning loop has returned: the last adjacency check, the
draining, and the top of the number stack with the cursor. -/
theorem solveWithFuel_of_loop (E : Env α) (fuel : Nat) (expression : TextLine) (offset : Nat)
    (st : State α) (token prev : Token α)
    (hloop : solveLoop E expression fuel (initialState E offset) (Token.default E) =
      .ok (st, token, prev))
    (han : analyzeForSyntaxError E token prev = .ok ()) :
    solveWithFuel E fuel expression offset =
      match performStackOperations E true true st with
      | .error e => .error e
      | .ok st1 =>
        match st1.numberStack with
        | [] => .error undefinedBehaviour
        | top :: _ => .ok (top, st.currentOffset) := by
  rw [solveWithFuel, hloop]
  simp only [han]
  obtain ⟨-, p2⟩ := performStackOperations_spec E true true st
  cases hp : performStackOperations E true true st with
  | error e => rfl
  | ok st1 =>
    obtain ⟨p3, -⟩ := p2 st1 hp
    simp only [p3]

/-- C19 (stray close-bracket).  Take a state of the scanning loop in which the next symbol is
a close-bracket and the previous token does not expect an operand, and suppose the reduction
the bracket starts (`performStackOperations(true, false)`) goes through and leaves a command
stack whose top is not an indexed-variable opener.  Then the bracket raises no failure: the
loop is left with the cursor on the bracket, and every `solve` whose scanning reaches that state
goes on to drain the stacks and, when it returns a value, reports the index of that bracket as
offset. -/
theorem solve_stray_closeBracket (E : Env α) (hE : E.Coherent) (expression : TextLine)
    (fuel offset : Nat) (ns : List α) (cs : List (Token α)) (cur prev : Token α)
    (st1 : State α)
    (hget : expression[offset]? = some LCDChar_CloseBracket)
    (hprev : (prev.isOperatorToken E || prev.isPreFuncToken E ||
      prev.isEntity LCDChar_OpenParen || prev.tokenType == Type_OpenArrayVar) = false)
    (hred : performStackOperations E true false
      ⟨offset + 1, ns, cs, Token.ofEntity E LCDChar_CloseBracket offset⟩ = .ok st1)
    (htop : ∀ top rest, st1.commandStack = top :: rest → top.tokenType ≠ Type_OpenArrayVar) :
    solveLoop E expression (fuel + 1) ⟨offset, ns, cs, cur⟩ prev =
        .ok (⟨offset, st1.numberStack, st1.commandStack,
          Token.ofEntity E LCDChar_CloseBracket offset⟩, Token.default E, prev) ∧
      ∀ fuel0 offset0 : Nat,
        solveLoop E expression fuel0 (initialState E offset0) (Token.default E) =
          solveLoop E expression (fuel + 1) ⟨offset, ns, cs, cur⟩ prev →
        solveWithFuel E fuel0 expression offset0 =
          match performStackOperations E true true
              ⟨offset, st1.numberStack, st1.commandStack,
                Token.ofEntity E LCDChar_CloseBracket offset⟩ with
          | .error e => .error e
          | .ok st2 =>
            match st2.numberStack with
            | [] => .error undefinedBehaviour
            | top :: _ => .ok (top, offset) := by
  have h := solveLoop_closeBracket_stray E hE expression fuel offset ns cs cur prev st1 hget
    hprev hred htop
  refine ⟨h, ?_⟩
  intro fuel0 offset0 hreach
  exact solveWithFuel_of_loop E fuel0 expression offset0 _ _ _ (hreach.trans h)
    (analyze_not_number_after_complete E _ _ hprev (by simp [Token.default]))

/-- The run of `solve` on a literal followed by a close-bracket. -/
theorem solve_literal_bracket_reach (E : Env α) (hE : E.Coherent) (a : TextLine)
    (ha : IsLiteral E a) (fuel : Nat) :
    solveLoop E (a ++ [LCDChar_CloseBracket]) (fuel + 1) (initialState E 0) (Token.default E) =
      solveLoop E (a ++ [LCDChar_CloseBracket]) fuel
        ⟨a.length, [literalValue E a], [], numberToken E 0 (literalValue E a)⟩
        (numberToken E 0 (literalValue E a)) := by
  obtain ⟨-, -, -, -, hb5⟩ := hE.closeBracket
  have e1 := solveLoop_literal E hE (a ++ [LCDChar_CloseBracket]) [] a [LCDChar_CloseBracket]
    fuel 0 [] [] (Token.default E) (Token.default E) ha
    (endsNumber_cons E _ _ hb5 (by decide)) (by simp) rfl (by simp [numberStackLimit])
    (analyze_after_default E _)
  rw [initialState, e1]
  simp only [Nat.zero_add]

/-- C19, on the sample environment: `2]` from offset 0 returns 2 and reports offset 1, the
index of the bracket. -/
theorem solve_stray_closeBracket_witness :
    solve sampleEnv [digit 2, LCDChar_CloseBracket] 0 = .ok (2, 1) := by
  have h := (solve_stray_closeBracket sampleEnv sampleEnv_coherent
    [digit 2, LCDChar_CloseBracket] 1 1 [literalValue sampleEnv [digit 2]] []
    (numberToken sampleEnv 0 (literalValue sampleEnv [digit 2]))
    (numberToken sampleEnv 0 (literalValue sampleEnv [digit 2]))
    ⟨1 + 1, [literalValue sampleEnv [digit 2]], [],
      Token.ofEntity sampleEnv LCDChar_CloseBracket ((1 : Nat) : Int)⟩
    rfl rfl rfl (by simp)).2 3 0
    (solve_literal_bracket_reach sampleEnv sampleEnv_coherent [digit 2]
      (sample_isLiteral_digit 2 (by decide)) 2)
  rw [performStackOperations_nil] at h
  rw [show solve sampleEnv [digit 2, LCDChar_CloseBracket] 0 =
    solveWithFuel sampleEnv 3 [digit 2, LCDChar_CloseBracket] 0 from rfl, h,
    sample_literalValue_digit 2 (by decide)]
  simp

/-- The run of `solve` on a line that holds a close-bracket only: the bracket ends the
scanning with nothing pushed. -/
theorem solve_bracket_only_run (E : Env α) (hE : E.Coherent) :
    solve E [LCDChar_CloseBracket] 0 = .error undefinedBehaviour := by
  have h := solveLoop_closeBracket_stray E hE [LCDChar_CloseBracket] 1 0 [] []
    (Token.default E) (Token.default E) _ (by simp) (by simp [Token.default, Token.isOperatorToken,
      Token.isPreFuncToken, Token.isEntity]) (performStackOperations_nil E true false _ _ _)
    (by simp)
  show solveWithFuel E (1 + 1) [LCDChar_CloseBracket] 0 = _
  rw [solveWithFuel_of_loop E _ [LCDChar_CloseBracket] 0 _ _ _ h
    (analyze_after_default E _), performStackOperations_nil]

/-! ### What the reductions do to the stacks -/

/-- A successful `push(f(pop()))` keeps the height of the number stack, and succeeds the same
way from any state with the same number stack. -/
theorem mapTop_frame (st st1 : State α) (f : α → α) (h : st.mapTop f = .ok st1) :
    st1.numberStack.length = st.numberStack.length ∧
      ∀ st2 : State α, st2.numberStack = st.numberStack →
        st2.mapTop f = .ok { st2 with numberStack := st1.numberStack } := by
  obtain ⟨off, ns, cs, cur⟩ := st
  cases ns with
  | nil => cases h
  | cons d ns =>
    have h1 : (⟨off, f d :: ns, cs, cur⟩ : State α) = st1 := by
      simpa [State.mapTop, State.popNumber, State.pushNumber] using h
    subst h1
    refine ⟨rfl, ?_⟩
    rintro ⟨off2, ns2, cs2, cur2⟩ h2
    simp only at h2
    subst h2
    rfl

/-- A successful `performOperation` pushes no more than it popped, and it succeeds with the same
number stack from any state with the same number stack. -/
theorem performOperation_frame (E : Env α) (entity : LCDChar) (st st1 : State α)
    (h : performOperation E entity st = .ok st1) :
    st1.numberStack.length ≤ st.numberStack.length ∧
      ∀ st2 : State α, st2.numberStack = st.numberStack →
        performOperation E entity st2 = .ok { st2 with numberStack := st1.numberStack } := by
  cases entity
  case LCDChar_Divide =>
    obtain ⟨off, ns, cs, cur⟩ := st
    rcases ns with _ | ⟨d2, _ | ⟨d1, ns⟩⟩
    · cases h
    · cases h
    · rw [performOperation_div] at h
      by_cases hz : E.isZero d2 = true
      · simp [hz] at h
      · simp only [hz, Bool.false_eq_true, if_false] at h
        have h1 : (⟨off, E.div d1 d2 :: ns, cs, cur⟩ : State α) = st1 := by simpa using h
        subst h1
        refine ⟨by simp, ?_⟩
        rintro ⟨off2, ns2, cs2, cur2⟩ h2
        simp only at h2
        subst h2
        rw [performOperation_div]
        simp [hz]
  case LCDChar_SquareRoot =>
    obtain ⟨off, ns, cs, cur⟩ := st
    rcases ns with _ | ⟨d, ns⟩
    · cases h
    · have h0 : (if E.isNegative d then
          (.error (InterpreterException Error_Math cur.offset) : Except Failure (State α))
          else .ok ⟨off, E.sqrt d :: ns, cs, cur⟩) = .ok st1 := h
      by_cases hz : E.isNegative d = true
      · simp [hz] at h0
      · simp only [hz, Bool.false_eq_true, if_false] at h0
        have h1 : (⟨off, E.sqrt d :: ns, cs, cur⟩ : State α) = st1 := by simpa using h0
        subst h1
        refine ⟨by simp, ?_⟩
        rintro ⟨off2, ns2, cs2, cur2⟩ h2
        simp only at h2
        subst h2
        show (if E.isNegative d then
          (.error (InterpreterException Error_Math cur2.offset) : Except Failure (State α))
          else .ok ⟨off2, E.sqrt d :: ns, cs2, cur2⟩) = _
        simp [hz]
  case LCDChar_Exclamation =>
    obtain ⟨off, ns, cs, cur⟩ := st
    rcases ns with _ | ⟨d, ns⟩
    · cases h
    · have h0 : (match E.factorial d with
          | .error (error, offset) =>
            (.error (InterpreterException error offset) : Except Failure (State α))
          | .ok r => .ok ⟨off, r :: ns, cs, cur⟩) = .ok st1 := h
      cases hf : E.factorial d with
      | error e =>
        rw [hf] at h0
        cases h0
      | ok r =>
        rw [hf] at h0
        have h1 : (⟨off, r :: ns, cs, cur⟩ : State α) = st1 := by simpa using h0
        subst h1
        refine ⟨by simp, ?_⟩
        rintro ⟨off2, ns2, cs2, cur2⟩ h2
        simp only at h2
        subst h2
        show (match E.factorial d with
          | .error (error, offset) =>
            (.error (InterpreterException error offset) : Except Failure (State α))
          | .ok r => .ok ⟨off2, r :: ns, cs2, cur2⟩) = _
        rw [hf]
  all_goals
    first
    | exact ⟨(mapTop_frame st st1 _ h).1.le, (mapTop_frame st st1 _ h).2⟩
    | (have h1 : (Except.ok st : Except Failure (State α)) = .ok st1 := h
       have h2 : st = st1 := by simpa using h1
       subst h2
       refine ⟨le_rfl, ?_⟩
       rintro ⟨off2, ns2, cs2, cur2⟩ h3
       obtain ⟨off, ns, cs, cur⟩ := st
       simp only at h3
       subst h3
       rfl)
    | (obtain ⟨off, ns, cs, cur⟩ := st
       rcases ns with _ | ⟨d2, _ | ⟨d1, ns⟩⟩
       · cases h
       · cases h
       · have h1 : (Except.ok _ : Except Failure (State α)) = .ok st1 := h
         have h2 := Except.ok.inj h1
         subst h2
         refine ⟨by simp [State.pushNumber], ?_⟩
         rintro ⟨off2, ns2, cs2, cur2⟩ h3
         simp only at h3
         subst h3
         rfl)

/-- A successful indexed-variable resolution keeps the height of the number stack, and it
succeeds with the same number stack from any state with the same number stack, whatever the
offset a failure would carry. -/
theorem resolveArrayVar_frame (E : Env α) (entity : LCDChar) (errorOffset : Int)
    (st st1 : State α) (h : resolveArrayVar E entity errorOffset st = .ok st1) :
    st1.numberStack.length = st.numberStack.length ∧
      ∀ (errorOffset2 : Int) (st2 : State α), st2.numberStack = st.numberStack →
        resolveArrayVar E entity errorOffset2 st2 =
          .ok { st2 with numberStack := st1.numberStack } := by
  obtain ⟨off, ns, cs, cur⟩ := st
  rcases ns with _ | ⟨d, ns⟩
  · cases h
  · have h0 : (if (E.memoryVariable entity (E.toInt d)).2 then
        (.error (InterpreterException Error_Memory errorOffset) : Except Failure (State α))
        else .ok ⟨off, (E.memoryVariable entity (E.toInt d)).1 :: ns, cs, cur⟩) = .ok st1 := h
    by_cases hz : (E.memoryVariable entity (E.toInt d)).2 = true
    · simp [hz] at h0
    · simp only [hz, Bool.false_eq_true, if_false] at h0
      have h1 := Except.ok.inj h0
      subst h1
      refine ⟨by simp, ?_⟩
      rintro eo2 ⟨off2, ns2, cs2, cur2⟩ h2
      simp only at h2
      subst h2
      show (if (E.memoryVariable entity (E.toInt d)).2 then
        (.error (InterpreterException Error_Memory eo2) : Except Failure (State α))
        else .ok ⟨off2, (E.memoryVariable entity (E.toInt d)).1 :: ns, cs2, cur2⟩) = _
      simp [hz]

/-- A successful reduction loop leaves a number stack that is no higher and a command stack
that is a part of the one it started from, and it succeeds with the same stacks from any state
with the same stacks, on any fuel above the height of the command stack. -/
theorem performStackOperationsLoop_frame (E : Env α) (tp tb : Bool) :
    ∀ (fuel : Nat) (st st1 : State α),
      performStackOperationsLoop E tp tb fuel st = .ok st1 →
      st1.numberStack.length ≤ st.numberStack.length ∧
      st1.commandStack <:+ st.commandStack ∧
      ∀ (fuel2 : Nat) (st2 : State α), st.commandStack.length < fuel2 →
        st2.numberStack = st.numberStack → st2.commandStack = st.commandStack →
        performStackOperationsLoop E tp tb fuel2 st2 =
          .ok { st2 with numberStack := st1.numberStack, commandStack := st1.commandStack } := by
  intro fuel
  induction fuel with
  | zero => intro st st1 h; cases h
  | succ fuel ih =>
    intro st st1 h
    obtain ⟨off, ns, cs, cur⟩ := st
    cases cs with
    | nil =>
      rw [performStackOperationsLoop_nil] at h
      have h1 := Except.ok.inj h
      subst h1
      refine ⟨le_rfl, List.suffix_refl _, ?_⟩
      rintro fuel2 ⟨off2, ns2, cs2, cur2⟩ hf h2 h3
      simp only at h2 h3
      subst h2 h3
      cases fuel2 with
      | zero => simp at hf
      | succ fuel2 => rw [performStackOperationsLoop_nil]
    | cons top rest =>
      rw [performStackOperationsLoop] at h
      simp only [] at h
      split_ifs at h with c1 c2 c3
      · cases hop : performOperation E top.entity ⟨off, ns, rest, cur⟩ with
        | error e => rw [hop] at h; cases h
        | ok st3 =>
          rw [hop] at h
          simp only [] at h
          obtain ⟨j1, j2, j3⟩ := (performOperation_spec E top.entity ⟨off, ns, rest, cur⟩).2 st3 hop
          obtain ⟨f1, f2⟩ := performOperation_frame E top.entity _ st3 hop
          obtain ⟨k1, k2, k3⟩ := ih st3 st1 h
          simp only at j2 f1
          refine ⟨k1.trans f1, ?_, ?_⟩
          · rw [j2] at k2
            exact k2.trans (List.suffix_cons top rest)
          · rintro fuel2 ⟨off2, ns2, cs2, cur2⟩ hf h2 h3
            simp only at h2 h3
            subst h2 h3
            cases fuel2 with
            | zero => simp at hf
            | succ fuel2 =>
              rw [performStackOperationsLoop]
              simp only [c1, if_true]
              rw [f2 ⟨off2, ns2, rest, cur2⟩ rfl]
              simp only []
              rw [k3 fuel2 ⟨off2, st3.numberStack, rest, cur2⟩
                (by rw [j2]; simp at hf ⊢; omega) rfl (by rw [j2])]
      · obtain ⟨k1, k2, k3⟩ := ih _ st1 h
        refine ⟨k1, k2.trans (List.suffix_cons top rest), ?_⟩
        rintro fuel2 ⟨off2, ns2, cs2, cur2⟩ hf h3 h4
        simp only at h3 h4
        subst h3 h4
        cases fuel2 with
        | zero => simp at hf
        | succ fuel2 =>
          rw [performStackOperationsLoop]
          simp only [c1, c2, if_true, Bool.false_eq_true, if_false]
          rw [k3 fuel2 ⟨off2, ns2, rest, cur2⟩ (by simp at hf ⊢; omega) rfl rfl]
      · cases hop : resolveArrayVar E top.entity 0 ⟨off, ns, rest, cur⟩ with
        | error e => rw [hop] at h; cases h
        | ok st3 =>
          rw [hop] at h
          simp only [] at h
          obtain ⟨j1, j2, j3⟩ := (resolveArrayVar_spec E top.entity 0 ⟨off, ns, rest, cur⟩).2 st3 hop
          obtain ⟨f1, f2⟩ := resolveArrayVar_frame E top.entity 0 _ st3 hop
          obtain ⟨k1, k2, k3⟩ := ih st3 st1 h
          simp only at j2 f1
          refine ⟨k1.trans f1.le, ?_, ?_⟩
          · rw [j2] at k2
            exact k2.trans (List.suffix_cons top rest)
          · rintro fuel2 ⟨off2, ns2, cs2, cur2⟩ hf h2 h3
            simp only at h2 h3
            subst h2 h3
            cases fuel2 with
            | zero => simp at hf
            | succ fuel2 =>
              rw [performStackOperationsLoop]
              simp only [c1, c2, c3, if_true, Bool.false_eq_true, if_false]
              rw [f2 0 ⟨off2, ns2, rest, cur2⟩ rfl]
              simp only []
              rw [k3 fuel2 ⟨off2, st3.numberStack, rest, cur2⟩
                (by rw [j2]; simp at hf ⊢; omega) rfl (by rw [j2])]
      · have h1 := Except.ok.inj h
        subst h1
        refine ⟨le_rfl, List.suffix_refl _, ?_⟩
        rintro fuel2 ⟨off2, ns2, cs2, cur2⟩ hf h2 h3
        simp only at h2 h3
        subst h2 h3
        cases fuel2 with
        | zero => simp at hf
        | succ fuel2 =>
          rw [performStackOperationsLoop]
          simp only [c1, c2, c3, if_true, Bool.false_eq_true, if_false]

theorem performStackOperations_stacks (E : Env α) (tp tb : Bool) (st st1 : State α)
    (h : performStackOperations E tp tb st = .ok st1) :
    st1.numberStack.length ≤ st.numberStack.length ∧ st1.commandStack <:+ st.commandStack :=
  ⟨(performStackOperationsLoop_frame E tp tb _ st st1 h).1,
    (performStackOperationsLoop_frame E tp tb _ st st1 h).2.1⟩

theorem reduceTop_stacks (E : Env α) (p : LCDChar → Bool) (entity : LCDChar) (st st1 : State α)
    (h : reduceTop E p entity st = .ok st1) :
    st1.numberStack.length ≤ st.numberStack.length ∧ st1.commandStack <:+ st.commandStack := by
  obtain ⟨off, ns, cs, cur⟩ := st
  cases cs with
  | nil =>
    rw [reduceTop_nil] at h
    have h1 := Except.ok.inj h
    subst h1
    exact ⟨le_rfl, List.suffix_refl _⟩
  | cons top rest =>
    rw [reduceTop] at h
    simp only [] at h
    split_ifs at h with c1 c2
    · obtain ⟨-, j2, -⟩ := (performOperation_spec E top.entity ⟨off, ns, rest, cur⟩).2 st1 h
      obtain ⟨f1, -⟩ := performOperation_frame E top.entity _ st1 h
      refine ⟨f1, ?_⟩
      rw [j2]
      exact List.suffix_cons top rest
    · have h1 := Except.ok.inj h
      subst h1
      exact ⟨le_rfl, List.suffix_refl _⟩
    · have h1 := Except.ok.inj h
      subst h1
      exact ⟨le_rfl, List.suffix_refl _⟩

/-- A successful `pushToken` put the value of the token on a number stack that was below its
limit, or the token on a command stack that was below its limit. -/
theorem pushToken_stacks (E : Env α) (token : Token α) (st st1 : State α)
    (h : pushToken E token st = .ok st1) :
    (st1.numberStack = token.value :: st.numberStack ∧
        st.numberStack.length < numberStackLimit ∧ st1.commandStack = st.commandStack) ∨
      (st1.commandStack = token :: st.commandStack ∧
        st.commandStack.length < commandStackLimit ∧ st1.numberStack = st.numberStack ∧
        (token.tokenType == Type_Number || token.isVariable E) = false) := by
  rw [pushToken] at h
  split_ifs at h with c1 c2 c3
  · have h1 := Except.ok.inj h
    subst h1
    exact Or.inl ⟨rfl, c2, rfl⟩
  · have h1 := Except.ok.inj h
    subst h1
    exact Or.inr ⟨rfl, c3, rfl, by simpa using c1⟩

/-- What a successful dispatch does to the stacks: it only reduces them, or it reduces them
and then pushes the token with `pushToken`; a token that goes on the command stack is an
indexed-variable opener or an entity. -/
theorem dispatchToken_stacks (E : Env α) (token : Token α) (st st1 : State α) (b : Bool)
    (h : dispatchToken E token st = .ok (st1, b)) :
    (st1.numberStack.length ≤ st.numberStack.length ∧ st1.commandStack <:+ st.commandStack) ∨
      ∃ st0 : State α, st0.numberStack.length ≤ st.numberStack.length ∧
        st0.commandStack <:+ st.commandStack ∧ pushToken E token st0 = .ok st1 ∧
        ((token.tokenType == Type_Number || token.isVariable E) = false →
          token.tokenType = Type_OpenArrayVar ∨ token.tokenType = Type_Entity) := by
  rw [dispatchToken] at h
  split_ifs at h with c1 c2 c3 c4 c5
  · cases hp : pushToken E token st with
    | error e => rw [hp] at h; cases h
    | ok st2 =>
      rw [hp] at h
      simp only [Except.ok.injEq, Prod.mk.injEq] at h
      obtain ⟨h1, -⟩ := h
      subst h1
      refine Or.inr ⟨st, le_rfl, List.suffix_refl _, hp, ?_⟩
      intro hn
      simp only [Bool.or_eq_false_iff] at hn
      simp only [hn.1, hn.2, Bool.false_or, Bool.or_eq_true] at c1
      rcases c1 with (c1 | c1) | c1
      · exact Or.inl (by simpa using c1)
      · simp only [Token.isPreFuncToken, Bool.and_eq_true, beq_iff_eq] at c1
        exact Or.inr c1.1
      · simp only [Token.isEntity, Bool.and_eq_true, beq_iff_eq] at c1
        exact Or.inr c1.1
  · cases hr : reduceTop E (fun e => E.isOperator e || E.isPreFunc e) token.entity st with
    | error e => rw [hr] at h; cases h
    | ok st2 =>
      rw [hr] at h
      simp only [] at h
      cases hp : pushToken E token st2 with
      | error e => rw [hp] at h; cases h
      | ok st3 =>
        rw [hp] at h
        simp only [Except.ok.injEq, Prod.mk.injEq] at h
        obtain ⟨h1, -⟩ := h
        subst h1
        obtain ⟨r1, r2⟩ := reduceTop_stacks E _ _ st st2 hr
        refine Or.inr ⟨st2, r1, r2, hp, ?_⟩
        intro _
        simp only [Token.isOperatorToken, Bool.and_eq_true, beq_iff_eq] at c2
        exact Or.inr c2.1
  · cases hr : reduceTop E (fun e => E.isOperator e || E.isPreFunc e || E.isPostFunc e)
        token.entity st with
    | error e => rw [hr] at h; cases h
    | ok st2 =>
      rw [hr] at h
      simp only [] at h
      cases hp : performOperation E token.entity st2 with
      | error e => rw [hp] at h; cases h
      | ok st3 =>
        rw [hp] at h
        simp only [Except.ok.injEq, Prod.mk.injEq] at h
        obtain ⟨h1, -⟩ := h
        subst h1
        obtain ⟨r1, r2⟩ := reduceTop_stacks E _ _ st st2 hr
        obtain ⟨-, j2, -⟩ := (performOperation_spec E token.entity st2).2 st3 hp
        obtain ⟨f1, -⟩ := performOperation_frame E token.entity _ st3 hp
        exact Or.inl ⟨f1.trans r1, by rw [j2]; exact r2⟩
  · cases hr : performStackOperations E false false st with
    | error e => rw [hr] at h; cases h
    | ok st2 =>
      rw [hr] at h
      simp only [] at h
      obtain ⟨r1, r2⟩ := performStackOperations_stacks E _ _ st st2 hr
      cases hcs : st2.commandStack with
      | nil => rw [hcs] at h; cases h
      | cons top rest =>
        rw [hcs] at h
        simp only [] at h
        split_ifs at h
        simp only [Except.ok.injEq, Prod.mk.injEq] at h
        obtain ⟨h1, -⟩ := h
        subst h1
        refine Or.inl ⟨r1, ?_⟩
        rw [hcs] at r2
        exact (List.suffix_cons top rest).trans r2
  · cases hr : performStackOperations E true false st with
    | error e => rw [hr] at h; cases h
    | ok st2 =>
      rw [hr] at h
      simp only [] at h
      obtain ⟨r1, r2⟩ := performStackOperations_stacks E _ _ st st2 hr
      cases hcs : st2.commandStack with
      | nil =>
        rw [hcs] at h
        simp only [Except.ok.injEq, Prod.mk.injEq] at h
        obtain ⟨h1, -⟩ := h
        subst h1
        exact Or.inl ⟨r1, by rw [← hcs]; exact r2⟩
      | cons top rest =>
        rw [hcs] at h
        simp only [] at h
        split_ifs at h
        · cases hp : resolveArrayVar E top.entity token.offset
              { st2 with commandStack := rest } with
          | error e => rw [hp] at h; cases h
          | ok st3 =>
            rw [hp] at h
            simp only [Except.ok.injEq, Prod.mk.injEq] at h
            obtain ⟨h1, -⟩ := h
            subst h1
            obtain ⟨-, j2, -⟩ := (resolveArrayVar_spec E top.entity token.offset
              { st2 with commandStack := rest }).2 st3 hp
            obtain ⟨f1, -⟩ := resolveArrayVar_frame E top.entity token.offset _ st3 hp
            refine Or.inl ⟨f1.le.trans r1, ?_⟩
            rw [j2]
            rw [hcs] at r2
            exact (List.suffix_cons top rest).trans r2
        · simp only [Except.ok.injEq, Prod.mk.injEq] at h
          obtain ⟨h1, -⟩ := h
          subst h1
          exact Or.inl ⟨r1, by rw [← hcs]; exact r2⟩
  · simp only [Except.ok.injEq, Prod.mk.injEq] at h
    obtain ⟨h1, -⟩ := h
    subst h1
    exact Or.inl ⟨le_rfl, List.suffix_refl _⟩

theorem bounded_of_le (st st1 : State α) (hb : Bounded st)
    (h1 : st1.numberStack.length ≤ st.numberStack.length)
    (h2 : st1.commandStack <:+ st.commandStack) : Bounded st1 :=
  ⟨h1.trans hb.1, h2.length_le.trans hb.2⟩

theorem pushToken_bounded (E : Env α) (token : Token α) (st st1 : State α) (hb : Bounded st)
    (h : pushToken E token st = .ok st1) : Bounded st1 := by
  rcases pushToken_stacks E token st st1 h with ⟨p1, p2, p3⟩ | ⟨p1, p2, p3, -⟩
  · refine ⟨?_, by rw [p3]; exact hb.2⟩
    rw [p1, List.length_cons]
    exact p2
  · refine ⟨by rw [p3]; exact hb.1, ?_⟩
    rw [p1, List.length_cons]
    exact p2

theorem dispatchToken_bounded (E : Env α) (token : Token α) (st st1 : State α) (b : Bool)
    (hb : Bounded st) (h : dispatchToken E token st = .ok (st1, b)) : Bounded st1 := by
  rcases dispatchToken_stacks E token st st1 b h with ⟨p1, p2⟩ | ⟨st0, p1, p2, p3, -⟩
  · exact bounded_of_le st st1 hb p1 p2
  · exact pushToken_bounded E token st0 st1 (bounded_of_le st st0 hb p1 p2) p3

theorem solveLoop_bounded (E : Env α) (expression : TextLine) :
    ∀ (fuel : Nat) (st : State α) (prev : Token α), Bounded st →
      ∀ st1 token prev1, solveLoop E expression fuel st prev = .ok (st1, token, prev1) →
        Bounded st1 := by
  intro fuel
  induction fuel with
  | zero => intro st prev hb st1 token prev1 h; cases h
  | succ fuel ih =>
    intro st prev hb st3 token3 prev3 h
    rw [solveLoop_succ] at h
    cases hread : readToken E expression st with
    | error e => rw [hread] at h; cases h
    | ok r =>
      obtain ⟨token, st1⟩ := r
      rw [hread] at h
      simp only [] at h
      obtain ⟨r1, r2, -⟩ := (readToken_spec E expression st).2 token st1 hread
      have hb1 : Bounded st1 := ⟨by rw [r1]; exact hb.1, by rw [r2]; exact hb.2⟩
      split_ifs at h with c1
      · simp only [Except.ok.injEq, Prod.mk.injEq] at h
        obtain ⟨h1, -⟩ := h
        subst h1
        exact hb1
      · cases han : analyzeForSyntaxError E token prev with
        | error e => rw [han] at h; cases h
        | ok u =>
          rw [han] at h
          simp only [] at h
          cases hd : dispatchToken E token st1 with
          | error e => rw [hd] at h; cases h
          | ok r2 =>
            obtain ⟨st2, b⟩ := r2
            rw [hd] at h
            have hb2 := dispatchToken_bounded E token st1 st2 b hb1 hd
            cases b with
            | true =>
              simp only [Except.ok.injEq, Prod.mk.injEq] at h
              obtain ⟨h1, -⟩ := h
              subst h1
              exact hb2
            | false => exact ih st2 token hb2 st3 token3 prev3 h

/-- C16 (stack bounds).  The state `solve` starts from is within the bounds (at most 9 values
on the number stack, at most 20 tokens on the command stack), and from a state within the
bounds every operation `solve` is made of returns a state within the bounds: `readToken`,
`pushToken`, the dispatch on a token, the reduction loop `performStackOperations` and the
scanning loop as a whole.  The pushes that are not checked against the limit come after at
least as many pops: `performOperation` returns a number stack that is no higher than before,
an indexed-variable resolution one of the same height, a reduction loop stacks that are no
higher, and none of the three touches the command stack other than by popping. -/
theorem stack_bounds (E : Env α) (expression : TextLine) (offset : Nat) (st : State α)
    (hb : Bounded st) :
    Bounded (initialState E offset) ∧
    (∀ token st1, readToken E expression st = .ok (token, st1) → Bounded st1) ∧
    (∀ token st1, pushToken E token st = .ok st1 → Bounded st1) ∧
    (∀ entity st1, performOperation E entity st = .ok st1 →
      st1.numberStack.length ≤ st.numberStack.length ∧ st1.commandStack = st.commandStack) ∧
    (∀ entity errorOffset st1, resolveArrayVar E entity errorOffset st = .ok st1 →
      st1.numberStack.length = st.numberStack.length ∧ st1.commandStack = st.commandStack) ∧
    (∀ treatOpenParens treatOpenBracket st1,
      performStackOperations E treatOpenParens treatOpenBracket st = .ok st1 →
      st1.numberStack.length ≤ st.numberStack.length ∧
        st1.commandStack.length ≤ st.commandStack.length ∧ Bounded st1) ∧
    (∀ token st1 b, dispatchToken E token st = .ok (st1, b) → Bounded st1) ∧
    (∀ fuel prev st1 token prev1,
      solveLoop E expression fuel st prev = .ok (st1, token, prev1) → Bounded st1) := by
  refine ⟨⟨by simp [initialState, numberStackLimit], by simp [initialState, commandStackLimit]⟩,
    ?_, ?_, ?_, ?_, ?_, ?_, ?_⟩
  · intro token st1 h
    obtain ⟨r1, r2, -⟩ := (readToken_spec E expression st).2 token st1 h
    exact ⟨by rw [r1]; exact hb.1, by rw [r2]; exact hb.2⟩
  · intro token st1 h
    exact pushToken_bounded E token st st1 hb h
  · intro entity st1 h
    exact ⟨(performOperation_frame E entity st st1 h).1,
      ((performOperation_spec E entity st).2 st1 h).2.1⟩
  · intro entity errorOffset st1 h
    exact ⟨(resolveArrayVar_frame E entity errorOffset st st1 h).1,
      ((resolveArrayVar_spec E entity errorOffset st).2 st1 h).2.1⟩
  · intro tp tb st1 h
    obtain ⟨p1, p2⟩ := performStackOperations_stacks E tp tb st st1 h
    exact ⟨p1, p2.length_le, bounded_of_le st st1 hb p1 p2⟩
  · intro token st1 b h
    exact dispatchToken_bounded E token st st1 b hb h
  · intro fuel prev st1 token prev1 h
    exact solveLoop_bounded E expression fuel st prev hb st1 token prev1 h

/-- C16, on the sample environment: the start state is within the bounds, and so is the state
after the Number token of `2` was pushed from it. -/
theorem stack_bounds_witness :
    Bounded (initialState sampleEnv 0) ∧
      Bounded (⟨0, [2], [], Token.default sampleEnv⟩ : State ℚ) :=
  ⟨(stack_bounds sampleEnv [digit 2] 0 (initialState sampleEnv 0)
      ⟨by decide, by decide⟩).1,
    (stack_bounds sampleEnv [digit 2] 0 (initialState sampleEnv 0)
      ⟨by decide, by decide⟩).2.2.1 (numberToken sampleEnv 0 2)
      ⟨0, [2], [], Token.default sampleEnv⟩ rfl⟩

/-! ### A close-paren at the end of the line -/

/-- One more unit of fuel does not change an outcome of the number loop that was reached
within the fuel. -/
theorem parseNumberLoop_fuel_succ (E : Env α) (expression : TextLine) :
    ∀ (fuel offset : Nat) (numberStr : List Char),
      parseNumberLoop E expression fuel offset numberStr ≠ .error outOfFuel →
      parseNumberLoop E expression (fuel + 1) offset numberStr =
        parseNumberLoop E expression fuel offset numberStr := by
  intro fuel
  induction fuel with
  | zero => intro offset numberStr h; exact absurd rfl h
  | succ fuel ih =>
    intro offset numberStr h
    rw [parseNumberLoop] at h
    conv_lhs => rw [parseNumberLoop]
    conv_rhs => rw [parseNumberLoop]
    cases hget : expression[offset]? with
    | none => rfl
    | some c =>
      rw [hget] at h
      simp only [] at h ⊢
      split_ifs at h ⊢ with c1 c2 c3
      · exact ih _ _ h
      · exact ih _ _ h
      · rfl
      · rfl

/-- A symbol that is no part of a number, appended to the line, changes nothing in the number
loop. -/
theorem parseNumberLoop_append (E : Env α) (s : TextLine) (c : LCDChar)
    (hc : E.isNumeric c = false) :
    ∀ (fuel offset : Nat) (numberStr : List Char), offset ≤ s.length →
      parseNumberLoop E (s ++ [c]) fuel offset numberStr =
        parseNumberLoop E s fuel offset numberStr := by
  intro fuel
  induction fuel with
  | zero => intro offset numberStr _; rfl
  | succ fuel ih =>
    intro offset numberStr hle
    conv_lhs => rw [parseNumberLoop]
    conv_rhs => rw [parseNumberLoop]
    rcases Nat.lt_or_ge offset s.length with hlt | hge
    · rw [List.getElem?_append_left hlt]
      cases hget : s[offset]? with
      | none => rfl
      | some d =>
        simp only []
        split_ifs
        · exact ih _ _ hlt
        · exact ih _ _ hlt
        · rfl
        · rfl
    · have heq : offset = s.length := Nat.le_antisymm hle hge
      subst heq
      have h1 : (s ++ [c])[s.length]? = some c := by simp
      have h2 : s[s.length]? = none := List.getElem?_eq_none (Nat.le_refl _)
      rw [h1, h2]
      simp only [Env.isNumeric] at hc
      simp [hc]

theorem parseNumber_append (E : Env α) (s : TextLine) (c : LCDChar)
    (hc : E.isNumeric c = false) (offset : Nat) (hlt : offset < s.length) :
    parseNumber E (s ++ [c]) offset = parseNumber E s offset := by
  rw [parseNumber, parseNumber, List.getElem?_append_left hlt]
  cases hget : s[offset]? with
  | none => rfl
  | some d =>
    simp only []
    split_ifs with c1
    · rfl
    · have hnum : (E.isCipher d || d == LCDChar_Dot) = true := by
        cases h1 : E.isCipher d <;> simp_all
      have hfuel : (s ++ [c]).length - offset = (s.length - offset) + 1 := by
        simp; omega
      obtain ⟨i1, -⟩ := parseNumberLoop_spec E s (s.length - offset) (offset + 1)
        [E.toNumChar d] (by omega) (by omega)
      rw [hfuel, parseNumberLoop_append E s c hc _ _ _ (by omega),
        parseNumberLoop_fuel_succ E s _ _ _ i1]

/-- A symbol that is neither part of a number nor an open-bracket, appended to the line,
changes nothing in what `readToken` reads before it. -/
theorem readToken_append (E : Env α) (s : TextLine) (c : LCDChar)
    (hc : E.isNumeric c = false) (hb : c ≠ LCDChar_OpenBracket) (st : State α)
    (hlt : st.currentOffset < s.length) :
    readToken E (s ++ [c]) st = readToken E s st := by
  have h1 : (s ++ [c])[st.currentOffset]? = s[st.currentOffset]? :=
    List.getElem?_append_left hlt
  cases hget : s[st.currentOffset]? with
  | none =>
    rw [List.getElem?_eq_none_iff] at hget
    omega
  | some entity =>
    have h2 : ((s ++ [c])[st.currentOffset + 1]? = some LCDChar_OpenBracket) =
        (s[st.currentOffset + 1]? = some LCDChar_OpenBracket) := by
      rcases Nat.lt_or_ge (st.currentOffset + 1) s.length with h3 | h3
      · rw [List.getElem?_append_left h3]
      · have h4 : st.currentOffset + 1 = s.length := by omega
        rw [h4, List.getElem?_eq_none (Nat.le_refl _)]
        simp [hb]
    rw [readToken_eq E _ st entity (h1.trans hget), readToken_eq E s st entity hget,
      parseNumber_append E s c hc _ hlt]
    simp only [h2]

/-- A token of type `Type_OpenArrayVar` that `readToken` built carries a letter. -/
theorem readToken_opener_alpha (E : Env α) (expression : TextLine) (st st1 : State α)
    (token : Token α) (h : readToken E expression st = .ok (token, st1))
    (htype : token.tokenType = Type_OpenArrayVar) : E.isAlpha token.entity = true := by
  cases hget : expression[st.currentOffset]? with
  | none =>
    rw [readToken, hget] at h
    simp only [Except.ok.injEq, Prod.mk.injEq] at h
    rw [← h.1] at htype
    cases htype
  | some entity =>
    rw [readToken_eq E _ st entity hget] at h
    split_ifs at h with c1 c2 c3 c4
    · simp only [Except.ok.injEq, Prod.mk.injEq] at h
      rw [← h.1] at htype
      cases htype
    · simp only [Except.ok.injEq, Prod.mk.injEq] at h
      rw [← h.1]
      exact c2
    · simp only [Except.ok.injEq, Prod.mk.injEq] at h
      rw [← h.1] at htype
      cases htype
    · cases hp : parseNumber E expression st.currentOffset with
      | error e => rw [hp] at h; cases h
      | ok r =>
        rw [hp] at h
        simp only [Except.ok.injEq, Prod.mk.injEq] at h
        rw [← h.1] at htype
        cases htype
    · simp only [Except.ok.injEq, Prod.mk.injEq] at h
      rw [← h.1] at htype
      cases htype

/-- One turn of the scanning loop keeps this of the command stack: an entry whose entity is the
open-paren is an entity token. -/
theorem commandStack_openParen_step (E : Env α) (hE : E.Coherent) (expression : TextLine)
    (st st1 st2 : State α) (token : Token α) (b : Bool)
    (hread : readToken E expression st = .ok (token, st1))
    (hdisp : dispatchToken E token st1 = .ok (st2, b))
    (hinv : ∀ x ∈ st.commandStack, x.entity = LCDChar_OpenParen → x.tokenType = Type_Entity) :
    ∀ x ∈ st2.commandStack, x.entity = LCDChar_OpenParen → x.tokenType = Type_Entity := by
  obtain ⟨-, r2, -⟩ := (readToken_spec E expression st).2 token st1 hread
  intro x hx hent
  rcases dispatchToken_stacks E token st1 st2 b hdisp with ⟨-, p2⟩ | ⟨st0, -, p2, p3, p4⟩
  · exact hinv x (by rw [← r2]; exact p2.subset hx) hent
  · rcases pushToken_stacks E token st0 st2 p3 with ⟨-, -, q3⟩ | ⟨q1, -, -, q4⟩
    · rw [q3] at hx
      exact hinv x (by rw [← r2]; exact p2.subset hx) hent
    · rw [q1] at hx
      rcases List.mem_cons.mp hx with hx | hx
      · subst hx
        rcases p4 q4 with t1 | t1
        · have ha := readToken_opener_alpha E expression st st1 x hread t1
          rw [hent, hE.openParen.2.2.2.1] at ha
          cases ha
        · exact t1
      · exact hinv x (by rw [← r2]; exact p2.subset hx) hent

/-- Draining closes an open-paren as a close-paren does: when the reduction a close-paren
starts stops at an open-paren, draining the stacks with that open-paren removed and draining
the stacks as they were give the same stacks. -/
theorem drain_split (E : Env α) :
    ∀ (fuel : Nat) (st st1 : State α) (top : Token α) (rest : List (Token α)),
      performStackOperationsLoop E false false fuel st = .ok st1 →
      st1.commandStack = top :: rest → top.isEntity LCDChar_OpenParen = true →
      ∀ (st3 st4 : State α), st3.numberStack = st1.numberStack → st3.commandStack = rest →
        performStackOperations E true true st3 = .ok st4 →
        ∀ (fuel2 : Nat) (st2 : State α), st.commandStack.length < fuel2 →
          st2.numberStack = st.numberStack → st2.commandStack = st.commandStack →
          performStackOperationsLoop E true true fuel2 st2 =
            .ok { st2 with numberStack := st4.numberStack,
                           commandStack := st4.commandStack } := by
  intro fuel
  induction fuel with
  | zero => intro st st1 top rest h; cases h
  | succ fuel ih =>
    intro st st1 top rest h hcs htop st3 st4 h3n h3c h4 fuel2 st2 hf h2n h2c
    obtain ⟨off, ns, cs, cur⟩ := st
    obtain ⟨off2, ns2, cs2, cur2⟩ := st2
    simp only at h2n h2c hf
    subst h2n h2c
    cases fuel2 with
    | zero => omega
    | succ fuel2 =>
    cases cs2 with
    | nil =>
      rw [performStackOperationsLoop_nil] at h
      have h1 := Except.ok.inj h
      subst h1
      cases hcs
    | cons c cs1 =>
      rw [performStackOperationsLoop] at h
      simp only [] at h
      rw [performStackOperationsLoop]
      simp only []
      by_cases c1 : (c.isOperatorToken E || c.isPreFuncToken E || c.isPostFuncToken E) = true
      · simp only [c1, if_true] at h ⊢
        cases hop : performOperation E c.entity ⟨off, ns2, cs1, cur⟩ with
        | error e => rw [hop] at h; cases h
        | ok st5 =>
          rw [hop] at h
          simp only [] at h
          obtain ⟨-, j2, -⟩ := (performOperation_spec E c.entity ⟨off, ns2, cs1, cur⟩).2 st5 hop
          obtain ⟨-, f2⟩ := performOperation_frame E c.entity _ st5 hop
          rw [f2 ⟨off2, ns2, cs1, cur2⟩ rfl]
          simp only []
          simp only at j2
          rw [ih st5 st1 top rest h hcs htop st3 st4 h3n h3c h4 fuel2
            ⟨off2, st5.numberStack, cs1, cur2⟩ (by rw [j2]; simp at hf ⊢; omega) rfl
            (by rw [j2])]
      · simp only [c1, Bool.and_false, Bool.false_eq_true, if_false] at h
        have h1 := Except.ok.inj h
        subst h1
        simp only [List.cons.injEq] at hcs
        obtain ⟨hc1, hc2⟩ := hcs
        subst hc1 hc2
        simp only [c1, htop, Bool.and_true, Bool.false_eq_true, if_false, if_true]
        simp only at h3n
        obtain ⟨-, -, k3⟩ := performStackOperationsLoop_frame E true true _ st3 st4 h4
        rw [k3 fuel2 ⟨off2, ns2, cs1, cur2⟩ (by rw [h3c]; simp at hf ⊢; omega)
          (by rw [h3n]) (by rw [h3c])]

/-- After a token that a close-paren may follow, the end of the line may follow too. -/
theorem analyze_eof_of_closeParen (E : Env α) (token prev : Token α) (offset : Int)
    (htype : token.tokenType ≠ Type_Number)
    (han : analyzeForSyntaxError E (Token.ofEntity E LCDChar_CloseParen offset) prev = .ok ()) :
    analyzeForSyntaxError E token prev = .ok () := by
  apply analyze_not_number_after_complete E token prev _ htype
  by_contra hprev
  rw [Bool.not_eq_false] at hprev
  rw [analyzeForSyntaxError, if_pos hprev] at han
  simp [Token.isEntity, Token.ofEntity] at han

/-- The scanning loop on a line and on the line with a close-paren appended: when the longer
line is scanned, checked and drained without failure, so is the shorter one, and the number
stacks at the end are the same. -/
theorem solveLoop_closeParen_sim (E : Env α) (hE : E.Coherent) (s : TextLine) :
    ∀ (fuel : Nat) (st : State α) (prev : Token α),
      st.currentOffset ≤ s.length →
      (∀ x ∈ st.commandStack, x.entity = LCDChar_OpenParen → x.tokenType = Type_Entity) →
      ∀ (stT : State α) (tokT prevT : Token α) (st4 : State α),
        solveLoop E (s ++ [LCDChar_CloseParen]) fuel st prev = .ok (stT, tokT, prevT) →
        analyzeForSyntaxError E tokT prevT = .ok () →
        performStackOperations E true true stT = .ok st4 →
        ∃ (stS : State α) (tokS prevS : Token α) (st5 : State α),
          solveLoop E s fuel st prev = .ok (stS, tokS, prevS) ∧
          analyzeForSyntaxError E tokS prevS = .ok () ∧
          performStackOperations E true true stS = .ok st5 ∧
          st5.numberStack = st4.numberStack ∧
          stS.currentOffset = min stT.currentOffset s.length := by
  obtain ⟨hp1, hp2, hp3, hp4, hp5⟩ := hE.closeParen
  have hnum : E.isNumeric LCDChar_CloseParen = false := by simp [Env.isNumeric, hp5]
  intro fuel
  induction fuel with
  | zero => intro st prev _ _ stT tokT prevT st4 h; cases h
  | succ fuel ih =>
    intro st prev hle hinv stT tokT prevT st4 h han hdrain
    rcases Nat.lt_or_ge st.currentOffset s.length with hlt | hge
    · -- the cursor is before the end of the shorter line: both loops take the same turn
      have hrt := readToken_append E s LCDChar_CloseParen hnum (by decide) st hlt
      rw [solveLoop_succ, hrt] at h
      rw [solveLoop_succ]
      cases hread : readToken E s st with
      | error e => rw [hread] at h; cases h
      | ok r =>
        obtain ⟨token, st1⟩ := r
        rw [hread] at h
        simp only [] at h ⊢
        obtain ⟨-, -, -, r4, r5, r6, -⟩ := (readToken_spec E s st).2 token st1 hread
        by_cases c1 : (token.tokenType == Type_EOF) = true
        · simp only [c1, if_true, Except.ok.injEq, Prod.mk.injEq] at h ⊢
          obtain ⟨h1, h2, h3⟩ := h
          subst h1 h2 h3
          refine ⟨st1, token, prev, st4, ⟨rfl, rfl, rfl⟩, han, hdrain, rfl, ?_⟩
          have := (r6 (by simpa using c1)).1
          omega
        · simp only [c1, Bool.false_eq_true, if_false] at h ⊢
          have hne : token.tokenType ≠ Type_EOF := by simpa using c1
          cases han1 : analyzeForSyntaxError E token prev with
          | error e => rw [han1] at h; cases h
          | ok u =>
            rw [han1] at h
            simp only [] at h ⊢
            cases hd : dispatchToken E token st1 with
            | error e => rw [hd] at h; cases h
            | ok r2 =>
              obtain ⟨st2, b⟩ := r2
              rw [hd] at h
              obtain ⟨-, d2⟩ := dispatchToken_spec E token st1
              obtain ⟨d3, d4⟩ := d2 st2 b hd
              cases b with
              | true =>
                simp only [Except.ok.injEq, Prod.mk.injEq] at h ⊢
                obtain ⟨h1, h2, h3⟩ := h
                subst h1 h2 h3
                refine ⟨st2, Token.default E, prev, st4, ⟨rfl, rfl, rfl⟩, han, hdrain, rfl, ?_⟩
                have := (d4 rfl).1
                have := (r5 hne).2
                omega
              | false =>
                simp only [] at h ⊢
                have hoff : st2.currentOffset ≤ s.length := by
                  rw [d3 rfl]
                  exact (r5 hne).2
                exact ih st2 token hoff
                  (commandStack_openParen_step E hE s st st1 st2 token false hread hd hinv)
                  stT tokT prevT st4 h han hdrain
    · -- the cursor is at the end of the shorter line: the longer one reads the close-paren
      have heq : st.currentOffset = s.length := Nat.le_antisymm hle hge
      obtain ⟨off, ns, cs, cur⟩ := st
      simp only at heq hinv
      subst heq
      have hget : (s ++ [LCDChar_CloseParen])[s.length]? = some LCDChar_CloseParen := by simp
      rw [solveLoop_succ, readToken_entity E _ ⟨s.length, ns, cs, cur⟩ _ hget (by simp)] at h
      have htype : ((Token.ofEntity E LCDChar_CloseParen (s.length : Int)).tokenType ==
          Type_EOF) = false := by simp [Token.ofEntity]
      simp only [htype, Bool.false_eq_true, if_false] at h
      cases han1 : analyzeForSyntaxError E (Token.ofEntity E LCDChar_CloseParen (s.length : Int))
          prev with
      | error e => rw [han1] at h; cases h
      | ok u =>
        rw [han1, dispatch_closeParen E hE] at h
        simp only [] at h
        cases hred : performStackOperations E false false
            ⟨s.length + 1, ns, cs, Token.ofEntity E LCDChar_CloseParen (s.length : Int)⟩ with
        | error e => rw [hred] at h; cases h
        | ok st2 =>
          rw [hred] at h
          simp only [] at h
          obtain ⟨q1, q2⟩ := (performStackOperations_spec E false false _).2 st2 hred
          obtain ⟨-, q3⟩ := performStackOperations_stacks E false false _ st2 hred
          simp only at q1 q2 q3
          cases hcs : st2.commandStack with
          | nil => rw [hcs] at h; cases h
          | cons top rest =>
            rw [hcs] at h
            simp only [] at h
            by_cases c1 : (top.entity == LCDChar_OpenParen) = true
            · simp only [c1, if_true] at h
              have htop : top.isEntity LCDChar_OpenParen = true := by
                have hmem : top ∈ cs := q3.subset (by rw [hcs]; simp)
                have := hinv top hmem (by simpa using c1)
                simp [Token.isEntity, this, c1]
              cases fuel with
              | zero => cases h
              | succ fuel =>
                rw [solveLoop_succ, readToken_eof E _ _ (by simp [q1])] at h
                simp only [Token.ofType, beq_self_eq_true, if_true, Except.ok.injEq,
                  Prod.mk.injEq] at h
                obtain ⟨h1, h2, h3⟩ := h
                subst h1 h2 h3
                have hs := solveLoop_eof E s (fuel + 1) s.length ns cs cur prev (Nat.le_refl _)
                obtain ⟨-, -, k3⟩ := performStackOperationsLoop_frame E true true _ _ st4 hdrain
                have hdr := drain_split E _ _ st2 top rest hred hcs htop
                  { st2 with commandStack := rest } _ rfl rfl
                  (k3 (rest.length + 1) { st2 with commandStack := rest } (by simp) rfl rfl)
                  (cs.length + 1) ⟨s.length, ns, cs, Token.ofType E Type_EOF s.length⟩
                  (by simp) rfl rfl
                refine ⟨_, _, _, _, hs, ?_, hdr, rfl, ?_⟩
                · exact analyze_eof_of_closeParen E _ prev _ (by simp [Token.ofType]) han1
                · simp only [q1]
                  omega
            · simp only [c1, Bool.false_eq_true, if_false] at h
              cases h

/-- C20 (draining closes an unmatched open-paren).  Whenever `solve` on a line followed by one
more close-paren returns a value, `solve` on the line alone returns the same value (and the
offset it writes back is the one of the longer line, or the length of the shorter line when the
close-paren was read).  This holds of every line, with or without brackets and variables. -/
theorem solve_closeParen_dropped (E : Env α) (hE : E.Coherent) (s : TextLine) (offset : Nat)
    (v : α) (offset1 : Nat)
    (h : solve E (s ++ [LCDChar_CloseParen]) offset = .ok (v, offset1)) :
    solve E s offset = .ok (v, min offset1 s.length) := by
  rcases Nat.lt_or_ge s.length offset with hgt | hle
  · rw [solve_past_end E _ offset (by simp; omega)] at h
    cases h
  · rw [solve, solveWithFuel] at h
    cases hloop : solveLoop E (s ++ [LCDChar_CloseParen])
        ((s ++ [LCDChar_CloseParen]).length - offset + 1) (initialState E offset)
        (Token.default E) with
    | error e => rw [hloop] at h; cases h
    | ok r =>
      obtain ⟨stT, tokT, prevT⟩ := r
      rw [hloop] at h
      simp only [] at h
      cases han : analyzeForSyntaxError E tokT prevT with
      | error e => rw [han] at h; cases h
      | ok u =>
        rw [han] at h
        simp only [] at h
        cases hdrain : performStackOperations E true true stT with
        | error e => rw [hdrain] at h; cases h
        | ok st4 =>
          rw [hdrain] at h
          simp only [] at h
          obtain ⟨q1, -⟩ := (performStackOperations_spec E true true stT).2 st4 hdrain
          cases hns : st4.numberStack with
          | nil => rw [hns] at h; cases h
          | cons top ns4 =>
            rw [hns] at h
            simp only [Except.ok.injEq, Prod.mk.injEq] at h
            obtain ⟨h1, h2⟩ := h
            subst h1 h2
            obtain ⟨stS, tokS, prevS, st5, s1, s2, s3, s4, s5⟩ :=
              solveLoop_closeParen_sim E hE s _ (initialState E offset) (Token.default E) hle
                (by intro x hx; cases hx) stT tokT prevT st4 hloop han hdrain
            have hfuel : (s ++ [LCDChar_CloseParen]).length - offset + 1 =
                (s.length - offset + 1) + 1 := by simp; omega
            obtain ⟨l1, -⟩ := solveLoop_spec E s (s.length - offset + 1) (initialState E offset)
              (Token.default E) (by simp [initialState])
            rw [hfuel, solveLoop_fuel_succ E s _ _ _ l1] at s1
            obtain ⟨q2, -⟩ := (performStackOperations_spec E true true stS).2 st5 s3
            rw [solve, solveWithFuel, s1]
            simp only [s2, s3]
            rw [s4, hns]
            simp only [q2, s5, q1]

/-- The run of `solve` on `a * ( b + c )`. -/
theorem solve_mul_paren_run (E : Env α) (hE : E.Coherent)
    (hadd : E.isOperator LCDChar_Add = true) (hmul : E.isOperator LCDChar_Multiply = true)
    (a b c : TextLine) (ha : IsLiteral E a) (hb : IsLiteral E b) (hc : IsLiteral E c) :
    solve E (a ++ LCDChar_Multiply :: LCDChar_OpenParen :: (b ++ LCDChar_Add ::
        (c ++ [LCDChar_CloseParen]))) 0 =
      .ok (E.mul (literalValue E a) (E.add (literalValue E b) (literalValue E c)),
        (a ++ LCDChar_Multiply :: LCDChar_OpenParen :: (b ++ LCDChar_Add ::
          (c ++ [LCDChar_CloseParen]))).length) := by
  obtain ⟨-, -, -, ha4, -⟩ := hE.operator hadd
  obtain ⟨-, -, -, hm4, -⟩ := hE.operator hmul
  obtain ⟨ho1, ho2, ho3, ho4, ho5⟩ := hE.openParen
  obtain ⟨hp1, hp2, hp3, hp4, hp5⟩ := hE.closeParen
  generalize hx : a ++ LCDChar_Multiply :: LCDChar_OpenParen :: (b ++ LCDChar_Add ::
    (c ++ [LCDChar_CloseParen])) = expr
  have hlen : expr.length = 0 + a.length + 1 + 1 + b.length + 1 + c.length + 1 := by
    rw [← hx]; simp; omega
  have e1 := fun fuel => solveLoop_literal E hE expr [] a
    (LCDChar_Multiply :: LCDChar_OpenParen :: (b ++ LCDChar_Add :: (c ++ [LCDChar_CloseParen])))
    fuel 0 [] [] (Token.default E) (Token.default E) ha
    (endsNumber_cons E _ _ hm4 (by decide)) (by simp [← hx]) rfl
    (by simp [numberStackLimit]) (analyze_after_default E _)
  have e2 := fun fuel => solveLoop_operator E hE expr LCDChar_Multiply fuel (0 + a.length)
    [literalValue E a] [literalValue E a] [] []
    (numberToken E 0 (literalValue E a)) (numberToken E 0 (literalValue E a))
    (getElem?_at a (LCDChar_OpenParen :: (b ++ LCDChar_Add :: (c ++ [LCDChar_CloseParen])))
      _ _ _ (by simp [← hx]) (by simp))
    hmul (analyze_after_number E _ _ _) (reduceTop_nil _ _ _ _ _ _)
    (by simp [commandStackLimit])
  have e3 := fun fuel => solveLoop_openParen E hE expr fuel (0 + a.length + 1)
    [literalValue E a] [Token.ofEntity E LCDChar_Multiply ((0 + a.length : Nat) : Int)]
    (Token.ofEntity E LCDChar_Multiply ((0 + a.length : Nat) : Int))
    (Token.ofEntity E LCDChar_Multiply ((0 + a.length : Nat) : Int))
    (getElem?_at (a ++ [LCDChar_Multiply]) (b ++ LCDChar_Add :: (c ++ [LCDChar_CloseParen]))
      _ _ _ (by simp [← hx]) (by simp))
    (by simp [analyzeForSyntaxError, Token.ofEntity, Token.isOperatorToken,
      Token.isPreFuncToken, Token.isPostFuncToken, Token.isEntity, Token.isVariable, hmul, ho1,
      ho3])
    (by simp [commandStackLimit])
  have e4 := fun fuel => solveLoop_literal E hE expr (a ++ [LCDChar_Multiply, LCDChar_OpenParen])
    b (LCDChar_Add :: (c ++ [LCDChar_CloseParen]))
    fuel (0 + a.length + 1 + 1) [literalValue E a]
    [Token.ofEntity E LCDChar_OpenParen ((0 + a.length + 1 : Nat) : Int),
      Token.ofEntity E LCDChar_Multiply ((0 + a.length : Nat) : Int)]
    (Token.ofEntity E LCDChar_OpenParen ((0 + a.length + 1 : Nat) : Int))
    (Token.ofEntity E LCDChar_OpenParen ((0 + a.length + 1 : Nat) : Int)) hb
    (endsNumber_cons E _ _ ha4 (by decide)) (by simp [← hx]) (by simp)
    (by simp [numberStackLimit]) (analyze_number_after_openParen E _ _ _)
  have e5 := fun fuel => solveLoop_operator E hE expr LCDChar_Add fuel
    (0 + a.length + 1 + 1 + b.length)
    [literalValue E b, literalValue E a] [literalValue E b, literalValue E a]
    [Token.ofEntity E LCDChar_OpenParen ((0 + a.length + 1 : Nat) : Int),
      Token.ofEntity E LCDChar_Multiply ((0 + a.length : Nat) : Int)]
    [Token.ofEntity E LCDChar_OpenParen ((0 + a.length + 1 : Nat) : Int),
      Token.ofEntity E LCDChar_Multiply ((0 + a.length : Nat) : Int)]
    (numberToken E (0 + a.length + 1 + 1) (literalValue E b))
    (numberToken E (0 + a.length + 1 + 1) (literalValue E b))
    (getElem?_at (a ++ [LCDChar_Multiply, LCDChar_OpenParen] ++ b) (c ++ [LCDChar_CloseParen])
      _ _ _ (by simp [← hx]) (by simp; omega))
    hadd (analyze_after_number E _ _ _)
    (reduceTop_keep _ _ _ _ _ _ _ _ (Or.inl (by simp [Token.ofEntity, ho1, ho2])))
    (by simp [commandStackLimit])
  have e6 := fun fuel => solveLoop_literal E hE expr
    (a ++ [LCDChar_Multiply, LCDChar_OpenParen] ++ b ++ [LCDChar_Add]) c [LCDChar_CloseParen]
    fuel (0 + a.length + 1 + 1 + b.length + 1) [literalValue E b, literalValue E a]
    [Token.ofEntity E LCDChar_Add ((0 + a.length + 1 + 1 + b.length : Nat) : Int),
      Token.ofEntity E LCDChar_OpenParen ((0 + a.length + 1 : Nat) : Int),
      Token.ofEntity E LCDChar_Multiply ((0 + a.length : Nat) : Int)]
    (Token.ofEntity E LCDChar_Add ((0 + a.length + 1 + 1 + b.length : Nat) : Int))
    (Token.ofEntity E LCDChar_Add ((0 + a.length + 1 + 1 + b.length : Nat) : Int)) hc
    (endsNumber_cons E _ _ hp5 (by decide)) (by simp [← hx]) (by simp; omega)
    (by simp [numberStackLimit]) (analyze_number_after_operator E _ _ _ _ hadd)
  have hred : performStackOperations E false false
      ⟨0 + a.length + 1 + 1 + b.length + 1 + c.length + 1,
        [literalValue E c, literalValue E b, literalValue E a],
        [Token.ofEntity E LCDChar_Add ((0 + a.length + 1 + 1 + b.length : Nat) : Int),
          Token.ofEntity E LCDChar_OpenParen ((0 + a.length + 1 : Nat) : Int),
          Token.ofEntity E LCDChar_Multiply ((0 + a.length : Nat) : Int)],
        Token.ofEntity E LCDChar_CloseParen
          ((0 + a.length + 1 + 1 + b.length + 1 + c.length : Nat) : Int)⟩ =
      .ok ⟨0 + a.length + 1 + 1 + b.length + 1 + c.length + 1,
        [E.add (literalValue E b) (literalValue E c), literalValue E a],
        [Token.ofEntity E LCDChar_OpenParen ((0 + a.length + 1 : Nat) : Int),
          Token.ofEntity E LCDChar_Multiply ((0 + a.length : Nat) : Int)],
        Token.ofEntity E LCDChar_CloseParen
          ((0 + a.length + 1 + 1 + b.length + 1 + c.length : Nat) : Int)⟩ := by
    rw [performStackOperations]
    simp only [List.length_cons, List.length_nil]
    rw [performStackOperationsLoop_apply E _ _ _ _ _ _ _ _
      (by simp [Token.isOperatorToken, Token.ofEntity, hadd])]
    simp only [Token.ofEntity, performOperation_add]
    rw [performStackOperationsLoop_stop E _ _ _ _ _ _ _ _
      (by simp [Token.isOperatorToken, Token.isPreFuncToken, Token.isPostFuncToken, ho1, ho2,
        ho3]) (by simp) (by simp)]
  have e7 := fun fuel => solveLoop_closeParen E hE expr fuel
    (0 + a.length + 1 + 1 + b.length + 1 + c.length)
    [literalValue E c, literalValue E b, literalValue E a]
    [E.add (literalValue E b) (literalValue E c), literalValue E a]
    [Token.ofEntity E LCDChar_Add ((0 + a.length + 1 + 1 + b.length : Nat) : Int),
      Token.ofEntity E LCDChar_OpenParen ((0 + a.length + 1 : Nat) : Int),
      Token.ofEntity E LCDChar_Multiply ((0 + a.length : Nat) : Int)]
    [Token.ofEntity E LCDChar_Multiply ((0 + a.length : Nat) : Int)]
    (numberToken E (0 + a.length + 1 + 1 + b.length + 1) (literalValue E c))
    (numberToken E (0 + a.length + 1 + 1 + b.length + 1) (literalValue E c))
    (Token.ofEntity E LCDChar_OpenParen ((0 + a.length + 1 : Nat) : Int))
    (getElem?_at (a ++ [LCDChar_Multiply, LCDChar_OpenParen] ++ b ++ [LCDChar_Add] ++ c) []
      _ _ _ (by simp [← hx]) (by simp; omega))
    (analyze_after_number E _ _ _) hred rfl
  have e8 := fun fuel => solveLoop_eof E expr fuel
    (0 + a.length + 1 + 1 + b.length + 1 + c.length + 1)
    [E.add (literalValue E b) (literalValue E c), literalValue E a]
    [Token.ofEntity E LCDChar_Multiply ((0 + a.length : Nat) : Int)]
    (Token.ofEntity E LCDChar_CloseParen
      ((0 + a.length + 1 + 1 + b.length + 1 + c.length : Nat) : Int))
    (Token.ofEntity E LCDChar_CloseParen
      ((0 + a.length + 1 + 1 + b.length + 1 + c.length : Nat) : Int))
    (by omega)
  have han : analyzeForSyntaxError E (Token.ofType E Type_EOF (expr.length : Int))
      (Token.ofEntity E LCDChar_CloseParen
        ((0 + a.length + 1 + 1 + b.length + 1 + c.length : Nat) : Int)) = .ok () :=
    analyze_not_number_after_complete E _ _
      (by simp [Token.ofEntity, Token.isOperatorToken, Token.isPreFuncToken, Token.isEntity,
        hp1, hp2])
      (by simp [Token.ofType])
  have hapos : 0 < a.length := List.length_pos.mpr ha.1
  have hbpos : 0 < b.length := List.length_pos.mpr hb.1
  have hcpos : 0 < c.length := List.length_pos.mpr hc.1
  obtain ⟨k, hk⟩ : ∃ k, expr.length - 0 + 1 = k + 8 := ⟨expr.length - 7, by omega⟩
  rw [solve, solveWithFuel, hk, initialState, e1, e2, e3, e4, e5, e6, e7, e8]
  simp only [han]
  rw [performStackOperations]
  simp only [List.length_cons, List.length_nil]
  rw [performStackOperationsLoop_apply E _ _ _ _ _ _ _ _
    (by simp [Token.isOperatorToken, Token.ofEntity, hmul])]
  simp only [Token.ofEntity, performOperation_mul, performStackOperationsLoop_nil]
  rw [hlen]

/-- C20, on the sample environment: `2*(3+4)` and `2*(3+4` both return 14. -/
theorem solve_closeParen_dropped_witness :
    solve sampleEnv [digit 2, LCDChar_Multiply, LCDChar_OpenParen, digit 3, LCDChar_Add,
        digit 4, LCDChar_CloseParen] 0 = .ok (14, 7) ∧
      solve sampleEnv [digit 2, LCDChar_Multiply, LCDChar_OpenParen, digit 3, LCDChar_Add,
        digit 4] 0 = .ok (14, 6) := by
  have h := solve_mul_paren_run sampleEnv sampleEnv_coherent rfl rfl
    [digit 2] [digit 3] [digit 4] (sample_isLiteral_digit 2 (by decide))
    (sample_isLiteral_digit 3 (by decide)) (sample_isLiteral_digit 4 (by decide))
  rw [sample_literalValue_digit 2 (by decide), sample_literalValue_digit 3 (by decide),
    sample_literalValue_digit 4 (by decide)] at h
  have h1 : solve sampleEnv ([digit 2, LCDChar_Multiply, LCDChar_OpenParen, digit 3,
      LCDChar_Add, digit 4] ++ [LCDChar_CloseParen]) 0 = .ok (14, 7) := by
    rw [show ([digit 2, LCDChar_Multiply, LCDChar_OpenParen, digit 3, LCDChar_Add, digit 4] ++
        [LCDChar_CloseParen]) = ([digit 2] ++ LCDChar_Multiply :: LCDChar_OpenParen ::
        ([digit 3] ++ LCDChar_Add :: ([digit 4] ++ [LCDChar_CloseParen]))) from rfl, h]
    norm_num [sampleEnv]
  exact ⟨h1, solve_closeParen_dropped sampleEnv sampleEnv_coherent
    [digit 2, LCDChar_Multiply, LCDChar_OpenParen, digit 3, LCDChar_Add, digit 4] 0 14 7 h1⟩

/-! ### Logarithms -/

/-- A prefix function is in no other class. -/
theorem Env.Coherent.preFunc {E : Env α} (hE : E.Coherent) {e : LCDChar}
    (h : E.isPreFunc e = true) :
    E.isOperator e = false ∧ E.isPostFunc e = false ∧ E.isAlpha e = false ∧
      E.isCipher e = false ∧ e ≠ LCDChar_Dot ∧ e ≠ LCDChar_OpenParen ∧
      e ≠ LCDChar_CloseParen ∧ e ≠ LCDChar_CloseBracket := by
  have h1 := hE.unambiguous e
  simp [Env.classes, h] at h1
  simp [h1]

theorem analyze_number_after_preFunc (E : Env α) (e : LCDChar) (offset1 : Int) (offset : Nat)
    (d : α) (h : E.isPreFunc e = true) :
    analyzeForSyntaxError E (numberToken E offset d) (Token.ofEntity E e offset1) = .ok () := by
  simp [analyzeForSyntaxError, numberToken, Token.ofType, Token.setValue, Token.ofEntity,
    Token.isOperatorToken, Token.isPreFuncToken,
    Token.isPostFuncToken, Token.isEntity, Token.isVariable, h]

theorem analyze_preFunc_after_preFunc (E : Env α) (hE : E.Coherent) (e e1 : LCDChar)
    (offset offset1 : Int) (h : E.isPreFunc e = true) :
    analyzeForSyntaxError E (Token.ofEntity E e offset) (Token.ofEntity E e1 offset1) =
      .ok () := by
  obtain ⟨h1, h2, h3, h4, h5, h6, h7, h8⟩ := hE.preFunc h
  simp [analyzeForSyntaxError, Token.ofEntity, Token.isOperatorToken, Token.isPreFuncToken,
    Token.isPostFuncToken, Token.isEntity, Token.isVariable, h1, h2, h3, h7, h8]

theorem dispatch_preFunc (E : Env α) (hE : E.Coherent) (e : LCDChar) (offset : Int)
    (st : State α) (h : E.isPreFunc e = true)
    (hcs : st.commandStack.length < commandStackLimit) :
    dispatchToken E (Token.ofEntity E e offset) st =
      .ok ({ st with commandStack := Token.ofEntity E e offset :: st.commandStack }, false) := by
  obtain ⟨h1, h2, h3, h4, h5, h6, h7, h8⟩ := hE.preFunc h
  simp [dispatchToken, pushToken, Token.ofEntity, Token.isVariable, Token.isPreFuncToken,
    Token.isEntity, h, h3, hcs]

/-- A turn of the scanning loop on a prefix function: it goes on the command stack. -/
theorem solveLoop_preFunc (E : Env α) (hE : E.Coherent) (expression : TextLine) (e : LCDChar)
    (fuel offset : Nat) (ns : List α) (cs : List (Token α)) (cur prev : Token α)
    (hget : expression[offset]? = some e) (h : E.isPreFunc e = true)
    (han : analyzeForSyntaxError E (Token.ofEntity E e offset) prev = .ok ())
    (hcs : cs.length < commandStackLimit) :
    solveLoop E expression (fuel + 1) ⟨offset, ns, cs, cur⟩ prev =
      solveLoop E expression fuel
        ⟨offset + 1, ns, Token.ofEntity E e offset :: cs, Token.ofEntity E e offset⟩
        (Token.ofEntity E e offset) :=
  solveLoop_step
    (readToken_entity E expression ⟨offset, ns, cs, cur⟩ _ hget (by simp [h]))
    (by simp [Token.ofEntity]) han
    (dispatch_preFunc E hE e offset _ h hcs)

/-- The run of `solve` on `log a`: the value is whatever `log10` returns, no test is made on
the operand. -/
theorem solve_log_run (E : Env α) (hE : E.Coherent) (hlog : E.isPreFunc LCDOp_Log = true)
    (a : TextLine) (ha : IsLiteral E a) :
    solve E (LCDOp_Log :: a) 0 = .ok (E.log10 (literalValue E a), (LCDOp_Log :: a).length) := by
  generalize hx : LCDOp_Log :: a = expr
  have hlen : expr.length = 0 + 1 + a.length := by
    rw [← hx]; simp; omega
  have hapos : 0 < a.length := List.length_pos.mpr ha.1
  obtain ⟨k, hk⟩ : ∃ k, expr.length - 0 + 1 = k + 3 := ⟨expr.length - 2, by omega⟩
  have e1 : solveLoop E expr (k + 2 + 1) (initialState E 0) (Token.default E) = _ :=
    solveLoop_preFunc E hE expr LCDOp_Log (k + 2) 0 [] [] (Token.default E) (Token.default E)
      (getElem?_at [] a _ _ _ hx.symm rfl) hlog (analyze_after_default E _)
      (by simp [commandStackLimit])
  have e2 := solveLoop_literal E hE expr [LCDOp_Log] a [] (k + 1) (0 + 1) []
    [Token.ofEntity E LCDOp_Log ((0 : Nat) : Int)]
    (Token.ofEntity E LCDOp_Log ((0 : Nat) : Int))
    (Token.ofEntity E LCDOp_Log ((0 : Nat) : Int)) ha
    (endsNumber_nil E) (by simp [← hx]) (by simp)
    (by simp [numberStackLimit])
    (analyze_number_after_preFunc E _ _ _ _ hlog)
  have e3 := solveLoop_eof E expr k (0 + 1 + a.length) [literalValue E a]
    [Token.ofEntity E LCDOp_Log ((0 : Nat) : Int)]
    (numberToken E (0 + 1) (literalValue E a)) (numberToken E (0 + 1) (literalValue E a))
    (by omega)
  rw [solve, solveWithFuel, hk, e1, e2, e3]
  simp only [analyze_after_number]
  rw [performStackOperations]
  simp only [List.length_cons, List.length_nil]
  rw [performStackOperationsLoop_apply E _ _ _ _ _ _ _ _
    (by simp [Token.isPreFuncToken, Token.ofEntity, hlog])]
  rw [hlen]
  rfl

/-- The run of `solve` on `ln - a`: the value is whatever `log` returns on the negated
literal. -/
theorem solve_ln_minus_run (E : Env α) (hE : E.Coherent) (hln : E.isPreFunc LCDOp_Ln = true)
    (hminus : E.isPreFunc LCDChar_MinusPrefix = true) (a : TextLine) (ha : IsLiteral E a) :
    solve E (LCDOp_Ln :: LCDChar_MinusPrefix :: a) 0 =
      .ok (E.log (E.neg (literalValue E a)), (LCDOp_Ln :: LCDChar_MinusPrefix :: a).length) := by
  generalize hx : LCDOp_Ln :: LCDChar_MinusPrefix :: a = expr
  have hlen : expr.length = 0 + 1 + 1 + a.length := by
    rw [← hx]; simp; omega
  have hapos : 0 < a.length := List.length_pos.mpr ha.1
  obtain ⟨k, hk⟩ : ∃ k, expr.length - 0 + 1 = k + 4 := ⟨expr.length - 3, by omega⟩
  have e1 : solveLoop E expr (k + 3 + 1) (initialState E 0) (Token.default E) = _ :=
    solveLoop_preFunc E hE expr LCDOp_Ln (k + 3) 0 [] [] (Token.default E) (Token.default E)
      (getElem?_at [] (LCDChar_MinusPrefix :: a) _ _ _ hx.symm rfl) hln
      (analyze_after_default E _) (by simp [commandStackLimit])
  have e2 := solveLoop_preFunc E hE expr LCDChar_MinusPrefix (k + 2) (0 + 1) []
    [Token.ofEntity E LCDOp_Ln ((0 : Nat) : Int)]
    (Token.ofEntity E LCDOp_Ln ((0 : Nat) : Int))
    (Token.ofEntity E LCDOp_Ln ((0 : Nat) : Int))
    (getElem?_at [LCDOp_Ln] a _ _ _ hx.symm rfl) hminus
    (analyze_preFunc_after_preFunc E hE _ _ _ _ hminus) (by simp [commandStackLimit])
  have e3 := solveLoop_literal E hE expr [LCDOp_Ln, LCDChar_MinusPrefix] a [] (k + 1)
    (0 + 1 + 1) []
    [Token.ofEntity E LCDChar_MinusPrefix ((0 + 1 : Nat) : Int),
      Token.ofEntity E LCDOp_Ln ((0 : Nat) : Int)]
    (Token.ofEntity E LCDChar_MinusPrefix ((0 + 1 : Nat) : Int))
    (Token.ofEntity E LCDChar_MinusPrefix ((0 + 1 : Nat) : Int)) ha
    (endsNumber_nil E) (by simp [← hx]) (by simp)
    (by simp [numberStackLimit])
    (analyze_number_after_preFunc E _ _ _ _ hminus)
  have e4 := solveLoop_eof E expr k (0 + 1 + 1 + a.length) [literalValue E a]
    [Token.ofEntity E LCDChar_MinusPrefix ((0 + 1 : Nat) : Int),
      Token.ofEntity E LCDOp_Ln ((0 : Nat) : Int)]
    (numberToken E (0 + 1 + 1) (literalValue E a))
    (numberToken E (0 + 1 + 1) (literalValue E a))
    (by omega)
  rw [solve, solveWithFuel, hk, e1, e2, e3, e4]
  simp only [analyze_after_number]
  rw [performStackOperations]
  simp only [List.length_cons, List.length_nil]
  rw [performStackOperationsLoop_apply E _ _ _ _ _ _ _ _
    (by simp [Token.isPreFuncToken, Token.ofEntity, hminus])]
  have hneg : performOperation E (Token.ofEntity E LCDChar_MinusPrefix ((0 + 1 : Nat) : Int)).entity
      ⟨0 + 1 + 1 + a.length, [literalValue E a], [Token.ofEntity E LCDOp_Ln ((0 : Nat) : Int)],
        Token.ofType E Type_EOF (expr.length : Int)⟩ =
      .ok ⟨0 + 1 + 1 + a.length, [E.neg (literalValue E a)],
        [Token.ofEntity E LCDOp_Ln ((0 : Nat) : Int)],
        Token.ofType E Type_EOF (expr.length : Int)⟩ := rfl
  rw [hneg]
  simp only []
  rw [performStackOperationsLoop_apply E _ _ _ _ _ _ _ _
    (by simp [Token.isPreFuncToken, Token.ofEntity, hln])]
  rw [hlen]
  rfl

/-- C21 (logarithm domain errors), what the code does.  `performOperation` of the base-10
log and of the natural log replaces the top of the number stack by what `log10` and `log`
return on it, for every operand: no test is made and no failure is raised, where the
square root tests its operand and raises a Math error on a negative one.  On the sample
environment, `solve` on `log 0` and on `ln -1` returns a value. -/
theorem performOperation_log_unchecked (E : Env α) (offset : Nat) (d : α) (ns : List α)
    (cs : List (Token α)) (cur : Token α) :
    performOperation E LCDOp_Log ⟨offset, d :: ns, cs, cur⟩ =
        .ok ⟨offset, E.log10 d :: ns, cs, cur⟩ ∧
      performOperation E LCDOp_Ln ⟨offset, d :: ns, cs, cur⟩ =
        .ok ⟨offset, E.log d :: ns, cs, cur⟩ ∧
      performOperation sampleEnv LCDChar_SquareRoot
          ⟨2, [-1], [], Token.ofType sampleEnv Type_EOF 2⟩ =
        .error (InterpreterException Error_Math 2) ∧
      solve sampleEnv [LCDOp_Log, digit 0] 0 = .ok (sampleEnv.log10 0, 2) ∧
      solve sampleEnv [LCDOp_Ln, LCDChar_MinusPrefix, digit 1] 0 =
        .ok (sampleEnv.log (-1), 3) := by
  refine ⟨rfl, rfl, ?_, ?_, ?_⟩
  · show (if sampleEnv.isNegative (-1) then
        (.error (InterpreterException Error_Math (Token.ofType sampleEnv Type_EOF 2).offset) :
          Except Failure (State ℚ))
      else .ok ⟨2, [sampleEnv.sqrt (-1)], [], Token.ofType sampleEnv Type_EOF 2⟩) = _
    simp [sampleEnv, Token.ofType]
  · have h := solve_log_run sampleEnv sampleEnv_coherent rfl [digit 0]
      (sample_isLiteral_digit 0 (by decide))
    rw [sample_literalValue_digit 0 (by decide)] at h
    rw [h]
    simp
  · have h := solve_ln_minus_run sampleEnv sampleEnv_coherent rfl rfl [digit 1]
      (sample_isLiteral_digit 1 (by decide))
    rw [sample_literalValue_digit 1 (by decide)] at h
    rw [h]
    simp [sampleEnv]

/-! ### The program selector -/

/-- The accumulation of `ShellLine::length` is exact as long as the sum fits in an `int`. -/
theorem length_foldl_exact (strings : List LCDString) :
    ∀ acc : Nat, acc + strings.flatten.length < 2147483648 →
      strings.foldl (fun length lcdStr => wrapInt (length + lcdStr.length)) (acc : Int) =
        ((acc + strings.flatten.length : Nat) : Int) := by
  induction strings with
  | nil => intro acc _; simp
  | cons s rest ih =>
    intro acc h
    simp only [List.flatten_cons, List.length_append] at h
    have h1 : wrapInt ((acc : Int) + (s.length : Int)) = ((acc + s.length : Nat) : Int) := by
      simp only [wrapInt]
      omega
    rw [List.foldl_cons, h1, ih (acc + s.length) (by omega)]
    simp only [List.flatten_cons, List.length_append]
    omega

theorem shellLine_length_exact (line : ShellLine)
    (hfit : line.strings.flatten.length < 2147483648) :
    line.length = (line.strings.flatten.length : Int) := by
  have h := length_foldl_exact line.strings 0 (by omega)
  simpa [ShellLine.length] using h

/-- The loop of `charAtOffset` from an offset inside the strings: the symbol at that offset
of their concatenation. -/
theorem charAtOffsetLoop_exact (strings : List LCDString) :
    ∀ l : Nat, strings.flatten.length < 2147483648 → l < strings.flatten.length →
      charAtOffsetLoop strings (l : Int) = strings.flatten[l]? := by
  induction strings with
  | nil => intro l _ h; simp at h
  | cons s rest ih =>
    intro l hfit hl
    simp only [List.flatten_cons, List.length_append] at hfit hl
    rw [charAtOffsetLoop, List.flatten_cons]
    rcases Nat.lt_or_ge l s.length with hlt | hge
    · have h1 : ¬ wrapInt ((l : Int) - (s.length : Int)) ≥ 0 := by
        simp only [wrapInt]
        omega
      rw [if_neg h1, if_pos (by omega), List.getElem?_append_left hlt]
      simp
    · have h1 : wrapInt ((l : Int) - (s.length : Int)) = ((l - s.length : Nat) : Int) := by
        simp only [wrapInt]
        omega
      rw [h1, if_pos (by omega), ih (l - s.length) (by omega) (by omega),
        List.getElem?_append_right hge]

/-- The loop of `stringIndexAtOffset` from an offset inside the strings: the number of
strings passed, which is the index of the string that holds the offset. -/
theorem stringIndexAtOffsetLoop_exact (strings : List LCDString) :
    ∀ (l index : Nat), strings.flatten.length < 2147483648 →
      index + strings.length < 2147483648 → l < strings.flatten.length →
      ∃ k : Nat, stringIndexAtOffsetLoop strings (l : Int) (index : Int) =
          ((index + k : Nat) : Int) ∧
        k < strings.length ∧ (strings.take k).flatten.length ≤ l ∧
        l < (strings.take (k + 1)).flatten.length := by
  induction strings with
  | nil => intro l index _ _ h; simp at h
  | cons s rest ih =>
    intro l index hfit hidx hl
    simp only [List.flatten_cons, List.length_append, List.length_cons] at hfit hl hidx
    rw [stringIndexAtOffsetLoop]
    rcases Nat.lt_or_ge l s.length with hlt | hge
    · have h1 : ¬ wrapInt ((l : Int) - (s.length : Int)) ≥ 0 := by
        simp only [wrapInt]
        omega
      rw [if_neg h1]
      exact ⟨0, by simp, by simp, by simp, by simpa using hlt⟩
    · have h1 : wrapInt ((l : Int) - (s.length : Int)) = ((l - s.length : Nat) : Int) := by
        simp only [wrapInt]
        omega
      have h2 : wrapInt ((index : Int) + 1) = ((index + 1 : Nat) : Int) := by
        simp only [wrapInt]
        omega
      rw [h1, if_pos (by omega), h2]
      obtain ⟨k, k1, k2, k3, k4⟩ := ih (l - s.length) (index + 1) (by omega) (by omega)
        (by omega)
      refine ⟨k + 1, ?_, by simp; omega, ?_, ?_⟩
      · rw [k1]
        omega
      · simp only [List.take_succ_cons, List.flatten_cons, List.length_append]
        omega
      · simp only [List.take_succ_cons, List.flatten_cons, List.length_append]
        omega

/-- C23 (flattened indexing of a `ShellLine`).  Take a `ShellLine` whose number of symbols
and number of strings fit in an `int`; its strings may be empty.  Then `length()` is the length
of the concatenation of its strings; for every offset below it, `charAtOffset` returns the
symbol at that offset of the concatenation and `stringIndexAtOffset` returns the index `k` of
the string that holds it (the first `k` strings end at or before the offset, the first `k + 1`
end after it; the result is never -1); for every offset from `length()` on, `charAtOffset`
returns the space symbol and `stringIndexAtOffset` returns `count()`. -/
theorem shellLine_flattened (line : ShellLine)
    (hfit : line.strings.flatten.length < 2147483648)
    (hcount : line.strings.length < 2147483648) :
    line.length = (line.strings.flatten.length : Int) ∧
      (∀ offset : Nat, offset < line.strings.flatten.length →
        (∃ c, line.strings.flatten[offset]? = some c ∧ line.charAtOffset offset = some c) ∧
        ∃ k : Nat, line.stringIndexAtOffset offset = some (k : Int) ∧
          k < line.strings.length ∧ (line.strings.take k).flatten.length ≤ offset ∧
          offset < (line.strings.take (k + 1)).flatten.length) ∧
      (∀ offset : Int, line.length ≤ offset →
        line.charAtOffset offset = some LCDChar_Space ∧
        line.stringIndexAtOffset offset = some line.count) := by
  have hlen := shellLine_length_exact line hfit
  refine ⟨hlen, ?_, ?_⟩
  · intro offset hoff
    constructor
    · refine ⟨line.strings.flatten[offset], List.getElem?_eq_getElem hoff, ?_⟩
      rw [ShellLine.charAtOffset, hlen, if_neg (by omega),
        charAtOffsetLoop_exact line.strings offset hfit hoff, List.getElem?_eq_getElem hoff]
    · obtain ⟨k, k1, k2, k3, k4⟩ := stringIndexAtOffsetLoop_exact line.strings offset 0 hfit
        (by omega) hoff
      refine ⟨k, ?_, k2, k3, k4⟩
      rw [ShellLine.stringIndexAtOffset, hlen, if_pos (by omega), if_neg (by omega)]
      simp only [Nat.cast_zero] at k1
      rw [k1]
      simp
  · intro offset hoff
    constructor
    · rw [ShellLine.charAtOffset, if_pos hoff]
    · rw [ShellLine.stringIndexAtOffset, if_pos (by omega), if_pos hoff]

/-- C23, on the line made of the strings `12`, the empty string and `3`: its length is 3, the
symbol at offset 2 is `3` and belongs to the string of index 2, and offset 3 is past the end. -/
theorem shellLine_flattened_witness :
    (⟨[[digit 1, digit 2], [], [digit 3]], false⟩ : ShellLine).length = 3 ∧
      (⟨[[digit 1, digit 2], [], [digit 3]], false⟩ : ShellLine).charAtOffset 2 =
        some (digit 3) ∧
      (⟨[[digit 1, digit 2], [], [digit 3]], false⟩ : ShellLine).stringIndexAtOffset 2 =
        some 2 ∧
      (⟨[[digit 1, digit 2], [], [digit 3]], false⟩ : ShellLine).charAtOffset 3 =
        some LCDChar_Space ∧
      (⟨[[digit 1, digit 2], [], [digit 3]], false⟩ : ShellLine).stringIndexAtOffset 3 =
        some 3 := by
  have h := shellLine_flattened ⟨[[digit 1, digit 2], [], [digit 3]], false⟩ (by decide)
    (by decide)
  obtain ⟨c, hc1, hc2⟩ := (h.2.1 2 (by decide)).1
  have hc : c = digit 3 := by
    have : some (digit 3) = some c := hc1
    exact (Option.some.inj this).symm
  subst hc
  exact ⟨h.1, hc2, by decide, (h.2.2 3 (by decide)).1, (h.2.2 3 (by decide)).2⟩

/-! ### The index of an indexed variable -/

/-- When the scanning loop returns with the cursor at or past the end of the line, the token
it returns is the end-of-input token `readToken` builds there (a stray close-bracket or a
symbol no token is made of leaves the cursor before the end). -/
theorem solveLoop_end_token (E : Env α) (expression : TextLine) :
    ∀ (fuel : Nat) (st : State α) (prev : Token α) (st1 : State α) (token prev1 : Token α),
      solveLoop E expression fuel st prev = .ok (st1, token, prev1) →
      expression.length ≤ st1.currentOffset →
      token = Token.ofType E Type_EOF expression.length := by
  intro fuel
  induction fuel with
  | zero => intro st prev st1 token prev1 h; cases h
  | succ fuel ih =>
    intro st prev st3 token3 prev3 h hend
    rw [solveLoop_succ] at h
    cases hread : readToken E expression st with
    | error e => rw [hread] at h; cases h
    | ok r =>
      obtain ⟨token, st1⟩ := r
      rw [hread] at h
      simp only [] at h
      obtain ⟨-, -, -, -, -, r6, r7⟩ := (readToken_spec E expression st).2 token st1 hread
      by_cases c1 : (token.tokenType == Type_EOF) = true
      · simp only [c1, if_true, Except.ok.injEq, Prod.mk.injEq] at h
        obtain ⟨h1, h2, -⟩ := h
        subst h1 h2
        obtain ⟨e1, e2⟩ := r6 (by simpa using c1)
        rcases e2 with e2 | ⟨c, hc, -⟩
        · rw [readToken_eof E expression st e2] at hread
          simp only [Except.ok.injEq, Prod.mk.injEq] at hread
          exact hread.1.symm
        · have hlt : st.currentOffset < expression.length := by
            by_contra hge
            rw [List.getElem?_eq_none (by omega)] at hc
            cases hc
          omega
      · simp only [c1, Bool.false_eq_true, if_false] at h
        cases han : analyzeForSyntaxError E token prev with
        | error e => rw [han] at h; cases h
        | ok u =>
          rw [han] at h
          simp only [] at h
          cases hd : dispatchToken E token st1 with
          | error e => rw [hd] at h; cases h
          | ok r2 =>
            obtain ⟨st2, b⟩ := r2
            rw [hd] at h
            obtain ⟨-, d2⟩ := dispatchToken_spec E token st1
            obtain ⟨-, d4⟩ := d2 st2 b hd
            cases b with
            | true =>
              simp only [Except.ok.injEq, Prod.mk.injEq] at h
              obtain ⟨h1, -, -⟩ := h
              subst h1
              obtain ⟨d5, d6⟩ := d4 rfl
              obtain ⟨e1, e2⟩ := r7 d6
              have hlt : st.currentOffset < expression.length := by
                by_contra hge
                rw [List.getElem?_eq_none (by omega)] at e2
                cases e2
              omega
            | false => exact ih st2 token st3 token3 prev3 h hend

/-- The scanning loop of `solve` returns what any run of the loop from the start state that
returns has returned. -/
theorem solveLoop_solve_fuel (E : Env α) (expression : TextLine) (offset fuel : Nat)
    (r : State α × Token α × Token α)
    (h : solveLoop E expression fuel (initialState E offset) (Token.default E) = .ok r) :
    solveLoop E expression (expression.length - offset + 1) (initialState E offset)
      (Token.default E) = .ok r := by
  obtain ⟨l1, -⟩ := solveLoop_spec E expression (expression.length - offset + 1)
    (initialState E offset) (Token.default E) (by simp [initialState])
  have h1 := solveLoop_fuel_add E expression (expression.length - offset + 1)
    (initialState E offset) (Token.default E) l1 fuel
  have h2 := solveLoop_fuel_add E expression fuel (initialState E offset) (Token.default E)
    (by rw [h]; simp) (expression.length - offset + 1)
  rw [Nat.add_comm] at h2
  rw [← h1, h2, h]

/-- The run of `solve` on a literal, a close-bracket and anything after it: the bracket is a
stray one, the scanning stops on it and the value of the literal is returned. -/
theorem solve_literal_bracket_rest_run (E : Env α) (hE : E.Coherent) (a rest : TextLine)
    (ha : IsLiteral E a) :
    solve E (a ++ LCDChar_CloseBracket :: rest) 0 = .ok (literalValue E a, a.length) := by
  obtain ⟨-, -, -, -, hb5⟩ := hE.closeBracket
  have e1 := solveLoop_literal E hE (a ++ LCDChar_CloseBracket :: rest) [] a
    (LCDChar_CloseBracket :: rest)
    ((a ++ LCDChar_CloseBracket :: rest).length - 0) 0 [] [] (Token.default E)
    (Token.default E) ha
    (endsNumber_cons E _ _ hb5 (by decide)) (by simp) rfl (by simp [numberStackLimit])
    (analyze_after_default E _)
  have hfuel : ∃ k, (a ++ LCDChar_CloseBracket :: rest).length - 0 = k + 1 :=
    ⟨a.length + rest.length, by simp; omega⟩
  obtain ⟨k, hk⟩ := hfuel
  have e2 := solveLoop_closeBracket_stray E hE (a ++ LCDChar_CloseBracket :: rest) k
    (0 + a.length) [literalValue E a] [] (numberToken E 0 (literalValue E a))
    (numberToken E 0 (literalValue E a)) _
    (getElem?_at a rest _ _ _ rfl (by simp))
    (by simp [numberToken, Token.ofType, Token.setValue, Token.isOperatorToken,
      Token.isPreFuncToken, Token.isEntity])
    (performStackOperations_nil E true false _ _ _) (by simp)
  rw [hk] at e1
  have hloop := e1.trans e2
  rw [← hk] at hloop
  rw [solve, solveWithFuel_of_loop E _ _ 0 _ _ _ hloop
    (analyze_not_number_after_complete E _ _
      (by simp [numberToken, Token.ofType, Token.setValue, Token.isOperatorToken,
        Token.isPreFuncToken, Token.isEntity])
      (by simp [Token.default])),
    performStackOperations_nil]
  simp

/-- C18 (dangling operand position at end of input), for a scan that reaches the end of the
line.  Suppose the scanning loop of a `solve` call returns without a failure with the cursor at
the end of the line (it was not stopped before the end by a stray close-bracket or by a symbol
no token is made of), and the last token read before the end is an operator, a prefix function,
an open-paren or an indexed-variable opener.  Then the token the loop ended on is the
end-of-input token, and `solve` fails with a Syntax error whose offset is the length of the
line, the offset of that token. -/
theorem solve_dangling_operand (E : Env α) (expression : TextLine) (offset fuel : Nat)
    (st : State α) (token last : Token α)
    (hloop : solveLoop E expression fuel (initialState E offset) (Token.default E) =
      .ok (st, token, last))
    (hend : expression.length ≤ st.currentOffset)
    (hlast : (last.isOperatorToken E || last.isPreFuncToken E ||
      last.isEntity LCDChar_OpenParen || last.tokenType == Type_OpenArrayVar) = true) :
    token = Token.ofType E Type_EOF expression.length ∧
      solve E expression offset =
        .error (InterpreterException Error_Syntax (expression.length : Nat)) := by
  have htok := solveLoop_end_token E expression fuel _ _ st token last hloop hend
  refine ⟨htok, ?_⟩
  rw [solve, solveWithFuel, solveLoop_solve_fuel E expression offset fuel _ hloop, htok]
  simp only []
  rw [analyzeForSyntaxError]
  simp only [hlast, if_true]
  simp [Token.ofType]

/-- C18, on the sample environment: `2+` fails with a Syntax error at offset 2. -/
theorem solve_dangling_operand_witness :
    solve sampleEnv [digit 2, LCDChar_Add] 0 =
      .error (InterpreterException Error_Syntax 2) :=
  (solve_dangling_operand sampleEnv [digit 2, LCDChar_Add] 0 3
    ⟨2, [literalValue sampleEnv [digit 2]], [Token.ofEntity sampleEnv LCDChar_Add 1],
      Token.ofType sampleEnv Type_EOF 2⟩
    (Token.ofType sampleEnv Type_EOF 2)
    (Token.ofEntity sampleEnv LCDChar_Add 1)
    ((solveLoop_literal_operator sampleEnv sampleEnv_coherent rfl [digit 2]
      (sample_isLiteral_digit 2 (by decide)) 1).trans
      (solveLoop_eof sampleEnv [digit 2, LCDChar_Add] 0 2 _ _ _ _ (by decide)))
    (by decide) rfl).2

/-- C18 as the spec states it fails on `2]+`: the last token of the line is the operator `+`
and no failure occurs before it, yet `solve` raises no Syntax error: the scanning stops on the
stray close-bracket, and `solve` returns 2 with the offset 1 of the bracket. -/
theorem solve_dangling_after_stray_bracket :
    solve sampleEnv [digit 2, LCDChar_CloseBracket, LCDChar_Add] 0 = .ok (2, 1) ∧
      solve sampleEnv [digit 2, LCDChar_CloseBracket, LCDChar_Add] 0 ≠
        .error (InterpreterException Error_Syntax 3) := by
  have h := solve_literal_bracket_rest_run sampleEnv sampleEnv_coherent [digit 2] [LCDChar_Add]
    (sample_isLiteral_digit 2 (by decide))
  rw [sample_literalValue_digit 2 (by decide)] at h
  have h1 : solve sampleEnv [digit 2, LCDChar_CloseBracket, LCDChar_Add] 0 = .ok (2, 1) := h
  refine ⟨h1, ?_⟩
  rw [h1]
  simp

end Fx7500g
